import Mathlib

/-!
# xlnt: style table, number formats and the format-section parser

A shallow embedding of the style-interning code of `source/workbook/workbook.cpp`,
of the `number_format` value type and its catalogs
(`include/xlnt/styles/number_format.hpp`, `source/styles/number_format.cpp`) and of
the format-string parser of `source/cell/cell.cpp`.

Conventions of the embedding

* `std::vector` is a `List`; `v[i]` is the unchecked C++ `operator[]`: an
  index that is not smaller than the size is undefined behaviour, which the
  embedding records as the outcome `outcome.undefined`.  A C++ exception is the
  outcome `outcome.thrown`.
* `std::hash<std::string>` belongs to the standard library and is a parameter
  `strHash : String → Nat` of every definition that compares number formats.
* `std::size_t` and the `int` locals `format_index` / `font_index` are natural
  numbers: the tables are taken to hold fewer than `2^31` entries, so that no
  conversion between `int` and `std::size_t` changes a value.
* The attribute classes `font`, `fill`, `border`, `alignment`, `protection` are
  not part of the sources at hand; they are type parameters, and `font` carries
  a decidable equality standing for `font::operator==`.
* A `std::unordered_map` is the list of its entries; the order in which a
  range-for loop visits them is a parameter (`iteration_order`).
* In cell.cpp a `std::string` is the list of its characters, `npos` is `none`,
  and `substr` throws `std::out_of_range` for a position beyond the size.
* A finite `long double` is the rational number it denotes; the date conversion
  `datetime::from_number` and `std::to_string(long double)` are parameters.
* A function that returns a reference returns a `reference`; a read through a
  reference to an element of a destroyed temporary is undefined behaviour.
-/

namespace xlnt

/-! ## Outcomes -/

/-- Outcome of a call: a returned value, a thrown C++ exception (with its
message), or undefined behaviour (an unchecked out-of-range `operator[]`). -/
inductive outcome (α : Type) where
  | value : α → outcome α
  | thrown : String → outcome α
  | undefined : outcome α
  deriving Repr, DecidableEq

/-! ## `std::find` -/

/-- The call `std::find(v.begin(), v.end(), x) - v.begin()` for a list, with `p y`
standing for `y == x`: the index of the first element that compares equal, or
`none` when the result is `v.end()`. -/
def find_index {α : Type} (p : α → Bool) : List α → Option Nat
  | [] => none
  | y :: ys => if p y then some 0 else (find_index p ys).map (· + 1)

/-- The "search, reuse the index, else append" step that `set_number_format` and
`set_font` apply to an attribute sequence and to the style sequence, with `r y x`
standing for `y == x`: the resulting sequence and the resulting index. -/
def intern {α : Type} (r : α → α → Bool) (l : List α) (x : α) : List α × Nat :=
  match find_index (fun y => r y x) l with
  | none => (l ++ [x], (l ++ [x]).length - 1)
  | some i => (l, i)

/-- No two entries at different positions of `l` compare equal under `r`. -/
def distinct_by {α : Type} (r : α → α → Bool) (l : List α) : Prop :=
  ∀ (i j : Nat) (a b : α), l[i]? = some a → l[j]? = some b → r a b = true → i = j

/-! ## `number_format` (number_format.hpp) -/

/-- The enumeration `number_format::format`. -/
inductive format where
  | general
  | text
  | number
  | number_00
  | number_comma_separated1
  | number_comma_separated2
  | percentage
  | percentage_00
  | date_yyyymmdd2
  | date_yyyymmdd
  | date_ddmmyyyy
  | date_dmyslash
  | date_dmyminus
  | date_dmminus
  | date_myminus
  | date_xlsx14
  | date_xlsx15
  | date_xlsx16
  | date_xlsx17
  | date_xlsx22
  | date_datetime
  | date_time1
  | date_time2
  | date_time3
  | date_time4
  | date_time5
  | date_time6
  | date_time7
  | date_time8
  | date_timedelta
  | date_yyyymmddslash
  | currency_usd_simple
  | currency_usd
  | currency_eur_simple
  | unknown
  deriving Repr, DecidableEq

/-- The private members of `class number_format`. -/
structure number_format where
  format_code_ : format
  format_index_ : Int
  format_string_ : String
  deriving Repr, DecidableEq

/-- The method `number_format::hash`: `std::hash<std::string>` of `format_string_`. -/
def number_format.hash (strHash : String → Nat) (self : number_format) : Nat :=
  strHash self.format_string_

/-- The method `number_format::operator==`: `hash() == other.hash()`. -/
def number_format.eq (strHash : String → Nat) (self other : number_format) : Bool :=
  self.hash strHash == other.hash strHash

/-! ## `style` and `workbook_impl` -/

/-- Modelled from the spec: the class `style` (xlnt/styles/style.hpp is not among
the sources).  The index members and the two flags are those of the spec's Style
record; `style_index_` and `number_format_` are the further members that
`workbook::set_number_format` assigns. -/
structure style where
  style_index_ : Nat
  alignment_index_ : Nat
  border_index_ : Nat
  fill_index_ : Nat
  font_index_ : Nat
  number_format_index_ : Nat
  protection_index_ : Nat
  pivot_button_ : Bool
  quote_prefix_ : Bool
  number_format_ : number_format
  deriving Repr, DecidableEq

/-- Modelled from the spec: the default constructor `style::style()` (the class is
not among the sources): every index zero, both flags off, and the default
number format `number_format(format::general)`, whose string is "General" with
builtin index 0. -/
def style.default : style :=
  { style_index_ := 0, alignment_index_ := 0, border_index_ := 0, fill_index_ := 0,
    font_index_ := 0, number_format_index_ := 0, protection_index_ := 0,
    pivot_button_ := false, quote_prefix_ := false,
    number_format_ := { format_code_ := format.general, format_index_ := 0,
                        format_string_ := "General" } }

/-- Modelled from the spec: `style::operator==` (the class is not among the
sources): "Two Styles are equal iff all indices and flags are equal", the
indices being number_format_index, font_index, fill_index, border_index,
alignment_index and protection_index. -/
def style.eq (self other : style) : Bool :=
  self.number_format_index_ == other.number_format_index_ &&
  self.font_index_ == other.font_index_ &&
  self.fill_index_ == other.fill_index_ &&
  self.border_index_ == other.border_index_ &&
  self.alignment_index_ == other.alignment_index_ &&
  self.protection_index_ == other.protection_index_ &&
  self.pivot_button_ == other.pivot_button_ &&
  self.quote_prefix_ == other.quote_prefix_

/-- The part of `detail::workbook_impl` that the style functions of workbook.cpp
read and write (the members `styles_`, `number_formats_`, `fonts_`, `fills_`,
`borders_`, `alignments_`, `protections_`). -/
structure workbook_impl (Font Fill Border Alignment Protection : Type) where
  styles_ : List style
  number_formats_ : List number_format
  fonts_ : List Font
  fills_ : List Fill
  borders_ : List Border
  alignments_ : List Alignment
  protections_ : List Protection

/-- The style members of a freshly constructed `workbook_impl`: every vector empty. -/
def workbook_impl.empty {Font Fill Border Alignment Protection : Type} :
    workbook_impl Font Fill Border Alignment Protection :=
  { styles_ := [], number_formats_ := [], fonts_ := [], fills_ := [], borders_ := [],
    alignments_ := [], protections_ := [] }

/-- The unchecked access `v[i]` of a `std::vector`. -/
def vector_at {α : Type} (v : List α) (i : Nat) : outcome α :=
  match v[i]? with
  | some x => outcome.value x
  | none => outcome.undefined

section workbook

variable {Font Fill Border Alignment Protection : Type}

/-- The accessor `workbook::get_number_format` (workbook.cpp 739-742). -/
def workbook.get_number_format (d : workbook_impl Font Fill Border Alignment Protection)
    (style_id : Nat) : outcome number_format :=
  match d.styles_[style_id]? with
  | none => outcome.undefined
  | some st => vector_at d.number_formats_ st.number_format_index_

/-- The accessor `workbook::get_font` (workbook.cpp 744-747). -/
def workbook.get_font (d : workbook_impl Font Fill Border Alignment Protection)
    (style_id : Nat) : outcome Font :=
  match d.styles_[style_id]? with
  | none => outcome.undefined
  | some st => vector_at d.fonts_ st.font_index_

/-- The accessor `workbook::get_fill` (workbook.cpp 787-790). -/
def workbook.get_fill (d : workbook_impl Font Fill Border Alignment Protection)
    (style_id : Nat) : outcome Fill :=
  match d.styles_[style_id]? with
  | none => outcome.undefined
  | some st => vector_at d.fills_ st.fill_index_

/-- The accessor `workbook::get_border` (workbook.cpp 797-800). -/
def workbook.get_border (d : workbook_impl Font Fill Border Alignment Protection)
    (style_id : Nat) : outcome Border :=
  match d.styles_[style_id]? with
  | none => outcome.undefined
  | some st => vector_at d.borders_ st.border_index_

/-- The accessor `workbook::get_alignment` (workbook.cpp 807-810). -/
def workbook.get_alignment (d : workbook_impl Font Fill Border Alignment Protection)
    (style_id : Nat) : outcome Alignment :=
  match d.styles_[style_id]? with
  | none => outcome.undefined
  | some st => vector_at d.alignments_ st.alignment_index_

/-- The function `workbook::set_font` (workbook.cpp 749-785).  The result is the
new table together with the returned style id.  The local `font_index` is an
`int` in the source and a natural number here, which is exact while `fonts_`
holds fewer than `2^31` entries. -/
def workbook.set_font [DecidableEq Font]
    (d : workbook_impl Font Fill Border Alignment Protection) (font_ : Font)
    (style_id : Nat) :
    outcome (workbook_impl Font Fill Border Alignment Protection × Nat) :=
  let fonts1 : List Font :=
    match find_index (fun y : Font => decide (y = font_)) d.fonts_ with
    | none => d.fonts_ ++ [font_]
    | some _ => d.fonts_
  let font_index : Nat :=
    match find_index (fun y : Font => decide (y = font_)) d.fonts_ with
    | none => (d.fonts_ ++ [font_]).length - 1
    | some i => i
  match d.styles_[style_id]? with
  | none => outcome.undefined
  | some existing_style =>
    if font_index = existing_style.font_index_ then
      outcome.value ({ d with fonts_ := fonts1 }, style_id)
    else
      let new_style : style := { existing_style with font_index_ := font_index }
      match find_index (fun y : style => y.eq new_style) d.styles_ with
      | some i => outcome.value ({ d with fonts_ := fonts1 }, i)
      | none =>
        outcome.value ({ d with fonts_ := fonts1, styles_ := d.styles_ ++ [new_style] },
          (d.styles_ ++ [new_style]).length - 1)

/-- The function `workbook::set_number_format` (workbook.cpp 837-888).  The
result is the new table together with the returned style id.  The local
`format_index` is an `int` in the source and a natural number here, which is
exact while `number_formats_` holds fewer than `2^31` entries. -/
def workbook.set_number_format (strHash : String → Nat)
    (d : workbook_impl Font Fill Border Alignment Protection) (fmt : number_format)
    (style_id : Nat) :
    outcome (workbook_impl Font Fill Border Alignment Protection × Nat) :=
  let number_formats1 : List number_format :=
    match find_index (fun y : number_format => y.eq strHash fmt) d.number_formats_ with
    | none => d.number_formats_ ++ [fmt]
    | some _ => d.number_formats_
  let format_index : Nat :=
    match find_index (fun y : number_format => y.eq strHash fmt) d.number_formats_ with
    | none => (d.number_formats_ ++ [fmt]).length - 1
    | some i => i
  if d.styles_.isEmpty then
    let new_style : style :=
      { style.default with
        style_index_ := 0, alignment_index_ := 0, border_index_ := 0, fill_index_ := 0,
        font_index_ := 0, number_format_index_ := format_index, protection_index_ := 0 }
    outcome.value ({ d with number_formats_ := number_formats1,
                            styles_ := d.styles_ ++ [new_style] }, 0)
  else
    match d.styles_[style_id]? with
    | none => outcome.undefined
    | some existing_style =>
      if format_index = existing_style.number_format_index_ then
        outcome.value ({ d with number_formats_ := number_formats1 }, style_id)
      else
        let new_style : style :=
          { existing_style with
            number_format_index_ := format_index, number_format_ := fmt }
        match find_index (fun y : style => y.eq new_style) d.styles_ with
        | some i => outcome.value ({ d with number_formats_ := number_formats1 }, i)
        | none =>
          outcome.value ({ d with number_formats_ := number_formats1,
                                  styles_ := d.styles_ ++ [new_style] },
            (d.styles_ ++ [new_style]).length - 1)

/-- The states of the style table that calls of `set_number_format` and
`set_font` produce from the table of a fresh workbook. -/
inductive reachable [DecidableEq Font] (strHash : String → Nat) :
    workbook_impl Font Fill Border Alignment Protection → Prop where
  | fresh : reachable strHash workbook_impl.empty
  | number_format_step {d d1 : workbook_impl Font Fill Border Alignment Protection}
      (fmt : number_format) (style_id r : Nat) :
      reachable strHash d →
      workbook.set_number_format strHash d fmt style_id = outcome.value (d1, r) →
      reachable strHash d1
  | font_step {d d1 : workbook_impl Font Fill Border Alignment Protection}
      (font_ : Font) (style_id r : Nat) :
      reachable strHash d →
      workbook.set_font d font_ style_id = outcome.value (d1, r) →
      reachable strHash d1

end workbook

/-- One successful interning call: `d1` is the table that a `set_number_format` or
a `set_font` call returning a style id leaves from the table `d`. -/
def style_step {Font Fill Border Alignment Protection : Type} [DecidableEq Font]
    (strHash : String → Nat) (d d1 : workbook_impl Font Fill Border Alignment Protection) :
    Prop :=
  (∃ fmt style_id r,
    workbook.set_number_format strHash d fmt style_id = outcome.value (d1, r)) ∨
  (∃ font_ style_id r, workbook.set_font d font_ style_id = outcome.value (d1, r))

/-- The number format that `number_format("0.00")` constructs: builtin index 2,
symbolic code `number_00`. -/
def number_format_0_00 : number_format :=
  { format_code_ := format.number_00, format_index_ := 2, format_string_ := "0.00" }

/-- The table of a fresh workbook after `set_number_format("0.00", 0)`, with font
names standing for fonts. -/
def table_0_00 : workbook_impl String Unit Unit Unit Unit :=
  { styles_ := [{ style.default with number_format_index_ := 0 }],
    number_formats_ := [number_format_0_00],
    fonts_ := [], fills_ := [], borders_ := [], alignments_ := [], protections_ := [] }

/-- The index facts that every stored style of a table built by
`set_number_format` and `set_font` satisfies: the number-format index lies within
the number-format sequence, the font index is 0 or lies within the font sequence,
the other four indices are 0, and the other four sequences are empty. -/
def index_inv {Font Fill Border Alignment Protection : Type}
    (d : workbook_impl Font Fill Border Alignment Protection) : Prop :=
  (∀ st ∈ d.styles_,
    st.number_format_index_ < d.number_formats_.length ∧
    (st.font_index_ = 0 ∨ st.font_index_ < d.fonts_.length) ∧
    st.fill_index_ = 0 ∧ st.border_index_ = 0 ∧ st.alignment_index_ = 0 ∧
    st.protection_index_ = 0) ∧
  d.fills_ = [] ∧ d.borders_ = [] ∧ d.alignments_ = [] ∧ d.protections_ = []

/-- The number format that `number_format()` constructs: "General", builtin index 0. -/
def number_format_general : number_format :=
  { format_code_ := format.general, format_index_ := 0, format_string_ := "General" }

/-- The table `table_0_00` after `set_number_format("General", 0)`: a second
number format and a second style. -/
def table_two_formats : workbook_impl String Unit Unit Unit Unit :=
  { styles_ := [{ style.default with number_format_index_ := 0 },
                { style.default with number_format_index_ := 1,
                                     number_format_ := number_format_general }],
    number_formats_ := [number_format_0_00, number_format_general],
    fonts_ := [], fills_ := [], borders_ := [], alignments_ := [], protections_ := [] }

/-- The table `table_two_formats` after `set_font("Arial", 0)`: the first font
gets the index 0 that style 0 holds already, so no style is added. -/
def table_one_font : workbook_impl String Unit Unit Unit Unit :=
  { styles_ := [{ style.default with number_format_index_ := 0 },
                { style.default with number_format_index_ := 1,
                                     number_format_ := number_format_general }],
    number_formats_ := [number_format_0_00, number_format_general],
    fonts_ := ["Arial"], fills_ := [], borders_ := [], alignments_ := [],
    protections_ := [] }

/-- The table `table_one_font` after `set_font("Times", 0)`: a second font and a
third style, the copy of style 0 with the font index 1. -/
def table_two_fonts : workbook_impl String Unit Unit Unit Unit :=
  { styles_ := [{ style.default with number_format_index_ := 0 },
                { style.default with number_format_index_ := 1,
                                     number_format_ := number_format_general },
                { style.default with number_format_index_ := 0, font_index_ := 1 }],
    number_formats_ := [number_format_0_00, number_format_general],
    fonts_ := ["Arial", "Times"], fills_ := [], borders_ := [], alignments_ := [],
    protections_ := [] }

/-- The table of a fresh workbook after `set_number_format(g, 0)` for a number
format `g`: the format and the first style. -/
def table_of_format (g : number_format) : workbook_impl String Unit Unit Unit Unit :=
  { styles_ := [{ style.default with number_format_index_ := 0 }],
    number_formats_ := [g],
    fonts_ := [], fills_ := [], borders_ := [], alignments_ := [], protections_ := [] }

/-! ## The number-format catalog (number_format.cpp) -/

/-- The lookup `m.find(k)` of a `std::unordered_map` given as the list of its
entries: the value stored under `k`, if any. -/
def umap_find {κ ν : Type} [DecidableEq κ] (m : List (κ × ν)) (k : κ) : Option ν :=
  match m.find? (fun p => decide (p.1 = k)) with
  | some p => some p.2
  | none => none

/-- The assignment `m[k] = v` of a `std::unordered_map` given as the list of its
entries: the value under an existing key is replaced, a new key gets an entry. -/
def umap_assign {κ ν : Type} [DecidableEq κ] : List (κ × ν) → κ → ν → List (κ × ν)
  | [], k, v => [(k, v)]
  | p :: m, k, v => if p.1 = k then (k, v) :: m else p :: umap_assign m k v

/-- The initializer list of `number_format::builtin_formats()` (number_format.cpp 10-58). -/
def builtin_formats : List (Int × String) :=
  [ (0, "General"),
    (1, "0"),
    (2, "0.00"),
    (3, "#,##0"),
    (4, "#,##0.00"),
    (5, "\"$\"#,##0_);(\"$\"#,##0)"),
    (6, "\"$\"#,##0_);[Red](\"$\"#,##0)"),
    (7, "\"$\"#,##0.00_);(\"$\"#,##0.00)"),
    (8, "\"$\"#,##0.00_);[Red](\"$\"#,##0.00)"),
    (9, "0%"),
    (10, "0.00%"),
    (11, "0.00E+00"),
    (12, "# ?/?"),
    (13, "# ??/??"),
    (14, "mm-dd-yy"),
    (15, "d-mmm-yy"),
    (16, "d-mmm"),
    (17, "mmm-yy"),
    (18, "h:mm AM/PM"),
    (19, "h:mm:ss AM/PM"),
    (20, "h:mm"),
    (21, "h:mm:ss"),
    (22, "m/d/yy h:mm"),
    (37, "#,##0_);(#,##0)"),
    (38, "#,##0_);[Red](#,##0)"),
    (39, "#,##0.00_);(#,##0.00)"),
    (40, "#,##0.00_);[Red](#,##0.00)"),
    (41, "_(* #,##0_);_(* \\(#,##0\\);_(* \"-\"_);_(@_)"),
    (42, "_(\"$\"* #,##0_);_(\"$\"* \\(#,##0\\);_(\"$\"* \"-\"_);_(@_)"),
    (43, "_(* #,##0.00_);_(* \\(#,##0.00\\);_(* \"-\"??_);_(@_)"),
    (44, "_(\"$\"* #,##0.00_)_(\"$\"* \\(#,##0.00\\)_(\"$\"* \"-\"??_)_(@_)"),
    (45, "mm:ss"),
    (46, "[h]:mm:ss"),
    (47, "mmss.0"),
    (48, "##0.0E+0"),
    (49, "@") ]

/-- The call `builtin_formats().at(index)` inside the initializer of
`format_strings()`; every index used there has an entry (`builtin_string_present`),
so the `std::out_of_range` of `at` does not arise. -/
def builtin_string (index : Int) : String :=
  match umap_find builtin_formats index with
  | some s => s
  | none => ""

/-- The initializer list of `number_format::format_strings()` (number_format.cpp 68-104). -/
def format_strings : List (format × String) :=
  [ (format.general, builtin_string 0),
    (format.text, builtin_string 49),
    (format.number, builtin_string 1),
    (format.number_00, builtin_string 2),
    (format.number_comma_separated1, builtin_string 4),
    (format.number_comma_separated2, "#,##0.00_-"),
    (format.percentage, builtin_string 9),
    (format.percentage_00, builtin_string 10),
    (format.date_yyyymmdd2, "yyyy-mm-dd"),
    (format.date_yyyymmdd, "yy-mm-dd"),
    (format.date_ddmmyyyy, "dd/mm/yy"),
    (format.date_dmyslash, "d/m/y"),
    (format.date_dmyminus, "d-m-y"),
    (format.date_dmminus, "d-m"),
    (format.date_myminus, "m-y"),
    (format.date_xlsx14, builtin_string 14),
    (format.date_xlsx15, builtin_string 15),
    (format.date_xlsx16, builtin_string 16),
    (format.date_xlsx17, builtin_string 17),
    (format.date_xlsx22, builtin_string 22),
    (format.date_datetime, "yyyy-mm-dd h:mm:ss"),
    (format.date_time1, builtin_string 18),
    (format.date_time2, builtin_string 19),
    (format.date_time3, builtin_string 20),
    (format.date_time4, builtin_string 21),
    (format.date_time5, builtin_string 45),
    (format.date_time6, builtin_string 21),
    (format.date_time7, "i:s.S"),
    (format.date_time8, "h:mm:ss@"),
    (format.date_timedelta, "[hh]:mm:ss"),
    (format.date_yyyymmddslash, "yy/mm/dd@"),
    (format.currency_usd_simple, "\"$\"#,##0.00_-"),
    (format.currency_usd, "$#,##0_-"),
    (format.currency_eur_simple, "[$EUR ]#,##0.00_-") ]

/-- The order in which a range-for loop visits the two `std::unordered_map`
catalogs.  The standard leaves it to the implementation, so it is a parameter. -/
structure iteration_order where
  builtin : List (Int × String)
  strings : List (format × String)

/-- An iteration order visits every entry of its catalog exactly once. -/
def iteration_order.valid (it : iteration_order) : Prop :=
  it.builtin.Perm builtin_formats ∧ it.strings.Perm format_strings

/-- The iteration order that follows the initializer lists. -/
def declaration_order : iteration_order :=
  { builtin := builtin_formats, strings := format_strings }

/-- The map of `number_format::reversed_builtin_formats()` (number_format.cpp
109-125): `formats[format_pair.second] = format_pair.first` for every pair of
`builtin_formats()` in iteration order. -/
def reversed_builtin_formats (it : iteration_order) : List (String × Int) :=
  it.builtin.foldl (fun formats format_pair => umap_assign formats format_pair.2 format_pair.1) []

/-- The function `number_format::set_format_code` (number_format.cpp 198-211) on a
`number_format` object; `format_strings().at(format_code)` throws
`std::out_of_range` for a code without an entry. -/
def number_format.set_format_code (it : iteration_order) (self : number_format)
    (format_code : format) : outcome number_format :=
  match umap_find format_strings format_code with
  | none => outcome.thrown "std::out_of_range"
  | some s =>
    outcome.value
      { self with
        format_code_ := format_code,
        format_string_ := s,
        format_index_ :=
          match umap_find (reversed_builtin_formats it) s with
          | some i => i
          | none => -1 }

/-- The function `number_format::set_format_string` (number_format.cpp 175-196). -/
def number_format.set_format_string (it : iteration_order) (self : number_format)
    (format_string : String) : number_format :=
  let self1 : number_format :=
    { self with format_string_ := format_string, format_index_ := -1,
                format_code_ := format.unknown }
  match umap_find (reversed_builtin_formats it) format_string with
  | none => self1
  | some i =>
    let self2 : number_format := { self1 with format_index_ := i }
    match it.strings.find? (fun pair => decide (pair.2 = format_string)) with
    | some pair => { self2 with format_code_ := pair.1 }
    | none => self2

/-- The constructor `number_format::number_format(format code)`: members
`format_code_(code)`, `format_index_(0)`, then `set_format_code(code)`. -/
def number_format.of_code (it : iteration_order) (code : format) : outcome number_format :=
  number_format.set_format_code it
    { format_code_ := code, format_index_ := 0, format_string_ := "" } code

/-- The constructor `number_format::number_format(const std::string &)`: it
delegates to `number_format(format::general)` and calls `set_format_string`. -/
def number_format.of_string (it : iteration_order) (format_string : String) :
    outcome number_format :=
  match number_format.of_code it format.general with
  | outcome.value self => outcome.value (number_format.set_format_string it self format_string)
  | outcome.thrown e => outcome.thrown e
  | outcome.undefined => outcome.undefined

/-- The method `number_format::get_format_code`. -/
def number_format.get_format_code (self : number_format) : format := self.format_code_

/-- The method `number_format::get_format_string`. -/
def number_format.get_format_string (self : number_format) : String := self.format_string_

/-- The method `number_format::get_format_index`. -/
def number_format.get_format_index (self : number_format) : Int := self.format_index_

/-! ## Strings and the section parser (cell.cpp)

In the functions of cell.cpp a `std::string` is the list of its characters
(`String.toList` of a Lean string), and `std::string::npos` is `none`. -/

/-- Sequencing of two computations: an exception or undefined behaviour of the
first one ends the whole. -/
def outcome.bind {α β : Type} (x : outcome α) (f : α → outcome β) : outcome β :=
  match x with
  | outcome.value a => f a
  | outcome.thrown e => outcome.thrown e
  | outcome.undefined => outcome.undefined

/-- The access `s[i]` of a `std::string` at an index not beyond the size: the
character, or the terminating null character at `i = size()`.  Every access of
the functions below is of that kind (index 0, or index 1 after the character at
index 0 was matched). -/
def char_at (s : List Char) (i : Nat) : Char := s.getD i (Char.ofNat 0)

/-- The call `s.find(c, pos)` for a character `c`. -/
def find_char (s : List Char) (c : Char) (pos : Nat) : Option Nat :=
  (find_index (fun y => y == c) (s.drop pos)).map (· + pos)

/-- The call `s.substr(pos, len)`; it throws `std::out_of_range` when `pos` is
beyond the size. -/
def substr (s : List Char) (pos len : Nat) : outcome (List Char) :=
  if pos ≤ s.length then outcome.value ((s.drop pos).take len)
  else outcome.thrown "std::out_of_range"

/-- The call `s.substr(pos)`. -/
def substr_from (s : List Char) (pos : Nat) : outcome (List Char) :=
  if pos ≤ s.length then outcome.value (s.drop pos)
  else outcome.thrown "std::out_of_range"

/-- The `while` loop of `split_string` (cell.cpp 76-83) followed by the final
`push_back` (cell.cpp 85): the state is `previous_index`, `separator_index` and
the vector `split` built so far.  The loop ends because `separator_index` grows
with every round. -/
def split_string_loop (string : List Char) (delim : Char) (previous_index : Nat)
    (separator_index : Option Nat) (split : List (List Char)) :
    outcome (List (List Char)) :=
  match separator_index with
  | some sep =>
    match substr string previous_index (sep - previous_index) with
    | outcome.value part =>
      split_string_loop string delim (sep + 1) (find_char string delim (sep + 1))
        (split ++ [part])
    | outcome.thrown e => outcome.thrown e
    | outcome.undefined => outcome.undefined
  | none =>
    match substr_from string previous_index with
    | outcome.value part => outcome.value (split ++ [part])
    | outcome.thrown e => outcome.thrown e
    | outcome.undefined => outcome.undefined
termination_by
  match separator_index with
  | some sep => string.length - sep + 1
  | none => 0
decreasing_by
  have hlt : ∀ (l : List Char) (j : Nat),
      find_index (fun y => y == delim) l = some j → j < l.length := by
    intro l
    induction l with
    | nil => intro j h; simp [find_index] at h
    | cons y ys ih =>
      intro j h
      unfold find_index at h
      by_cases hp : (y == delim) = true
      · simp [hp] at h
        subst h
        simp
      · simp [hp] at h
        obtain ⟨k, hk, rfl⟩ := h
        have := ih k hk
        simp
        omega
  split
  · rename_i sep1 hf
    unfold find_char at hf
    cases hfi : find_index (fun y => y == delim) (List.drop (_ + 1) string) with
    | none => rw [hfi] at hf; cases hf
    | some j =>
      rw [hfi] at hf
      simp only [Option.map_some', Option.some.injEq] at hf
      have := hlt _ _ hfi
      rw [List.length_drop] at this
      omega
  · omega

/-- The function `split_string` (cell.cpp 70-88). -/
def split_string (string : List Char) (delim : Char) : outcome (List (List Char)) :=
  split_string_loop string delim 0 (find_char string delim 0) []

/-- The pieces of `string` between the occurrences of `delim`, by recursion over
the characters: the value that `split_string` computes (`split_string_eq`). -/
def split_pieces (delim : Char) : List Char → List (List Char)
  | [] => [[]]
  | c :: cs =>
    if c = delim then [] :: split_pieces delim cs
    else
      match split_pieces delim cs with
      | piece :: pieces => (c :: piece) :: pieces
      | [] => [[c]]

/-- The enumeration `condition_type` (cell.cpp 21-29). -/
inductive condition_type where
  | less_than
  | less_or_equal
  | equal
  | greater_than
  | greater_or_equal
  | invalid
  deriving Repr, DecidableEq

/-- The struct `section` (cell.cpp 31-53) with its default member initializers. -/
structure section_t where
  has_value : Bool := false
  value : List Char := []
  has_color : Bool := false
  color : List Char := []
  has_condition : Bool := false
  condition : condition_type := condition_type.invalid
  condition_value : List Char := []
  deriving Repr, DecidableEq

/-- The struct `format_sections` (cell.cpp 55-61); the default is the
value-initialization `format_sections result = {}`. -/
structure format_sections where
  first : section_t := {}
  second : section_t := {}
  third : section_t := {}
  fourth : section_t := {}
  deriving Repr, DecidableEq

/-- The vector `colors` of `is_valid_color` (cell.cpp 122-123); the adjacent
literals `"Green" "White"` of the source are one string. -/
def colors : List (List Char) :=
  ["Black".toList, "GreenWhite".toList, "Blue".toList, "Magenta".toList, "Yellow".toList,
   "Cyan".toList, "Red".toList]

/-- The function `is_valid_color` (cell.cpp 120-125). -/
def is_valid_color (color : List Char) : Bool :=
  (find_index (fun y => decide (y = color)) colors).isSome

/-- The vector `bracket_times` of `parse_section` (cell.cpp 179). -/
def bracket_times : List (List Char) :=
  ["h".toList, "hh".toList, "m".toList, "mm".toList, "s".toList, "ss".toList]

/-- The function `parse_condition` (cell.cpp 127-171): the section after the call
and the returned flag. -/
def parse_condition (string : List Char) (s : section_t) : outcome (section_t × Bool) :=
  let s0 : section_t :=
    { s with has_condition := false, condition := condition_type.invalid,
             condition_value := [] }
  (if char_at string 0 = '<' then
    if char_at string 1 = '=' then
      (substr_from string 2).bind fun v =>
        outcome.value { s0 with has_condition := true,
                                condition := condition_type.less_or_equal,
                                condition_value := v }
    else
      (substr_from string 1).bind fun v =>
        outcome.value { s0 with has_condition := true,
                                condition := condition_type.less_than,
                                condition_value := v }
  else outcome.value s0).bind fun s1 =>
  (if char_at string 0 = '>' then
    if char_at string 1 = '=' then
      (substr_from string 2).bind fun v =>
        outcome.value { s1 with has_condition := true,
                                condition := condition_type.greater_or_equal,
                                condition_value := v }
    else
      (substr_from string 1).bind fun v =>
        outcome.value { s1 with has_condition := true,
                                condition := condition_type.greater_than,
                                condition_value := v }
  else if char_at string 0 = '=' then
    (substr_from string 1).bind fun v =>
      outcome.value { s1 with has_condition := true,
                              condition := condition_type.equal,
                              condition_value := v }
  else outcome.value s1).bind fun s2 =>
  outcome.value (s2, s2.has_condition)

/-- One of the two bracket blocks of `parse_section` (cell.cpp 181-200 and
202-221): from the current `intermediate` to the bracket part and the new
`intermediate`.  Both blocks search the close bracket in `section_string`. -/
def parse_bracket (section_string intermediate : List Char) :
    outcome (List Char × List Char) :=
  match find_char section_string ']' 0 with
  | none => outcome.thrown "missing close bracket"
  | some close_bracket_pos =>
    (substr intermediate 1 (close_bracket_pos - 1)).bind fun bracket_part =>
      if (find_index (fun y => decide (y = bracket_part)) bracket_times).isSome then
        outcome.value ([], intermediate)
      else
        (substr_from intermediate close_bracket_pos).bind fun rest =>
          outcome.value (bracket_part, rest)

/-- The function `parse_section` (cell.cpp 173-262). -/
def parse_section (section_string : List Char) : outcome section_t :=
  let s : section_t := {}
  (if char_at section_string 0 = '[' then parse_bracket section_string section_string
   else outcome.value ([], section_string)).bind fun (first_bracket_part, intermediate1) =>
  (if !first_bracket_part.isEmpty && char_at intermediate1 0 = '[' then
     parse_bracket section_string intermediate1
   else outcome.value ([], intermediate1)).bind fun (second_bracket_part, intermediate) =>
  (if !first_bracket_part.isEmpty then
     if is_valid_color first_bracket_part then
       outcome.value { s with color := first_bracket_part, has_color := true }
     else
       (parse_condition first_bracket_part s).bind fun (s1, ok) =>
         if !ok then outcome.thrown "invalid condition" else outcome.value s1
   else outcome.value s).bind fun s1 =>
  (if !second_bracket_part.isEmpty then
     if is_valid_color second_bracket_part then
       if s1.has_color then outcome.thrown "two colors in one section"
       else outcome.value { s1 with color := second_bracket_part, has_color := true }
     else if s1.has_condition then outcome.thrown "two conditions in one section"
     else
       (parse_condition second_bracket_part s1).bind fun (s2, ok) =>
         if !ok then outcome.thrown "invalid condition" else outcome.value s2
   else outcome.value s1).bind fun s2 =>
  outcome.value { s2 with value := intermediate, has_value := true }

/-- The function `parse_format_sections` (cell.cpp 264-319). -/
def parse_format_sections (combined : List Char) : outcome format_sections :=
  let result : format_sections := {}
  (split_string combined ';').bind fun split =>
  if split.isEmpty then outcome.thrown "empty string"
  else
    ((vector_at split 0).bind parse_section).bind fun first =>
    let result1 : format_sections := { result with first := first }
    let result2 : format_sections :=
      if !result1.first.has_condition then
        { result1 with second := result1.first, third := result1.first }
      else result1
    (if split.length > 1 then
       ((vector_at split 1).bind parse_section).bind fun second =>
         outcome.value { result2 with second := second }
     else outcome.value result2).bind fun result3 =>
    (if split.length > 2 then
       if result3.first.has_condition && !result3.second.has_condition then
         outcome.thrown "first two sections should have conditions"
       else
         ((vector_at split 2).bind parse_section).bind fun third =>
           if third.has_condition then
             outcome.thrown "third section shouldn't have a condition"
           else outcome.value { result3 with third := third }
     else outcome.value result3).bind fun result4 =>
    (if split.length > 3 then
       if result4.first.has_condition then outcome.thrown "too many parts"
       else
         ((vector_at split 3).bind parse_section).bind fun fourth =>
           outcome.value { result4 with fourth := fourth }
     else outcome.value result4).bind fun result5 =>
    if split.length > 4 then outcome.thrown "too many parts"
    else outcome.value result5

/-! ## Rendering (cell.cpp 321-555)

A finite `long double` is the rational number it denotes (`ℚ`); comparisons with
zero and with an integer are exact.  Infinities and NaN are not modelled.  The
date conversion `datetime::from_number` and `std::to_string(long double)` are
not part of the sources at hand and are parameters (`collaborators`). -/

/-- The enumeration `calendar` (`calendar::windows_1900`, `calendar::mac_1904`). -/
inductive calendar where
  | windows_1900
  | mac_1904
  deriving Repr, DecidableEq

/-- Modelled from the spec: the calendar fields of `xlnt::datetime`
(xlnt/common/datetime.hpp is not among the sources): "{year, month, day, hour,
minute, second}", each an `int`. -/
structure datetime where
  year : Int
  month : Int
  day : Int
  hour : Int
  minute : Int
  second : Int
  deriving Repr, DecidableEq

/-- The functions that `format_section` calls and that are not in the sources:
`xlnt::datetime::from_number(number, base_date)` and `std::to_string(long double)`. -/
structure collaborators where
  from_number : ℚ → calendar → datetime
  to_string_long_double : ℚ → List Char

/-- The calls `std::to_string(int)` and `std::to_string(long long)`: the decimal
digits, after a `-` for a negative value. -/
def std_to_string (n : Int) : List Char :=
  if n < 0 then '-' :: Nat.toDigits 10 n.natAbs else Nat.toDigits 10 n.natAbs

/-- The conversion `static_cast<long long int>(number)`: the value is truncated
toward zero; the behaviour is undefined when the truncated value does not fit. -/
def static_cast_long_long (number : ℚ) : outcome Int :=
  if -(2 : Int) ^ 63 ≤ number.num.tdiv number.den ∧ number.num.tdiv number.den < (2 : Int) ^ 63
  then outcome.value (number.num.tdiv number.den)
  else outcome.undefined

/-- The vector `MonthNames` (cell.cpp 321-335). -/
def MonthNames : List (List Char) :=
  ["January".toList, "February".toList, "March".toList, "April".toList, "May".toList,
   "June".toList, "July".toList, "August".toList, "September".toList, "October".toList,
   "November".toList, "December".toList]

/-- The call `MonthNames.at(month - 1)`: `at` throws `std::out_of_range` for an
index that is not smaller than 12 (a negative `int` converts to a large
`std::size_t`). -/
def month_name (month : Int) : outcome (List Char) :=
  if 1 ≤ month ∧ month ≤ 12 then
    match MonthNames[(month - 1).toNat]? with
    | some name => outcome.value name
    | none => outcome.thrown "std::out_of_range"
  else outcome.thrown "std::out_of_range"

/-- The call `s.find_first_of(delims, pos)`. -/
def find_first_of (s delims : List Char) (pos : Nat) : Option Nat :=
  (find_index (fun y => decide (y ∈ delims)) (s.drop pos)).map (· + pos)

/-- The `while` loop of `split_string_any` (cell.cpp 96-107) followed by the final
`push_back` (cell.cpp 109): as `split_string_loop`, but a part that is empty is
not pushed inside the loop. -/
def split_string_any_loop (string delims : List Char) (previous_index : Nat)
    (separator_index : Option Nat) (split : List (List Char)) :
    outcome (List (List Char)) :=
  match separator_index with
  | some sep =>
    match substr string previous_index (sep - previous_index) with
    | outcome.value part =>
      split_string_any_loop string delims (sep + 1) (find_first_of string delims (sep + 1))
        (if !part.isEmpty then split ++ [part] else split)
    | outcome.thrown e => outcome.thrown e
    | outcome.undefined => outcome.undefined
  | none =>
    match substr_from string previous_index with
    | outcome.value part => outcome.value (split ++ [part])
    | outcome.thrown e => outcome.thrown e
    | outcome.undefined => outcome.undefined
termination_by
  match separator_index with
  | some sep => string.length - sep + 1
  | none => 0
decreasing_by
  have hlt : ∀ (l : List Char) (j : Nat),
      find_index (fun y => decide (y ∈ delims)) l = some j → j < l.length := by
    intro l
    induction l with
    | nil => intro j h; simp [find_index] at h
    | cons y ys ih =>
      intro j h
      unfold find_index at h
      by_cases hp : decide (y ∈ delims) = true
      · simp [hp] at h
        subst h
        simp
      · simp [hp] at h
        obtain ⟨k, hk, rfl⟩ := h
        have := ih k hk
        simp
        omega
  split
  · rename_i sep1 hf
    unfold find_first_of at hf
    cases hfi : find_index (fun y => decide (y ∈ delims)) (List.drop (_ + 1) string) with
    | none => rw [hfi] at hf; cases hf
    | some j =>
      rw [hfi] at hf
      simp only [Option.map_some', Option.some.injEq] at hf
      have := hlt _ _ hfi
      rw [List.length_drop] at this
      omega
  · omega

/-- The pieces of `string` between the characters of `delims`, empty pieces
included, by recursion over the characters. -/
def split_any_pieces (delims : List Char) : List Char → List (List Char)
  | [] => [[]]
  | c :: cs =>
    if c ∈ delims then [] :: split_any_pieces delims cs
    else
      match split_any_pieces delims cs with
      | piece :: pieces => (c :: piece) :: pieces
      | [] => [[c]]

/-- The pieces that `split_string_any` keeps: every piece before the last one
that is not empty, and the last piece: the value that `split_string_any`
computes (`split_string_any_eq`). -/
def keep_parts : List (List Char) → List (List Char)
  | [] => []
  | [piece] => [piece]
  | piece :: next :: pieces =>
    (if !piece.isEmpty then [piece] else []) ++ keep_parts (next :: pieces)

/-- The function `split_string_any` (cell.cpp 90-112). -/
def split_string_any (string delims : List Char) : outcome (List (List Char)) :=
  split_string_any_loop string delims 0 (find_first_of string delims 0) []

/-- The characters of `is_date_format` (cell.cpp 116). -/
def date_alphabet : List Char := "/-:, mMyYdDhHsS".toList

/-- The function `is_date_format` (cell.cpp 114-118): `find_first_not_of` finds no
character outside the alphabet. -/
def is_date_format (format_string : List Char) : Bool :=
  (find_index (fun y => !decide (y ∈ date_alphabet)) format_string).isNone

/-- The loop `while(format.value.substr(index, part.size()) != part) index++`
(cell.cpp 376-379): the first index from `index` on at which `part` stands;
`substr` throws `std::out_of_range` once the index is beyond the size. -/
def locate_part (value part : List Char) (index : Nat) : outcome Nat :=
  if index ≤ value.length then
    if (value.drop index).take part.length ≠ part then locate_part value part (index + 1)
    else outcome.value index
  else outcome.thrown "std::out_of_range"
termination_by value.length + 1 - index
decreasing_by omega

/-- The appending of a field with a leading "0" below 10, as in
`if(d.day < 10) result.append("0"); result.append(std::to_string(d.day));`. -/
def append_padded (result : List Char) (field : Int) : List Char :=
  (if field < 10 then result ++ ['0'] else result) ++ std_to_string field

/-- The token blocks of the date loop (cell.cpp 384-465) for one `part`: the
`result` and the flag `processed_month` after them.  The blocks run one after
the other, each with its own `if`. -/
def append_date_part (d : datetime) (part : List Char) (result : List Char)
    (processed_month : Bool) : outcome (List Char × Bool) :=
  let st0 : List Char × Bool := (result, processed_month)
  let st1 : List Char × Bool :=
    if part = "m".toList ∧ st0.2 = false then (st0.1 ++ std_to_string d.month, true) else st0
  let st2 : List Char × Bool :=
    if part = "mm".toList ∧ st1.2 = false then (append_padded st1.1 d.month, true) else st1
  (if part = "mmm".toList ∧ st2.2 = false then
     (month_name d.month).bind fun name =>
       (substr name 0 3).bind fun abbreviated => outcome.value (st2.1 ++ abbreviated, true)
   else outcome.value st2).bind fun st3 =>
  (if part = "mmmm".toList ∧ st3.2 = false then
     (month_name d.month).bind fun name => outcome.value (st3.1 ++ name, true)
   else outcome.value st3).bind fun st4 =>
  let st5 : List Char × Bool :=
    if part = "d".toList then (st4.1 ++ std_to_string d.day, st4.2) else st4
  let st6 : List Char × Bool :=
    if part = "dd".toList then (append_padded st5.1 d.day, st5.2) else st5
  let st7 : List Char × Bool :=
    if part = "yyyy".toList then (st6.1 ++ std_to_string d.year, st6.2) else st6
  let st8 : List Char × Bool :=
    if part = "h".toList then (st7.1 ++ std_to_string d.hour, true) else st7
  let st9 : List Char × Bool :=
    if part = "hh".toList then (append_padded st8.1 d.hour, true) else st8
  let st10 : List Char × Bool :=
    if part = "m".toList then (st9.1 ++ std_to_string d.minute, st9.2) else st9
  let st11 : List Char × Bool :=
    if part = "mm".toList then (append_padded st10.1 d.minute, st10.2) else st10
  let st12 : List Char × Bool :=
    if part = "s".toList then (st11.1 ++ std_to_string d.second, st11.2) else st11
  let st13 : List Char × Bool :=
    if part = "ss".toList then (append_padded st12.1 d.second, st12.2) else st12
  outcome.value st13

/-- The `for(auto part : split)` loop of the date branch (cell.cpp 374-470): the
state is `index`, `prev`, `result` and `processed_month`; the returned pair is
`index` and `result` after the last part. -/
def format_date_loop (value : List Char) (d : datetime) :
    List (List Char) → Nat → Nat → List Char → Bool → outcome (Nat × List Char)
  | [], index, _, result, _ => outcome.value (index, result)
  | part :: parts, index, prev, result, processed_month =>
    (locate_part value part index).bind fun index1 =>
    (substr value prev (index1 - prev)).bind fun between =>
    (append_date_part d part (result ++ between) processed_month).bind fun st =>
    format_date_loop value d parts (index1 + part.length) (index1 + part.length) st.1 st.2

/-- The function `format_section(long double, const section &, calendar)`
(cell.cpp 337-495).  Its locals `unquoted` and `dates` are declared and never
read. -/
def format_section (ext : collaborators) (number : ℚ) (fmt : section_t)
    (base_date : calendar) : outcome (List Char) :=
  if is_date_format fmt.value then
    (split_string_any fmt.value ",-/: ".toList).bind fun split =>
    let d := ext.from_number number base_date
    (format_date_loop fmt.value d split 0 0 [] false).bind fun st =>
    if st.1 < fmt.value.length then
      (substr_from fmt.value st.1).bind fun tail => outcome.value (st.2 ++ tail)
    else outcome.value st.2
  else
    (static_cast_long_long number).bind fun truncated =>
    if number = (truncated : ℚ) then outcome.value (std_to_string truncated)
    else outcome.value (ext.to_string_long_double number)

/-- The lambda `unquote` of the text `format_section` (cell.cpp 514-523): the
returned flag and the string after the call.  `s.size() - 2` is computed in
`std::size_t` (64 bits). -/
def unquote (s : List Char) : outcome (Bool × List Char) :=
  if !s.isEmpty then
    if s.head? ≠ some '"' ∨ s.getLast? ≠ some '"' then outcome.value (false, s)
    else
      (substr s 0 ((s.length + 2 ^ 64 - 2) % 2 ^ 64)).bind fun s1 => outcome.value (true, s1)
  else outcome.value (true, s)

/-- The function `format_section(const std::string &, const section &)`
(cell.cpp 497-531). -/
def format_section_text (text : List Char) (fmt : section_t) : outcome (List Char) :=
  (match find_char fmt.value '@' 0 with
   | some arobase_index =>
     (substr fmt.value 0 arobase_index).bind fun first_part =>
     (substr_from fmt.value (arobase_index + 1)).bind fun last_part =>
       outcome.value (first_part, text, last_part)
   | none => outcome.value (fmt.value, [], [])).bind fun parts =>
  (unquote parts.1).bind fun u1 =>
  if !u1.1 then
    outcome.thrown ("additional text must be enclosed in quotes: " ++ String.mk fmt.value)
  else
    (unquote parts.2.2).bind fun u2 =>
    if !u2.1 then
      outcome.thrown ("additional text must be enclosed in quotes: " ++ String.mk fmt.value)
    else outcome.value (u1.2 ++ parts.2.1 ++ u2.2)

/-- The function `format_number` (cell.cpp 533-548). -/
def format_number (ext : collaborators) (number : ℚ) (fmt : List Char)
    (base_date : calendar) : outcome (List Char) :=
  (parse_format_sections fmt).bind fun sections =>
  if number > 0 then format_section ext number sections.first base_date
  else if number < 0 then format_section ext number sections.second base_date
  else format_section ext number sections.third base_date

/-- The function `format_text` (cell.cpp 550-555). -/
def format_text (text fmt : List Char) : outcome (List Char) :=
  if fmt = "General".toList then outcome.value text
  else
    (parse_format_sections fmt).bind fun sections => format_section_text text sections.fourth

/-! ## Cells (cell.cpp 735-808, 1036-1050, 1199-1203)

The class `detail::cell_impl` is not among the sources; its members here are
those that the functions below read and write.  A function that returns a
reference returns a `reference`, which records whether the object it designates
outlives the call. -/

/-- The enumerators of `cell::type` that cell.cpp names. -/
inductive cell_type where
  | null
  | numeric
  | string
  | formula
  | boolean
  | error
  deriving Repr, DecidableEq

/-- The members of `detail::cell_impl` that `set_value`, `set_number_format`,
`get_number_format` and `is_date` read and write. -/
structure cell_impl where
  type_ : cell_type
  value_numeric_ : ℚ
  has_style_ : Bool
  style_id_ : Nat
  deriving Repr, DecidableEq

/-- What a returned `const T &` designates: an object that outlives the call
(`live`), or an element of a temporary that is destroyed at the end of the
`return` statement (`dangling`, with the value the element had). -/
inductive reference (α : Type) where
  | live : α → reference α
  | dangling : α → reference α
  deriving Repr, DecidableEq

/-- A read through a returned reference; through a dangling reference it is
undefined behaviour. -/
def reference.read {α : Type} : reference α → outcome α
  | reference.live x => outcome.value x
  | reference.dangling _ => outcome.undefined

/-- The object of `number_format::default_number_format()` (number_format.hpp
91-95): the function-local `static number_format default_`, constructed by
`number_format()`, which delegates to `number_format(format::general)`. -/
def number_format.default_number_format (it : iteration_order) : outcome number_format :=
  number_format.of_code it format.general

section cell

variable {Font Fill Border Alignment Protection : Type}

/-- The accessor `workbook::get_number_formats` (workbook.cpp 895-898): it returns
the vector by value, a copy of `number_formats_`. -/
def workbook.get_number_formats (d : workbook_impl Font Fill Border Alignment Protection) :
    List number_format :=
  d.number_formats_

/-- The function `cell::get_number_format` (cell.cpp 1036-1050), which returns a
`const number_format &`.  With a style the reference is the one that
`workbook::get_number_format` returns, into `d_->number_formats_`.  Without a
style and with number formats, it is `front()` of the vector that
`get_number_formats()` returned by value. -/
def cell.get_number_format (it : iteration_order)
    (d : workbook_impl Font Fill Border Alignment Protection) (c : cell_impl) :
    outcome (reference number_format) :=
  if c.has_style_ then
    (workbook.get_number_format d c.style_id_).bind fun nf =>
      outcome.value (reference.live nf)
  else if (workbook.get_number_formats d).isEmpty then
    (number_format.default_number_format it).bind fun nf =>
      outcome.value (reference.live nf)
  else
    match (workbook.get_number_formats d).head? with
    | some front => outcome.value (reference.dangling front)
    | none => outcome.undefined

/-- The function `cell::set_number_format` (cell.cpp 1199-1203): the table and the
cell after the call. -/
def cell.set_number_format (strHash : String → Nat)
    (d : workbook_impl Font Fill Border Alignment Protection) (c : cell_impl)
    (number_format_ : number_format) :
    outcome (workbook_impl Font Fill Border Alignment Protection × cell_impl) :=
  let c1 : cell_impl := { c with has_style_ := true }
  (workbook.set_number_format strHash d number_format_ c1.style_id_).bind fun r =>
    outcome.value (r.1, { c1 with style_id_ := r.2 })

/-- The function `cell::is_date` (cell.cpp 787-808): the `catch(std::exception)`
takes every exception of the parser (`std::runtime_error`, `std::out_of_range`). -/
def cell.is_date (it : iteration_order)
    (d : workbook_impl Font Fill Border Alignment Protection) (c : cell_impl) :
    outcome Bool :=
  if c.type_ = cell_type.numeric then
    ((cell.get_number_format it d c).bind reference.read).bind fun nf =>
      let format_string := nf.get_format_string
      if format_string ≠ "General" then
        match parse_format_sections format_string.toList with
        | outcome.value sections => outcome.value (is_date_format sections.first.value)
        | outcome.thrown _ => outcome.value false
        | outcome.undefined => outcome.undefined
      else outcome.value false
  else outcome.value false

end cell

/-- Following the words of the claim on the pattern "h:mm:ss" ("zero-padded to two
digits"): the two decimal digits of a field between 0 and 99. -/
def zero_padded_two_digits (field : Int) : List Char :=
  [Nat.digitChar (field.toNat / 10), Nat.digitChar (field.toNat % 10)]

/-- A cell without a value on which no style has been set. -/
def unset_cell : cell_impl :=
  { type_ := cell_type.null, value_numeric_ := 0, has_style_ := false, style_id_ := 0 }

/-- A sample instance of the collaborators for a time of day: every number
converts to 1900-01-01 09:05:30. -/
def sample_time_collaborators : collaborators :=
  { from_number := fun _ _ =>
      { year := 1900, month := 1, day := 1, hour := 9, minute := 5, second := 30 },
    to_string_long_double := fun _ => [] }

/-- A sample instance of the collaborators, used to evaluate the definitions on
concrete values: every number converts to 2015-03-07 00:00:00, and a number that
is not an integer prints as an empty string. -/
def sample_collaborators : collaborators :=
  { from_number := fun _ _ =>
      { year := 2015, month := 3, day := 7, hour := 0, minute := 0, second := 0 },
    to_string_long_double := fun _ => [] }

/-- A sample instance of the hash parameter, used to evaluate the definitions on
concrete tables: a polynomial hash of the characters, reduced to 64 bits. -/
def sample_hash (s : String) : Nat :=
  s.toList.foldl (fun h c => (h * 31 + c.toNat) % 2 ^ 64) 0

/-! ## Facts about `find_index` -/

theorem find_index_some_get {α : Type} (p : α → Bool) :
    ∀ (l : List α) (i : Nat), find_index p l = some i →
      ∃ x, l[i]? = some x ∧ p x = true := by
  intro l
  induction l with
  | nil => intro i h; simp [find_index] at h
  | cons y ys ih =>
    intro i h
    unfold find_index at h
    by_cases hp : p y = true
    · simp [hp] at h
      subst h
      exact ⟨y, by simp, hp⟩
    · simp [hp] at h
      obtain ⟨j, hj, rfl⟩ := h
      obtain ⟨x, hx, hpx⟩ := ih j hj
      exact ⟨x, by simpa using hx, hpx⟩

theorem find_index_some_lt {α : Type} (p : α → Bool) (l : List α) (i : Nat)
    (h : find_index p l = some i) : i < l.length := by
  obtain ⟨x, hx, _⟩ := find_index_some_get p l i h
  by_contra hlt
  rw [List.getElem?_eq_none (Nat.le_of_not_lt hlt)] at hx
  cases hx

theorem find_index_none {α : Type} (p : α → Bool) :
    ∀ (l : List α), find_index p l = none ↔ ∀ x ∈ l, p x = false := by
  intro l
  induction l with
  | nil => simp [find_index]
  | cons y ys ih =>
    unfold find_index
    by_cases hp : p y = true
    · simp [hp]
    · simp [hp, ih]

theorem find_index_append_some {α : Type} (p : α → Bool) (r : List α) :
    ∀ (l : List α) (i : Nat), find_index p l = some i →
      find_index p (l ++ r) = some i := by
  intro l
  induction l with
  | nil => intro i h; simp [find_index] at h
  | cons y ys ih =>
    intro i h
    simp only [List.cons_append]
    unfold find_index at h ⊢
    by_cases hp : p y = true
    · simpa [hp] using h
    · simp [hp] at h ⊢
      obtain ⟨j, hj, rfl⟩ := h
      exact ⟨j, ih j hj, rfl⟩

theorem find_index_append_none {α : Type} (p : α → Bool) (x : α) (hx : p x = true) :
    ∀ (l : List α), find_index p l = none →
      find_index p (l ++ [x]) = some l.length := by
  intro l
  induction l with
  | nil => intro _; simp [find_index, hx]
  | cons y ys ih =>
    intro h
    simp only [List.cons_append]
    unfold find_index at h ⊢
    by_cases hp : p y = true
    · simp [hp] at h
    · simp [hp] at h ⊢
      exact ih h

theorem countP_eq_one_of_unique {α : Type} (p : α → Bool) :
    ∀ (l : List α),
      (∀ (i j : Nat) (x y : α), l[i]? = some x → l[j]? = some y → p x = true → p y = true → i = j) →
      ∀ (k : Nat) (z : α), l[k]? = some z → p z = true → l.countP p = 1 := by
  intro l
  induction l with
  | nil => intro _ k z hk; simp at hk
  | cons a t ih =>
    intro huniq k z hk hz
    by_cases hp : p a = true
    · have hnone : ∀ x ∈ t, p x = false := by
        intro x hx
        by_contra hne
        have hpx : p x = true := by simpa using hne
        obtain ⟨j, hj⟩ := List.getElem?_of_mem hx
        have := huniq 0 (j + 1) a x (by simp) (by simpa using hj) hp hpx
        omega
      have h0 : t.countP p = 0 := by
        rw [List.countP_eq_zero]
        intro x hx
        simp [hnone x hx]
      simp [List.countP_cons, hp, h0]
    · have hk0 : k ≠ 0 := by
        intro h0
        subst h0
        simp at hk
        subst hk
        exact hp hz
      obtain ⟨k1, rfl⟩ := Nat.exists_eq_succ_of_ne_zero hk0
      have ht := ih (fun i j x y hi hj hx hy => by
        have := huniq (i + 1) (j + 1) x y (by simpa using hi) (by simpa using hj) hx hy
        omega) k1 z (by simpa using hk) hz
      simp [List.countP_cons, hp, ht]

/-! ## The "find, reuse or append" pattern -/

theorem intern_fst_append {α : Type} (r : α → α → Bool) (l : List α) (x : α) :
    ∃ t, (intern r l x).1 = l ++ t := by
  unfold intern
  cases find_index (fun y => r y x) l with
  | none => exact ⟨[x], rfl⟩
  | some i => exact ⟨[], by simp⟩

theorem intern_find {α : Type} (r : α → α → Bool) (hrefl : ∀ a, r a a = true)
    (l : List α) (x : α) :
    find_index (fun y => r y x) (intern r l x).1 = some (intern r l x).2 := by
  unfold intern
  cases h : find_index (fun y => r y x) l with
  | none =>
    simp only [List.length_append, List.length_singleton, Nat.add_sub_cancel]
    exact find_index_append_none (fun y => r y x) x (hrefl x) l h
  | some i => exact h

theorem intern_get {α : Type} (r : α → α → Bool) (hrefl : ∀ a, r a a = true)
    (l : List α) (x : α) :
    ∃ y, (intern r l x).1[(intern r l x).2]? = some y ∧ r y x = true :=
  find_index_some_get (fun y => r y x) _ _ (intern_find r hrefl l x)

theorem intern_of_find {α : Type} (r : α → α → Bool) (l : List α) (x : α) (i : Nat)
    (h : find_index (fun y => r y x) l = some i) : intern r l x = (l, i) := by
  unfold intern
  rw [h]

theorem intern_idem {α : Type} (r : α → α → Bool) (hrefl : ∀ a, r a a = true)
    (l : List α) (x : α) :
    intern r (intern r l x).1 x = intern r l x :=
  intern_of_find r _ x _ (intern_find r hrefl l x)

theorem intern_distinct {α : Type} (r : α → α → Bool)
    (hsymm : ∀ a b, r a b = true → r b a = true)
    (l : List α) (x : α) (hd : distinct_by r l) :
    distinct_by r (intern r l x).1 := by
  unfold intern
  cases h : find_index (fun y => r y x) l with
  | some i => exact hd
  | none =>
    have hno := (find_index_none _ l).mp h
    intro i j a b hi hj hab
    simp only at hi hj
    rw [List.getElem?_append] at hi hj
    by_cases hil : i < l.length
    · rw [if_pos hil] at hi
      by_cases hjl : j < l.length
      · rw [if_pos hjl] at hj
        exact hd i j a b hi hj hab
      · rw [if_neg hjl] at hj
        have hbx : b = x := by
          have := List.getElem?_mem hj
          simpa using this
        subst hbx
        have := hno a (List.getElem?_mem hi)
        simp only at this
        rw [hab] at this
        cases this
    · rw [if_neg hil] at hi
      have hax : a = x := by
        have := List.getElem?_mem hi
        simpa using this
      subst hax
      by_cases hjl : j < l.length
      · rw [if_pos hjl] at hj
        have := hno b (List.getElem?_mem hj)
        simp only at this
        rw [hsymm _ _ hab] at this
        cases this
      · rw [if_neg hjl] at hj
        have h1 : i - l.length < 1 := by
          by_contra hc
          rw [List.getElem?_eq_none (by simp only [List.length_singleton]; omega)] at hi
          cases hi
        have h2 : j - l.length < 1 := by
          by_contra hc
          rw [List.getElem?_eq_none (by simp only [List.length_singleton]; omega)] at hj
          cases hj
        omega

theorem intern_snd_lt {α : Type} (r : α → α → Bool) (l : List α) (x : α) :
    (intern r l x).2 < (intern r l x).1.length := by
  unfold intern
  cases h : find_index (fun y => r y x) l with
  | none => simp
  | some i => exact find_index_some_lt _ l i h

/-! ## The equality operators are equivalences -/

theorem number_format_eq_refl (strHash : String → Nat) (a : number_format) :
    a.eq strHash a = true := by
  simp [number_format.eq]

theorem number_format_eq_symm (strHash : String → Nat) (a b : number_format)
    (h : a.eq strHash b = true) : b.eq strHash a = true := by
  simp only [number_format.eq, beq_iff_eq] at h ⊢
  exact h.symm

theorem style_eq_iff (a b : style) :
    a.eq b = true ↔
      a.number_format_index_ = b.number_format_index_ ∧
      a.font_index_ = b.font_index_ ∧
      a.fill_index_ = b.fill_index_ ∧
      a.border_index_ = b.border_index_ ∧
      a.alignment_index_ = b.alignment_index_ ∧
      a.protection_index_ = b.protection_index_ ∧
      a.pivot_button_ = b.pivot_button_ ∧
      a.quote_prefix_ = b.quote_prefix_ := by
  simp only [style.eq, Bool.and_eq_true, beq_iff_eq]
  tauto

theorem style_eq_refl (a : style) : a.eq a = true := by
  rw [style_eq_iff]
  simp

theorem style_eq_symm (a b : style) (h : a.eq b = true) : b.eq a = true := by
  rw [style_eq_iff] at h ⊢
  obtain ⟨h1, h2, h3, h4, h5, h6, h7, h8⟩ := h
  exact ⟨h1.symm, h2.symm, h3.symm, h4.symm, h5.symm, h6.symm, h7.symm, h8.symm⟩

theorem font_eq_refl {Font : Type} [DecidableEq Font] (a : Font) :
    (fun y x : Font => decide (y = x)) a a = true := by
  simp

theorem font_eq_symm {Font : Type} [DecidableEq Font] (a b : Font)
    (h : (fun y x : Font => decide (y = x)) a b = true) :
    (fun y x : Font => decide (y = x)) b a = true := by
  simp only [decide_eq_true_eq] at h ⊢
  exact h.symm

/-! ## `set_number_format` and `set_font` through `intern` -/

section workbook

variable {Font Fill Border Alignment Protection : Type}

/-- The body of `set_number_format` with its two searches written with `intern`. -/
theorem set_number_format_eq (strHash : String → Nat)
    (d : workbook_impl Font Fill Border Alignment Protection) (fmt : number_format)
    (style_id : Nat) :
    workbook.set_number_format strHash d fmt style_id =
      if d.styles_.isEmpty then
        outcome.value
          ({ d with
             number_formats_ := (intern (number_format.eq strHash) d.number_formats_ fmt).1,
             styles_ := d.styles_ ++
               [{ style.default with
                  number_format_index_ :=
                    (intern (number_format.eq strHash) d.number_formats_ fmt).2 }] }, 0)
      else
        match d.styles_[style_id]? with
        | none => outcome.undefined
        | some existing_style =>
          if (intern (number_format.eq strHash) d.number_formats_ fmt).2
              = existing_style.number_format_index_ then
            outcome.value
              ({ d with
                 number_formats_ :=
                   (intern (number_format.eq strHash) d.number_formats_ fmt).1 }, style_id)
          else
            outcome.value
              ({ d with
                 number_formats_ :=
                   (intern (number_format.eq strHash) d.number_formats_ fmt).1,
                 styles_ := (intern style.eq d.styles_
                   { existing_style with
                     number_format_index_ :=
                       (intern (number_format.eq strHash) d.number_formats_ fmt).2,
                     number_format_ := fmt }).1 },
               (intern style.eq d.styles_
                   { existing_style with
                     number_format_index_ :=
                       (intern (number_format.eq strHash) d.number_formats_ fmt).2,
                     number_format_ := fmt }).2) := by
  unfold workbook.set_number_format intern
  cases hf : find_index (fun y : number_format => y.eq strHash fmt) d.number_formats_ <;>
  simp only [] <;>
  split <;> try rfl
  all_goals
    split
    · rfl
    · split
      · rfl
      · split <;> simp_all

/-- The body of `set_font` with its two searches written with `intern`. -/
theorem set_font_eq [DecidableEq Font]
    (d : workbook_impl Font Fill Border Alignment Protection) (font_ : Font)
    (style_id : Nat) :
    workbook.set_font d font_ style_id =
      match d.styles_[style_id]? with
      | none => outcome.undefined
      | some existing_style =>
        if (intern (fun y x : Font => decide (y = x)) d.fonts_ font_).2
            = existing_style.font_index_ then
          outcome.value
            ({ d with fonts_ := (intern (fun y x : Font => decide (y = x)) d.fonts_ font_).1 },
             style_id)
        else
          outcome.value
            ({ d with
               fonts_ := (intern (fun y x : Font => decide (y = x)) d.fonts_ font_).1,
               styles_ := (intern style.eq d.styles_
                 { existing_style with
                   font_index_ :=
                     (intern (fun y x : Font => decide (y = x)) d.fonts_ font_).2 }).1 },
             (intern style.eq d.styles_
                 { existing_style with
                   font_index_ :=
                     (intern (fun y x : Font => decide (y = x)) d.fonts_ font_).2 }).2) := by
  unfold workbook.set_font intern
  cases hf : find_index (fun y : Font => decide (y = font_)) d.fonts_ <;>
  simp only [] <;>
  split <;> try rfl
  all_goals
    split
    · rfl
    · split <;> simp_all

/-- On an empty style sequence `set_number_format` returns 0 whatever the style id. -/
theorem set_number_format_nil (strHash : String → Nat)
    (d : workbook_impl Font Fill Border Alignment Protection) (fmt : number_format)
    (style_id : Nat) (h : d.styles_ = []) :
    workbook.set_number_format strHash d fmt style_id =
      outcome.value
        ({ d with
           number_formats_ := (intern (number_format.eq strHash) d.number_formats_ fmt).1,
           styles_ :=
             [{ style.default with
                number_format_index_ :=
                  (intern (number_format.eq strHash) d.number_formats_ fmt).2 }] }, 0) := by
  rw [set_number_format_eq, h]
  simp

/-- On a valid style id of a non-empty style sequence `set_number_format` returns
the table with the format interned and the id of the style that differs from the
existing one in its `number_format_index_`. -/
theorem set_number_format_some (strHash : String → Nat)
    (d : workbook_impl Font Fill Border Alignment Protection) (fmt : number_format)
    (style_id : Nat) (x : style) (hx : d.styles_[style_id]? = some x) :
    workbook.set_number_format strHash d fmt style_id =
      if (intern (number_format.eq strHash) d.number_formats_ fmt).2
          = x.number_format_index_ then
        outcome.value
          ({ d with
             number_formats_ :=
               (intern (number_format.eq strHash) d.number_formats_ fmt).1 }, style_id)
      else
        outcome.value
          ({ d with
             number_formats_ :=
               (intern (number_format.eq strHash) d.number_formats_ fmt).1,
             styles_ := (intern style.eq d.styles_
               { x with
                 number_format_index_ :=
                   (intern (number_format.eq strHash) d.number_formats_ fmt).2,
                 number_format_ := fmt }).1 },
           (intern style.eq d.styles_
               { x with
                 number_format_index_ :=
                   (intern (number_format.eq strHash) d.number_formats_ fmt).2,
                 number_format_ := fmt }).2) := by
  have hne : d.styles_.isEmpty = false := by
    cases hs : d.styles_ with
    | nil => rw [hs] at hx; simp at hx
    | cons a t => rfl
  rw [set_number_format_eq, hne, hx]
  simp

theorem set_font_some [DecidableEq Font]
    (d : workbook_impl Font Fill Border Alignment Protection) (font_ : Font)
    (style_id : Nat) (x : style) (hx : d.styles_[style_id]? = some x) :
    workbook.set_font d font_ style_id =
      if (intern (fun y x : Font => decide (y = x)) d.fonts_ font_).2 = x.font_index_ then
        outcome.value
          ({ d with fonts_ := (intern (fun y x : Font => decide (y = x)) d.fonts_ font_).1 },
           style_id)
      else
        outcome.value
          ({ d with
             fonts_ := (intern (fun y x : Font => decide (y = x)) d.fonts_ font_).1,
             styles_ := (intern style.eq d.styles_
               { x with
                 font_index_ :=
                   (intern (fun y x : Font => decide (y = x)) d.fonts_ font_).2 }).1 },
           (intern style.eq d.styles_
               { x with
                 font_index_ :=
                   (intern (fun y x : Font => decide (y = x)) d.fonts_ font_).2 }).2) := by
  rw [set_font_eq, hx]

theorem set_font_none [DecidableEq Font]
    (d : workbook_impl Font Fill Border Alignment Protection) (font_ : Font)
    (style_id : Nat) (hx : d.styles_[style_id]? = none) :
    workbook.set_font d font_ style_id = outcome.undefined := by
  rw [set_font_eq, hx]

theorem set_number_format_none (strHash : String → Nat)
    (d : workbook_impl Font Fill Border Alignment Protection) (fmt : number_format)
    (style_id : Nat) (hne : d.styles_ ≠ []) (hx : d.styles_[style_id]? = none) :
    workbook.set_number_format strHash d fmt style_id = outcome.undefined := by
  have hne1 : d.styles_.isEmpty = false := by
    cases hs : d.styles_ with
    | nil => exact absurd hs hne
    | cons a t => rfl
  rw [set_number_format_eq, hne1, hx]
  simp

/-! ## What a successful call leaves behind -/

/-- Every successful `set_number_format` call has one of three shapes: the first
style of the table was created, the style id was returned unchanged, or the
changed copy of the style was interned in the style sequence. -/
theorem set_number_format_inv (strHash : String → Nat)
    (d d1 : workbook_impl Font Fill Border Alignment Protection) (fmt : number_format)
    (style_id r : Nat)
    (h : workbook.set_number_format strHash d fmt style_id = outcome.value (d1, r)) :
    d1.number_formats_ = (intern (number_format.eq strHash) d.number_formats_ fmt).1 ∧
    d1.fonts_ = d.fonts_ ∧ d1.fills_ = d.fills_ ∧ d1.borders_ = d.borders_ ∧
    d1.alignments_ = d.alignments_ ∧ d1.protections_ = d.protections_ ∧
    ((d.styles_ = [] ∧ r = 0 ∧
        d1.styles_ = [{ style.default with
          number_format_index_ :=
            (intern (number_format.eq strHash) d.number_formats_ fmt).2 }]) ∨
     (∃ x, d.styles_[style_id]? = some x ∧ r = style_id ∧ d1.styles_ = d.styles_ ∧
        (intern (number_format.eq strHash) d.number_formats_ fmt).2
          = x.number_format_index_) ∨
     (∃ x, d.styles_[style_id]? = some x ∧
        (intern (number_format.eq strHash) d.number_formats_ fmt).2
          ≠ x.number_format_index_ ∧
        d1.styles_ = (intern style.eq d.styles_
          { x with
            number_format_index_ :=
              (intern (number_format.eq strHash) d.number_formats_ fmt).2,
            number_format_ := fmt }).1 ∧
        r = (intern style.eq d.styles_
          { x with
            number_format_index_ :=
              (intern (number_format.eq strHash) d.number_formats_ fmt).2,
            number_format_ := fmt }).2)) := by
  by_cases hnil : d.styles_ = []
  · rw [set_number_format_nil strHash d fmt style_id hnil] at h
    injection h with h
    injection h with h1 h2
    subst h1 h2
    exact ⟨rfl, rfl, rfl, rfl, rfl, rfl, Or.inl ⟨hnil, rfl, rfl⟩⟩
  · cases hx : d.styles_[style_id]? with
    | none =>
      rw [set_number_format_none strHash d fmt style_id hnil hx] at h
      cases h
    | some x =>
      rw [set_number_format_some strHash d fmt style_id x hx] at h
      split at h
      · rename_i heq
        injection h with h
        injection h with h1 h2
        subst h1 h2
        exact ⟨rfl, rfl, rfl, rfl, rfl, rfl, Or.inr (Or.inl ⟨x, rfl, rfl, rfl, heq⟩)⟩
      · rename_i hneq
        injection h with h
        injection h with h1 h2
        subst h1 h2
        exact ⟨rfl, rfl, rfl, rfl, rfl, rfl, Or.inr (Or.inr ⟨x, rfl, hneq, rfl, rfl⟩)⟩

/-- Every successful `set_font` call has one of two shapes: the style id was
returned unchanged, or the changed copy of the style was interned in the style
sequence. -/
theorem set_font_inv [DecidableEq Font]
    (d d1 : workbook_impl Font Fill Border Alignment Protection) (font_ : Font)
    (style_id r : Nat)
    (h : workbook.set_font d font_ style_id = outcome.value (d1, r)) :
    d1.fonts_ = (intern (fun y x : Font => decide (y = x)) d.fonts_ font_).1 ∧
    d1.number_formats_ = d.number_formats_ ∧ d1.fills_ = d.fills_ ∧
    d1.borders_ = d.borders_ ∧
    d1.alignments_ = d.alignments_ ∧ d1.protections_ = d.protections_ ∧
    ((∃ x, d.styles_[style_id]? = some x ∧ r = style_id ∧ d1.styles_ = d.styles_ ∧
        (intern (fun y x : Font => decide (y = x)) d.fonts_ font_).2 = x.font_index_) ∨
     (∃ x, d.styles_[style_id]? = some x ∧
        (intern (fun y x : Font => decide (y = x)) d.fonts_ font_).2 ≠ x.font_index_ ∧
        d1.styles_ = (intern style.eq d.styles_
          { x with
            font_index_ :=
              (intern (fun y x : Font => decide (y = x)) d.fonts_ font_).2 }).1 ∧
        r = (intern style.eq d.styles_
          { x with
            font_index_ :=
              (intern (fun y x : Font => decide (y = x)) d.fonts_ font_).2 }).2)) := by
  cases hx : d.styles_[style_id]? with
  | none =>
    rw [set_font_none d font_ style_id hx] at h
    cases h
  | some x =>
    rw [set_font_some d font_ style_id x hx] at h
    split at h
    · rename_i heq
      injection h with h
      injection h with h1 h2
      subst h1 h2
      exact ⟨rfl, rfl, rfl, rfl, rfl, rfl, Or.inl ⟨x, rfl, rfl, rfl, heq⟩⟩
    · rename_i hneq
      injection h with h
      injection h with h1 h2
      subst h1 h2
      exact ⟨rfl, rfl, rfl, rfl, rfl, rfl, Or.inr ⟨x, rfl, hneq, rfl, rfl⟩⟩

/-- A `set_number_format` call returns a value on every empty style sequence and
on every valid style id. -/
theorem set_number_format_total (strHash : String → Nat)
    (d : workbook_impl Font Fill Border Alignment Protection) (fmt : number_format)
    (style_id : Nat) (h : style_id < d.styles_.length ∨ d.styles_ = []) :
    ∃ d1 r, workbook.set_number_format strHash d fmt style_id = outcome.value (d1, r) := by
  by_cases hnil : d.styles_ = []
  · rw [set_number_format_nil strHash d fmt style_id hnil]
    exact ⟨_, _, rfl⟩
  · have hlt : style_id < d.styles_.length := h.resolve_right hnil
    rw [set_number_format_some strHash d fmt style_id _ (List.getElem?_eq_getElem hlt)]
    split
    · exact ⟨_, _, rfl⟩
    · exact ⟨_, _, rfl⟩

/-- A `set_font` call returns a value on every valid style id. -/
theorem set_font_total [DecidableEq Font]
    (d : workbook_impl Font Fill Border Alignment Protection) (font_ : Font)
    (style_id : Nat) (h : style_id < d.styles_.length) :
    ∃ d1 r, workbook.set_font d font_ style_id = outcome.value (d1, r) := by
  rw [set_font_some d font_ style_id _ (List.getElem?_eq_getElem h)]
  split
  · exact ⟨_, _, rfl⟩
  · exact ⟨_, _, rfl⟩

/-! ## The style behind the returned id -/

/-- After a successful `set_number_format` on a style `x`, the returned id holds a
style with the interned format index and the other indices and flags of `x`; and
the three sequences have only grown at the end. -/
theorem set_number_format_post (strHash : String → Nat)
    (d d1 : workbook_impl Font Fill Border Alignment Protection) (fmt : number_format)
    (style_id r : Nat) (x : style) (hx : d.styles_[style_id]? = some x)
    (h : workbook.set_number_format strHash d fmt style_id = outcome.value (d1, r)) :
    d1.number_formats_ = (intern (number_format.eq strHash) d.number_formats_ fmt).1 ∧
    d1.fonts_ = d.fonts_ ∧
    (∃ t, d1.styles_ = d.styles_ ++ t) ∧
    ∃ y, d1.styles_[r]? = some y ∧
      y.number_format_index_ = (intern (number_format.eq strHash) d.number_formats_ fmt).2 ∧
      y.font_index_ = x.font_index_ ∧ y.fill_index_ = x.fill_index_ ∧
      y.border_index_ = x.border_index_ ∧ y.alignment_index_ = x.alignment_index_ ∧
      y.protection_index_ = x.protection_index_ ∧ y.pivot_button_ = x.pivot_button_ ∧
      y.quote_prefix_ = x.quote_prefix_ := by
  obtain ⟨hnf, hfo, _, _, _, _, hcases⟩ := set_number_format_inv strHash d d1 fmt style_id r h
  refine ⟨hnf, hfo, ?_⟩
  rcases hcases with ⟨hnil, _, _⟩ | ⟨x1, hx1, hr, hst, heq⟩ | ⟨x1, hx1, _, hst, hr⟩
  · rw [hnil] at hx
    simp at hx
  · rw [hx] at hx1
    injection hx1 with hx1
    subst hx1
    refine ⟨⟨[], by simp [hst]⟩, x, ?_, heq.symm, rfl, rfl, rfl, rfl, rfl, rfl, rfl⟩
    rw [hst, hr]
    exact hx
  · rw [hx] at hx1
    injection hx1 with hx1
    subst hx1
    obtain ⟨y, hy, hyeq⟩ := intern_get style.eq style_eq_refl d.styles_
      { x with
        number_format_index_ := (intern (number_format.eq strHash) d.number_formats_ fmt).2,
        number_format_ := fmt }
    rw [style_eq_iff] at hyeq
    obtain ⟨t, ht⟩ := intern_fst_append style.eq d.styles_
      { x with
        number_format_index_ := (intern (number_format.eq strHash) d.number_formats_ fmt).2,
        number_format_ := fmt }
    refine ⟨⟨t, by rw [hst, ht]⟩, y, ?_, hyeq⟩
    rw [hst, hr]
    exact hy

/-- After a successful `set_font` on a style `x`, the returned id holds a style
with the interned font index and the other indices and flags of `x`; and the
three sequences have only grown at the end. -/
theorem set_font_post [DecidableEq Font]
    (d d1 : workbook_impl Font Fill Border Alignment Protection) (font_ : Font)
    (style_id r : Nat) (x : style) (hx : d.styles_[style_id]? = some x)
    (h : workbook.set_font d font_ style_id = outcome.value (d1, r)) :
    d1.fonts_ = (intern (fun y x : Font => decide (y = x)) d.fonts_ font_).1 ∧
    d1.number_formats_ = d.number_formats_ ∧
    (∃ t, d1.styles_ = d.styles_ ++ t) ∧
    ∃ y, d1.styles_[r]? = some y ∧
      y.number_format_index_ = x.number_format_index_ ∧
      y.font_index_ = (intern (fun y x : Font => decide (y = x)) d.fonts_ font_).2 ∧
      y.fill_index_ = x.fill_index_ ∧
      y.border_index_ = x.border_index_ ∧ y.alignment_index_ = x.alignment_index_ ∧
      y.protection_index_ = x.protection_index_ ∧ y.pivot_button_ = x.pivot_button_ ∧
      y.quote_prefix_ = x.quote_prefix_ := by
  obtain ⟨hfo, hnf, _, _, _, _, hcases⟩ := set_font_inv d d1 font_ style_id r h
  refine ⟨hfo, hnf, ?_⟩
  rcases hcases with ⟨x1, hx1, hr, hst, heq⟩ | ⟨x1, hx1, _, hst, hr⟩
  · rw [hx] at hx1
    injection hx1 with hx1
    subst hx1
    refine ⟨⟨[], by simp [hst]⟩, x, ?_, rfl, heq.symm, rfl, rfl, rfl, rfl, rfl, rfl⟩
    rw [hst, hr]
    exact hx
  · rw [hx] at hx1
    injection hx1 with hx1
    subst hx1
    obtain ⟨y, hy, hyeq⟩ := intern_get style.eq style_eq_refl d.styles_
      { x with
        font_index_ := (intern (fun y x : Font => decide (y = x)) d.fonts_ font_).2 }
    rw [style_eq_iff] at hyeq
    obtain ⟨t, ht⟩ := intern_fst_append style.eq d.styles_
      { x with
        font_index_ := (intern (fun y x : Font => decide (y = x)) d.fonts_ font_).2 }
    refine ⟨⟨t, by rw [hst, ht]⟩, y, ?_, hyeq⟩
    rw [hst, hr]
    exact hy

/-! ## Uniqueness is preserved -/

theorem distinct_by_singleton {α : Type} (r : α → α → Bool) (a : α) :
    distinct_by r [a] := by
  intro i j x y hi hj _
  have h1 : i < 1 := by
    by_contra hc
    rw [List.getElem?_eq_none (by simp only [List.length_singleton]; omega)] at hi
    cases hi
  have h2 : j < 1 := by
    by_contra hc
    rw [List.getElem?_eq_none (by simp only [List.length_singleton]; omega)] at hj
    cases hj
  omega

theorem distinct_by_nil {α : Type} (r : α → α → Bool) : distinct_by r ([] : List α) := by
  intro i j x y hi
  simp at hi

theorem set_number_format_unique (strHash : String → Nat)
    (d d1 : workbook_impl Font Fill Border Alignment Protection) (fmt : number_format)
    (style_id r : Nat)
    (h : workbook.set_number_format strHash d fmt style_id = outcome.value (d1, r))
    (hn : distinct_by (number_format.eq strHash) d.number_formats_)
    (hs : distinct_by style.eq d.styles_) :
    distinct_by (number_format.eq strHash) d1.number_formats_ ∧
    distinct_by style.eq d1.styles_ := by
  obtain ⟨hnf, _, _, _, _, _, hcases⟩ := set_number_format_inv strHash d d1 fmt style_id r h
  constructor
  · rw [hnf]
    exact intern_distinct _ (number_format_eq_symm strHash) _ _ hn
  · rcases hcases with ⟨_, _, hst⟩ | ⟨x1, _, _, hst, _⟩ | ⟨x1, _, _, hst, _⟩
    · rw [hst]
      exact distinct_by_singleton _ _
    · rw [hst]
      exact hs
    · rw [hst]
      exact intern_distinct _ style_eq_symm _ _ hs

theorem set_font_unique [DecidableEq Font]
    (d d1 : workbook_impl Font Fill Border Alignment Protection) (font_ : Font)
    (style_id r : Nat)
    (h : workbook.set_font d font_ style_id = outcome.value (d1, r))
    (hf : distinct_by (fun y x : Font => decide (y = x)) d.fonts_)
    (hs : distinct_by style.eq d.styles_) :
    distinct_by (fun y x : Font => decide (y = x)) d1.fonts_ ∧
    distinct_by style.eq d1.styles_ := by
  obtain ⟨hfo, _, _, _, _, _, hcases⟩ := set_font_inv d d1 font_ style_id r h
  constructor
  · rw [hfo]
    exact intern_distinct _ font_eq_symm _ _ hf
  · rcases hcases with ⟨x1, _, _, hst, _⟩ | ⟨x1, _, _, hst, _⟩
    · rw [hst]
      exact hs
    · rw [hst]
      exact intern_distinct _ style_eq_symm _ _ hs

/-- Uniqueness of the three sequences in every reachable table. -/
theorem reachable_unique [DecidableEq Font] (strHash : String → Nat)
    (d : workbook_impl Font Fill Border Alignment Protection)
    (h : reachable strHash d) :
    distinct_by (number_format.eq strHash) d.number_formats_ ∧
    distinct_by (fun y x : Font => decide (y = x)) d.fonts_ ∧
    distinct_by style.eq d.styles_ := by
  induction h with
  | fresh => exact ⟨distinct_by_nil _, distinct_by_nil _, distinct_by_nil _⟩
  | number_format_step fmt style_id r _ hstep ih =>
    obtain ⟨hn, hf, hs⟩ := ih
    obtain ⟨hn1, hs1⟩ := set_number_format_unique strHash _ _ fmt style_id r hstep hn hs
    refine ⟨hn1, ?_, hs1⟩
    rw [(set_number_format_inv strHash _ _ fmt style_id r hstep).2.1]
    exact hf
  | font_step font_ style_id r _ hstep ih =>
    obtain ⟨hn, hf, hs⟩ := ih
    obtain ⟨hf1, hs1⟩ := set_font_unique _ _ font_ style_id r hstep hf hs
    refine ⟨?_, hf1, hs1⟩
    rw [(set_font_inv _ _ font_ style_id r hstep).2.1]
    exact hn

end workbook

theorem getElem?_append_of_some {α : Type} (l t : List α) (i : Nat) (x : α)
    (h : l[i]? = some x) : (l ++ t)[i]? = some x := by
  have hlt : i < l.length := by
    by_contra hc
    rw [List.getElem?_eq_none (Nat.le_of_not_lt hc)] at h
    cases h
  rw [List.getElem?_append_left hlt]
  exact h

theorem intern_mem {α : Type} (r : α → α → Bool) (l : List α) (x y : α)
    (h : y ∈ (intern r l x).1) : y ∈ l ∨ y = x := by
  unfold intern at h
  cases hf : find_index (fun y => r y x) l with
  | none =>
    rw [hf] at h
    simpa using h
  | some i =>
    rw [hf] at h
    exact Or.inl h

theorem intern_length_le {α : Type} (r : α → α → Bool) (l : List α) (x : α) :
    l.length ≤ (intern r l x).1.length := by
  obtain ⟨t, ht⟩ := intern_fst_append r l x
  rw [ht, List.length_append]
  omega

section workbook

variable {Font Fill Border Alignment Protection : Type}

/-- A table in which the format is found at the index the style already has is
left as it is, and the style id is returned. -/
theorem set_number_format_found_same (strHash : String → Nat)
    (d : workbook_impl Font Fill Border Alignment Protection) (fmt : number_format)
    (style_id : Nat) (x : style) (hx : d.styles_[style_id]? = some x)
    (hf : find_index (fun y : number_format => y.eq strHash fmt) d.number_formats_
      = some x.number_format_index_) :
    workbook.set_number_format strHash d fmt style_id = outcome.value (d, style_id) := by
  rw [set_number_format_some strHash d fmt style_id x hx,
    intern_of_find (number_format.eq strHash) _ fmt _ hf]
  simp

/-- A table in which both the format and the changed style are found is left as
it is, and the index of the found style is returned. -/
theorem set_number_format_found_other (strHash : String → Nat)
    (d : workbook_impl Font Fill Border Alignment Protection) (fmt : number_format)
    (style_id fi i : Nat) (x : style) (hx : d.styles_[style_id]? = some x)
    (hf : find_index (fun y : number_format => y.eq strHash fmt) d.number_formats_ = some fi)
    (hne : fi ≠ x.number_format_index_)
    (hs : find_index
      (fun y : style => y.eq { x with number_format_index_ := fi, number_format_ := fmt })
      d.styles_ = some i) :
    workbook.set_number_format strHash d fmt style_id = outcome.value (d, i) := by
  rw [set_number_format_some strHash d fmt style_id x hx,
    intern_of_find (number_format.eq strHash) _ fmt _ hf]
  simp only [if_neg hne]
  rw [intern_of_find style.eq _ _ _ hs]

/-! ## Example tables and colliding format strings -/

/-- A hash with values below a bound (`std::size_t` is bounded) sends two different
strings to the same value. -/
theorem hash_collision (strHash : String → Nat) (B : Nat) (hb : ∀ s, strHash s < B) :
    ∃ s1 s2 : String, s1 ≠ s2 ∧ strHash s1 = strHash s2 := by
  obtain ⟨x, y, hne, hxy⟩ :=
    Finite.exists_ne_map_eq_of_infinite (fun s : String => (⟨strHash s, hb s⟩ : Fin B))
  exact ⟨x, y, hne, by simpa using hxy⟩

/-- The table `table_0_00` is the result of the first call on a fresh workbook. -/
theorem table_0_00_step :
    workbook.set_number_format sample_hash
      (workbook_impl.empty : workbook_impl String Unit Unit Unit Unit) number_format_0_00 0
      = outcome.value (table_0_00, 0) := rfl

theorem table_0_00_reachable : reachable sample_hash table_0_00 :=
  reachable.number_format_step number_format_0_00 0 0 reachable.fresh table_0_00_step

/-- The format "General" set on style 0 of `table_0_00` is a second format and
gives the second style, with id 1. -/
theorem table_two_formats_step :
    workbook.set_number_format sample_hash table_0_00 number_format_general 0
      = outcome.value (table_two_formats, 1) := rfl

/-- The font "Arial" set on style 0 of `table_two_formats` is the first font and
leaves the styles as they are. -/
theorem table_one_font_step :
    workbook.set_font table_two_formats "Arial" 0 = outcome.value (table_one_font, 0) := rfl

/-- The font "Times" set on style 0 of `table_one_font` is a second font and gives
the third style, with id 2. -/
theorem table_two_fonts_step :
    workbook.set_font table_one_font "Times" 0 = outcome.value (table_two_fonts, 2) := rfl

theorem table_two_formats_reachable : reachable sample_hash table_two_formats :=
  reachable.number_format_step number_format_general 0 1 table_0_00_reachable
    table_two_formats_step

theorem table_one_font_reachable : reachable sample_hash table_one_font :=
  reachable.font_step "Arial" 0 0 table_two_formats_reachable table_one_font_step

theorem table_two_fonts_reachable : reachable sample_hash table_two_fonts :=
  reachable.font_step "Times" 0 2 table_one_font_reachable table_two_fonts_step

/-- Two number formats whose strings have one hash: after the first is interned
in a fresh workbook, the table is reachable, and interning the second on style
id 0 returns id 0 and leaves the table as it is, without an entry for the
second. -/
theorem collision_table (strHash : String → Nat) (s1 s2 : String)
    (hh : strHash s1 = strHash s2) :
    reachable strHash
      (table_of_format { format_code_ := format.unknown, format_index_ := -1,
                         format_string_ := s1 }) ∧
    workbook.set_number_format strHash
        (table_of_format { format_code_ := format.unknown, format_index_ := -1,
                           format_string_ := s1 })
        { format_code_ := format.unknown, format_index_ := -1, format_string_ := s2 } 0
      = outcome.value
        (table_of_format { format_code_ := format.unknown, format_index_ := -1,
                           format_string_ := s1 }, 0) := by
  constructor
  · refine reachable.number_format_step
      { format_code_ := format.unknown, format_index_ := -1, format_string_ := s1 } 0 0
      reachable.fresh ?_
    rw [set_number_format_nil strHash _ _ 0 rfl]
    rfl
  · have hfind : find_index
        (fun y : number_format => y.eq strHash
          { format_code_ := format.unknown, format_index_ := -1, format_string_ := s2 })
        [{ format_code_ := format.unknown, format_index_ := -1, format_string_ := s1 }]
        = some 0 := by
      simp [find_index, number_format.eq, number_format.hash, hh]
    rw [set_number_format_some strHash
      (table_of_format { format_code_ := format.unknown, format_index_ := -1,
                         format_string_ := s1 }) _ 0
      { style.default with number_format_index_ := 0 } rfl]
    simp only [table_of_format, intern_of_find (number_format.eq strHash) _ _ _ hfind, if_true]

/-! ## Idempotence of `set_number_format` (C1) -/

/-- The second of two successive `set_number_format` calls with the same
arguments returns the id of the first and leaves the table of the first, and so
does a call on the returned id. -/
theorem set_number_format_twice (strHash : String → Nat)
    (d d1 : workbook_impl Font Fill Border Alignment Protection) (fmt : number_format)
    (style_id r : Nat) (hs : style_id < d.styles_.length ∨ (d.styles_ = [] ∧ style_id = 0))
    (h : workbook.set_number_format strHash d fmt style_id = outcome.value (d1, r)) :
    workbook.set_number_format strHash d1 fmt style_id = outcome.value (d1, r) ∧
    workbook.set_number_format strHash d1 fmt r = outcome.value (d1, r) := by
  obtain ⟨hnf, _, _, _, _, _, hcases⟩ := set_number_format_inv strHash d d1 fmt style_id r h
  have hfind : find_index (fun y : number_format => y.eq strHash fmt) d1.number_formats_
      = some (intern (number_format.eq strHash) d.number_formats_ fmt).2 := by
    rw [hnf]
    exact intern_find _ (number_format_eq_refl strHash) _ _
  rcases hcases with ⟨hnil, hr, hst⟩ | ⟨x, hx, hr, hst, heq⟩ | ⟨x, hx, hne, hst, hr⟩
  · have hs0 : style_id = 0 := by
      rcases hs with hlt | ⟨_, h0⟩
      · rw [hnil] at hlt
        simp at hlt
      · exact h0
    subst hs0 hr
    have := set_number_format_found_same strHash d1 fmt 0 _ (by rw [hst]; rfl) hfind
    exact ⟨this, this⟩
  · subst hr
    have := set_number_format_found_same strHash d1 fmt r x (by rw [hst]; exact hx)
      (by rw [hfind, heq])
    exact ⟨this, this⟩
  · obtain ⟨t, ht⟩ := intern_fst_append style.eq d.styles_
      { x with
        number_format_index_ := (intern (number_format.eq strHash) d.number_formats_ fmt).2,
        number_format_ := fmt }
    have hx1 : d1.styles_[style_id]? = some x := by
      rw [hst, ht]
      exact getElem?_append_of_some _ _ _ _ hx
    have hsf := intern_find style.eq style_eq_refl d.styles_
      { x with
        number_format_index_ := (intern (number_format.eq strHash) d.number_formats_ fmt).2,
        number_format_ := fmt }
    rw [← hst, ← hr] at hsf
    refine ⟨set_number_format_found_other strHash d1 fmt style_id _ r x hx1 hfind hne hsf, ?_⟩
    obtain ⟨_, _, _, y, hy, hynf, _⟩ := set_number_format_post strHash d d1 fmt style_id r x hx h
    exact set_number_format_found_same strHash d1 fmt r y hy (by rw [hfind, hynf])

/-- In a sequence without two equal entries, exactly one entry equals an interned
number format. -/
theorem count_interned (strHash : String → Nat) (l : List number_format)
    (fmt : number_format) (hd : distinct_by (number_format.eq strHash) l)
    (i : Nat) (hf : find_index (fun y : number_format => y.eq strHash fmt) l = some i) :
    l.countP (fun y : number_format => y.eq strHash fmt) = 1 := by
  obtain ⟨z, hz, hpz⟩ := find_index_some_get _ l i hf
  refine countP_eq_one_of_unique _ l ?_ i z hz hpz
  intro a b x y ha hb hx hy
  refine hd a b x y ha hb ?_
  simp only [number_format.eq, beq_iff_eq] at hx hy ⊢
  rw [hx, hy]

/-- C1 (as amended): on a table reachable from the empty one, two successive calls
`set_number_format(f, s)` with a valid style id `s` (`s = 0` on a table without
styles) return the same style id, the second call leaves every sequence of the
table as the first call left it (and so does a call on the returned id), and the
number-format sequence then holds exactly one entry that compares equal to `f`
under `operator==` (equal hash of the format string); when no number format
stored before the calls with another string has the hash of `f`, exactly one
entry has the format string of `f`. -/
theorem C1_set_number_format_idempotent [DecidableEq Font] (strHash : String → Nat)
    (d : workbook_impl Font Fill Border Alignment Protection)
    (hreach : reachable strHash d) (fmt : number_format) (style_id : Nat)
    (hs : style_id < d.styles_.length ∨ (d.styles_ = [] ∧ style_id = 0)) :
    ∃ d1 r,
      workbook.set_number_format strHash d fmt style_id = outcome.value (d1, r) ∧
      workbook.set_number_format strHash d1 fmt style_id = outcome.value (d1, r) ∧
      workbook.set_number_format strHash d1 fmt r = outcome.value (d1, r) ∧
      d1.number_formats_.countP (fun y : number_format => y.eq strHash fmt) = 1 ∧
      ((∀ y ∈ d.number_formats_, y.eq strHash fmt = true →
          y.format_string_ = fmt.format_string_) →
        d1.number_formats_.countP
          (fun y : number_format => decide (y.format_string_ = fmt.format_string_)) = 1) := by
  obtain ⟨d1, r, h⟩ := set_number_format_total strHash d fmt style_id
    (hs.imp id (fun h => h.1))
  obtain ⟨h2, h3⟩ := set_number_format_twice strHash d d1 fmt style_id r hs h
  have hreach1 : reachable strHash d1 := reachable.number_format_step fmt style_id r hreach h
  have hnf := (set_number_format_inv strHash d d1 fmt style_id r h).1
  have hcount : d1.number_formats_.countP (fun y : number_format => y.eq strHash fmt) = 1 := by
    refine count_interned strHash _ fmt (reachable_unique strHash d1 hreach1).1
      (intern (number_format.eq strHash) d.number_formats_ fmt).2 ?_
    rw [hnf]
    exact intern_find _ (number_format_eq_refl strHash) _ _
  refine ⟨d1, r, h, h2, h3, hcount, ?_⟩
  intro hno
  rw [← hcount]
  refine List.countP_congr ?_
  intro y hy
  rw [hnf] at hy
  simp only [decide_eq_true_eq]
  constructor
  · intro hstr
    simp [number_format.eq, number_format.hash, hstr]
  · intro heq
    rcases intern_mem _ _ _ _ hy with hm | hm
    · exact hno y hm heq
    · rw [hm]

/-- C1 (as amended) at the table with two formats, two fonts and three styles, for
the format "General" on style id 2, which gets a fourth style; and at the table
of a fresh workbook: interning "0.00" on style id 0 twice. -/
theorem C1_set_number_format_idempotent_witness :
    (reachable sample_hash table_two_fonts ∧
     (2 < table_two_fonts.styles_.length ∨ (table_two_fonts.styles_ = [] ∧ 2 = 0)) ∧
     ∃ d1 r,
       workbook.set_number_format sample_hash table_two_fonts number_format_general 2
         = outcome.value (d1, r) ∧
       workbook.set_number_format sample_hash d1 number_format_general 2
         = outcome.value (d1, r) ∧
       workbook.set_number_format sample_hash d1 number_format_general r
         = outcome.value (d1, r) ∧
       d1.number_formats_.countP
         (fun y : number_format => y.eq sample_hash number_format_general) = 1 ∧
       d1.number_formats_.countP
         (fun y : number_format =>
           decide (y.format_string_ = number_format_general.format_string_)) = 1) ∧
    (reachable sample_hash (workbook_impl.empty : workbook_impl String Unit Unit Unit Unit) ∧
     (0 < (workbook_impl.empty : workbook_impl String Unit Unit Unit Unit).styles_.length ∨
       ((workbook_impl.empty : workbook_impl String Unit Unit Unit Unit).styles_ = [] ∧
         0 = 0)) ∧
     ∃ d1 r,
       workbook.set_number_format sample_hash
         (workbook_impl.empty : workbook_impl String Unit Unit Unit Unit)
         number_format_0_00 0 = outcome.value (d1, r) ∧
       workbook.set_number_format sample_hash d1 number_format_0_00 0
         = outcome.value (d1, r) ∧
       workbook.set_number_format sample_hash d1 number_format_0_00 r
         = outcome.value (d1, r) ∧
       d1.number_formats_.countP
         (fun y : number_format => y.eq sample_hash number_format_0_00) = 1 ∧
       d1.number_formats_.countP
         (fun y : number_format =>
           decide (y.format_string_ = number_format_0_00.format_string_)) = 1) := by
  refine ⟨⟨table_two_fonts_reachable, Or.inl (by decide), ?_⟩,
    ⟨reachable.fresh, Or.inr ⟨rfl, rfl⟩, ?_⟩⟩
  · obtain ⟨d1, r, h1, h2, h3, h4, h5⟩ :=
      C1_set_number_format_idempotent sample_hash table_two_fonts table_two_fonts_reachable
        number_format_general 2 (Or.inl (by decide))
    exact ⟨d1, r, h1, h2, h3, h4, h5 (by decide)⟩
  · obtain ⟨d1, r, h1, h2, h3, h4, h5⟩ :=
      C1_set_number_format_idempotent sample_hash
        (workbook_impl.empty : workbook_impl String Unit Unit Unit Unit) reachable.fresh
        number_format_0_00 0 (Or.inr ⟨rfl, rfl⟩)
    exact ⟨d1, r, h1, h2, h3, h4, h5 (by decide)⟩

/-- C1 as stated fails for every hash into a bounded range: two different format
strings with one hash exist; the table left by interning the first in a fresh
workbook is reachable, and interning the second on style id 0 twice returns id 0
both times and appends nothing, but the number-format sequence then holds no
entry with the string of the second format. -/
theorem C1_counterexample :
    ¬ ∃ (strHash : String → Nat) (B : Nat), (∀ s, strHash s < B) ∧
      ∀ (d : workbook_impl String Unit Unit Unit Unit), reachable strHash d →
        ∀ (fmt : number_format) (style_id : Nat),
          (style_id < d.styles_.length ∨ (d.styles_ = [] ∧ style_id = 0)) →
          ∃ d1 r,
            workbook.set_number_format strHash d fmt style_id = outcome.value (d1, r) ∧
            workbook.set_number_format strHash d1 fmt style_id = outcome.value (d1, r) ∧
            d1.number_formats_.countP
              (fun y : number_format => decide (y.format_string_ = fmt.format_string_))
              = 1 := by
  rintro ⟨strHash, B, hb, hclaim⟩
  obtain ⟨s1, s2, hne, hh⟩ := hash_collision strHash B hb
  obtain ⟨hreach, hstep⟩ := collision_table strHash s1 s2 hh
  obtain ⟨d1, r, h1, _, hcount⟩ := hclaim _ hreach
    { format_code_ := format.unknown, format_index_ := -1, format_string_ := s2 } 0
    (Or.inl (by simp [table_of_format]))
  rw [hstep] at h1
  injection h1 with h1
  injection h1 with h1 _
  subst h1
  simp [table_of_format, hne] at hcount

end workbook

/-! ## The style id returned by `set_number_format` resolves to the format (C2) -/

section workbook

variable {Font Fill Border Alignment Protection : Type}

/-- The access `get_number_format` on a style id whose style and format exist. -/
theorem get_number_format_of (d : workbook_impl Font Fill Border Alignment Protection)
    (style_id : Nat) (st : style) (v : number_format)
    (hst : d.styles_[style_id]? = some st)
    (hv : d.number_formats_[st.number_format_index_]? = some v) :
    workbook.get_number_format d style_id = outcome.value v := by
  unfold workbook.get_number_format vector_at
  rw [hst]
  simp only []
  rw [hv]

/-- After a successful `set_number_format`, the returned id is valid and its style
points at an entry of the number-format sequence that compares equal to the
format; that entry is the format itself or an entry the sequence held before. -/
theorem set_number_format_resolves (strHash : String → Nat)
    (d d1 : workbook_impl Font Fill Border Alignment Protection) (fmt : number_format)
    (style_id r : Nat)
    (h : workbook.set_number_format strHash d fmt style_id = outcome.value (d1, r)) :
    ∃ st v, d1.styles_[r]? = some st ∧
      d1.number_formats_[st.number_format_index_]? = some v ∧
      v.eq strHash fmt = true ∧ (v ∈ d.number_formats_ ∨ v = fmt) := by
  obtain ⟨hnf, _, _, _, _, _, hcases⟩ := set_number_format_inv strHash d d1 fmt style_id r h
  obtain ⟨v, hv, hveq⟩ := intern_get (number_format.eq strHash) (number_format_eq_refl strHash)
    d.number_formats_ fmt
  have hmem := intern_mem _ _ _ _ (List.getElem?_mem hv)
  rw [← hnf] at hv
  have hx : (∃ x, d.styles_[style_id]? = some x) ∨ (d.styles_ = [] ∧ r = 0 ∧
      d1.styles_ = [{ style.default with
        number_format_index_ :=
          (intern (number_format.eq strHash) d.number_formats_ fmt).2 }]) := by
    rcases hcases with h1 | ⟨x, hx, _⟩ | ⟨x, hx, _⟩
    · exact Or.inr h1
    · exact Or.inl ⟨x, hx⟩
    · exact Or.inl ⟨x, hx⟩
  rcases hx with ⟨x, hx⟩ | ⟨_, hr, hst⟩
  · obtain ⟨_, _, _, y, hy, hynf, _⟩ := set_number_format_post strHash d d1 fmt style_id r x hx h
    exact ⟨y, v, hy, by rw [hynf]; exact hv, hveq, hmem⟩
  · exact ⟨_, v, by rw [hst, hr]; rfl, hv, hveq, hmem⟩

/-- C2 (as amended): for every style table, number format `f` and style id `s`
that is valid (any `s` on a table without styles), `set_number_format(f, s)`
returns a valid style id `r`, and `get_number_format(r)` returns a number format
that compares equal to `f` under `operator==` (equal hash of the format string);
it has the format string of `f` when no stored number format with another string
has the hash of `f`. -/
theorem C2_set_number_format_resolves (strHash : String → Nat)
    (d : workbook_impl Font Fill Border Alignment Protection) (fmt : number_format)
    (style_id : Nat) (hs : style_id < d.styles_.length ∨ d.styles_ = []) :
    ∃ d1 r v,
      workbook.set_number_format strHash d fmt style_id = outcome.value (d1, r) ∧
      r < d1.styles_.length ∧
      workbook.get_number_format d1 r = outcome.value v ∧
      v.eq strHash fmt = true ∧
      ((∀ y ∈ d.number_formats_, y.eq strHash fmt = true →
          y.format_string_ = fmt.format_string_) →
        v.format_string_ = fmt.format_string_) := by
  obtain ⟨d1, r, h⟩ := set_number_format_total strHash d fmt style_id hs
  obtain ⟨st, v, hst, hv, hveq, hmem⟩ := set_number_format_resolves strHash d d1 fmt style_id r h
  refine ⟨d1, r, v, h, ?_, get_number_format_of d1 r st v hst hv, hveq, ?_⟩
  · by_contra hc
    rw [List.getElem?_eq_none (Nat.le_of_not_lt hc)] at hst
    cases hst
  · intro hno
    rcases hmem with hm | hm
    · exact hno v hm hveq
    · rw [hm]

/-- C2 (as amended) at the table of a fresh workbook and the format "0.00". -/
theorem C2_set_number_format_resolves_witness :
    (0 < (workbook_impl.empty : workbook_impl String Unit Unit Unit Unit).styles_.length ∨
      (workbook_impl.empty : workbook_impl String Unit Unit Unit Unit).styles_ = []) ∧
    ∃ d1 r v,
      workbook.set_number_format sample_hash
        (workbook_impl.empty : workbook_impl String Unit Unit Unit Unit)
        { format_code_ := format.number_00, format_index_ := 2, format_string_ := "0.00" } 0
        = outcome.value (d1, r) ∧
      r < d1.styles_.length ∧
      workbook.get_number_format d1 r = outcome.value v ∧
      v.eq sample_hash
        { format_code_ := format.number_00, format_index_ := 2, format_string_ := "0.00" }
        = true ∧
      ((∀ y ∈ (workbook_impl.empty : workbook_impl String Unit Unit Unit Unit).number_formats_,
          y.eq sample_hash
            { format_code_ := format.number_00, format_index_ := 2, format_string_ := "0.00" }
            = true →
          y.format_string_ = "0.00") →
        v.format_string_ = "0.00") :=
  ⟨Or.inr rfl,
    C2_set_number_format_resolves sample_hash workbook_impl.empty
      { format_code_ := format.number_00, format_index_ := 2, format_string_ := "0.00" } 0
      (Or.inr rfl)⟩

/-- C2 as stated fails for every hash into a bounded range: two different format
strings with one hash exist; once the first is interned in a fresh table,
`set_number_format` of the second on style id 0 returns id 0, whose number format
has the first string. -/
theorem C2_counterexample :
    ¬ ∃ (strHash : String → Nat) (B : Nat), (∀ s, strHash s < B) ∧
      ∀ (d : workbook_impl String Unit Unit Unit Unit) (fmt : number_format) (style_id : Nat),
        (style_id < d.styles_.length ∨ d.styles_ = []) →
        ∃ d1 r v,
          workbook.set_number_format strHash d fmt style_id = outcome.value (d1, r) ∧
          r < d1.styles_.length ∧
          workbook.get_number_format d1 r = outcome.value v ∧
          v.format_string_ = fmt.format_string_ := by
  rintro ⟨strHash, B, hb, hclaim⟩
  obtain ⟨s1, s2, hne, hh⟩ := hash_collision strHash B hb
  obtain ⟨d1, r, v, h, _, hget, hstr⟩ := hclaim
    { (workbook_impl.empty : workbook_impl String Unit Unit Unit Unit) with
      number_formats_ :=
        [{ format_code_ := format.unknown, format_index_ := -1, format_string_ := s1 }] }
    { format_code_ := format.unknown, format_index_ := -1, format_string_ := s2 } 0
    (Or.inr rfl)
  have hfind : find_index
      (fun y : number_format => y.eq strHash
        { format_code_ := format.unknown, format_index_ := -1, format_string_ := s2 })
      [{ format_code_ := format.unknown, format_index_ := -1, format_string_ := s1 }]
      = some 0 := by
    simp [find_index, number_format.eq, number_format.hash, hh]
  rw [set_number_format_nil strHash _ _ 0 rfl] at h
  simp only [intern_of_find (number_format.eq strHash) _ _ _ hfind] at h
  injection h with h
  injection h with h1 h2
  subst h1 h2
  simp [workbook.get_number_format, vector_at, workbook_impl.empty] at hget
  subst hget
  exact hne hstr

end workbook

theorem getElem?_some_lt {α : Type} (l : List α) (i : Nat) (x : α) (h : l[i]? = some x) :
    i < l.length := by
  by_contra hc
  rw [List.getElem?_eq_none (Nat.le_of_not_lt hc)] at h
  cases h

section workbook

variable {Font Fill Border Alignment Protection : Type}

/-! ## Insertion order and uniqueness (C3, C4) -/

/-- C3: on a table reachable from the empty one and a valid style id `s`, setting
the number format `f` and then the font `g`, and after that (on the resulting
table) setting the font `g` and then the number format `f`, both starting from
`s`, end in the same style id. -/
theorem C3_insertion_order [DecidableEq Font] (strHash : String → Nat)
    (d : workbook_impl Font Fill Border Alignment Protection)
    (hreach : reachable strHash d) (fmt : number_format) (font_ : Font) (style_id : Nat)
    (hs : style_id < d.styles_.length) :
    ∃ d1 a d2 r1 d3 b d4 r2,
      workbook.set_number_format strHash d fmt style_id = outcome.value (d1, a) ∧
      workbook.set_font d1 font_ a = outcome.value (d2, r1) ∧
      workbook.set_font d2 font_ style_id = outcome.value (d3, b) ∧
      workbook.set_number_format strHash d3 fmt b = outcome.value (d4, r2) ∧
      r1 = r2 := by
  have hx : d.styles_[style_id]? = some d.styles_[style_id] := List.getElem?_eq_getElem hs
  generalize d.styles_[style_id] = x at hx
  -- first order: number format, then font
  obtain ⟨d1, a, h1⟩ := set_number_format_total strHash d fmt style_id (Or.inl hs)
  obtain ⟨hnf1, hfo1, ⟨t1, ht1⟩, y1, hy1, hy1nf, hy1fo, hy1fi, hy1bo, hy1al, hy1pr, hy1pb, hy1qp⟩ :=
    set_number_format_post strHash d d1 fmt style_id a x hx h1
  obtain ⟨d2, r1, h2⟩ := set_font_total d1 font_ a (getElem?_some_lt _ _ _ hy1)
  obtain ⟨hfo2, hnf2, ⟨t2, ht2⟩, y2, hy2, hy2nf, hy2fo, hy2fi, hy2bo, hy2al, hy2pr, hy2pb, hy2qp⟩ :=
    set_font_post d1 d2 font_ a r1 y1 hy1 h2
  -- second order: font, then number format
  have hx2 : d2.styles_[style_id]? = some x := by
    rw [ht2, ht1]
    exact getElem?_append_of_some _ _ _ _ (getElem?_append_of_some _ _ _ _ hx)
  obtain ⟨d3, b, h3⟩ := set_font_total d2 font_ style_id (getElem?_some_lt _ _ _ hx2)
  obtain ⟨hfo3, hnf3, ⟨t3, ht3⟩, y3, hy3, hy3nf, hy3fo, hy3fi, hy3bo, hy3al, hy3pr, hy3pb, hy3qp⟩ :=
    set_font_post d2 d3 font_ style_id b x hx2 h3
  obtain ⟨d4, r2, h4⟩ := set_number_format_total strHash d3 fmt b
    (Or.inl (getElem?_some_lt _ _ _ hy3))
  obtain ⟨hnf4, hfo4, ⟨t4, ht4⟩, y4, hy4, hy4nf, hy4fo, hy4fi, hy4bo, hy4al, hy4pr, hy4pb, hy4qp⟩ :=
    set_number_format_post strHash d3 d4 fmt b r2 y3 hy3 h4
  refine ⟨d1, a, d2, r1, d3, b, d4, r2, h1, h2, h3, h4, ?_⟩
  -- the two interned indices are the same in both orders
  have hfont : (intern (fun y x : Font => decide (y = x)) d2.fonts_ font_).2
      = (intern (fun y x : Font => decide (y = x)) d1.fonts_ font_).2 := by
    rw [hfo2, intern_idem _ font_eq_refl]
  have hfmt : (intern (number_format.eq strHash) d3.number_formats_ fmt).2
      = (intern (number_format.eq strHash) d.number_formats_ fmt).2 := by
    rw [hnf3, hnf2, hnf1, intern_idem _ (number_format_eq_refl strHash)]
  -- both ids hold equal styles of the final table, which has no two equal styles
  have hreach4 : reachable strHash d4 :=
    reachable.number_format_step fmt b r2
      (reachable.font_step font_ style_id b
        (reachable.font_step font_ a r1
          (reachable.number_format_step fmt style_id a hreach h1) h2) h3) h4
  have hy2' : d4.styles_[r1]? = some y2 := by
    rw [ht4, ht3]
    exact getElem?_append_of_some _ _ _ _ (getElem?_append_of_some _ _ _ _ hy2)
  refine (reachable_unique strHash d4 hreach4).2.2 r1 r2 y2 y4 hy2' hy4 ?_
  rw [style_eq_iff]
  refine ⟨?_, ?_, ?_, ?_, ?_, ?_, ?_, ?_⟩
  · rw [hy2nf, hy1nf, hy4nf, hfmt]
  · rw [hy2fo, hy4fo, hy3fo, hfont]
  · rw [hy2fi, hy1fi, hy4fi, hy3fi]
  · rw [hy2bo, hy1bo, hy4bo, hy3bo]
  · rw [hy2al, hy1al, hy4al, hy3al]
  · rw [hy2pr, hy1pr, hy4pr, hy3pr]
  · rw [hy2pb, hy1pb, hy4pb, hy3pb]
  · rw [hy2qp, hy1qp, hy4qp, hy3qp]

/-- C3 at the table left by interning "0.00" in a fresh workbook, with the format
"General" and the font "Arial" on style id 0. -/
theorem C3_insertion_order_witness :
    reachable sample_hash table_0_00 ∧ 0 < table_0_00.styles_.length ∧
    ∃ d1 a d2 r1 d3 b d4 r2,
      workbook.set_number_format sample_hash table_0_00
        { format_code_ := format.general, format_index_ := 0, format_string_ := "General" } 0
        = outcome.value (d1, a) ∧
      workbook.set_font d1 "Arial" a = outcome.value (d2, r1) ∧
      workbook.set_font d2 "Arial" 0 = outcome.value (d3, b) ∧
      workbook.set_number_format sample_hash d3
        { format_code_ := format.general, format_index_ := 0, format_string_ := "General" } b
        = outcome.value (d4, r2) ∧
      r1 = r2 :=
  ⟨table_0_00_reachable, by decide,
    C3_insertion_order sample_hash table_0_00 table_0_00_reachable
      { format_code_ := format.general, format_index_ := 0, format_string_ := "General" }
      "Arial" 0 (by decide)⟩

/-- C4: in every table reachable from the empty one by `set_number_format` and
`set_font` calls, no two entries of the number-format sequence compare equal, no
two entries of the font sequence are equal, and no two entries of the style
sequence are structurally equal. -/
theorem C4_uniqueness_invariant [DecidableEq Font] (strHash : String → Nat)
    (d : workbook_impl Font Fill Border Alignment Protection)
    (hreach : reachable strHash d) :
    (∀ (i j : Nat) (a b : number_format),
      d.number_formats_[i]? = some a → d.number_formats_[j]? = some b → i ≠ j →
      a.eq strHash b = false ∧ a ≠ b) ∧
    (∀ (i j : Nat) (a b : Font),
      d.fonts_[i]? = some a → d.fonts_[j]? = some b → i ≠ j → a ≠ b) ∧
    (∀ (i j : Nat) (a b : style),
      d.styles_[i]? = some a → d.styles_[j]? = some b → i ≠ j → a.eq b = false) := by
  obtain ⟨hn, hf, hst⟩ := reachable_unique strHash d hreach
  refine ⟨?_, ?_, ?_⟩
  · intro i j a b ha hb hij
    have hne : a.eq strHash b = false := by
      cases hab : a.eq strHash b with
      | false => rfl
      | true => exact absurd (hn i j a b ha hb hab) hij
    refine ⟨hne, ?_⟩
    intro h
    rw [h, number_format_eq_refl] at hne
    cases hne
  · intro i j a b ha hb hij h
    exact hij (hf i j a b ha hb (by simpa using h))
  · intro i j a b ha hb hij
    cases hab : a.eq b with
    | false => rfl
    | true => exact absurd (hst i j a b ha hb hab) hij

/-- C4 at the table with two formats, two fonts and three styles, which the calls
`set_number_format("0.00", 0)`, `set_number_format("General", 0)`,
`set_font("Arial", 0)` and `set_font("Times", 0)` leave from a fresh workbook. -/
theorem C4_uniqueness_invariant_witness :
    reachable sample_hash table_two_fonts ∧
    table_two_fonts.number_formats_.length = 2 ∧ table_two_fonts.fonts_.length = 2 ∧
    table_two_fonts.styles_.length = 3 ∧
    (∀ (i j : Nat) (a b : number_format),
      table_two_fonts.number_formats_[i]? = some a →
      table_two_fonts.number_formats_[j]? = some b →
      i ≠ j → a.eq sample_hash b = false ∧ a ≠ b) ∧
    (∀ (i j : Nat) (a b : String),
      table_two_fonts.fonts_[i]? = some a → table_two_fonts.fonts_[j]? = some b → i ≠ j →
      a ≠ b) ∧
    (∀ (i j : Nat) (a b : style),
      table_two_fonts.styles_[i]? = some a → table_two_fonts.styles_[j]? = some b → i ≠ j →
      a.eq b = false) :=
  ⟨table_two_fonts_reachable, rfl, rfl, rfl,
    C4_uniqueness_invariant sample_hash table_two_fonts table_two_fonts_reachable⟩

/-! ## The sequences only grow (C5) -/

/-- A returned `get_number_format` value is the entry at the style's index. -/
theorem get_number_format_value (d : workbook_impl Font Fill Border Alignment Protection)
    (style_id : Nat) (v : number_format)
    (h : workbook.get_number_format d style_id = outcome.value v) :
    ∃ st, d.styles_[style_id]? = some st ∧
      d.number_formats_[st.number_format_index_]? = some v := by
  unfold workbook.get_number_format vector_at at h
  cases hst : d.styles_[style_id]? with
  | none => rw [hst] at h; cases h
  | some st =>
    rw [hst] at h
    simp only [] at h
    cases hv : d.number_formats_[st.number_format_index_]? with
    | none => rw [hv] at h; cases h
    | some w =>
      rw [hv] at h
      injection h with h
      subst h
      exact ⟨st, rfl, hv⟩

/-- Every interning call leaves the three sequences it touches extended at the
end, and the other four as they were. -/
theorem style_step_append [DecidableEq Font] (strHash : String → Nat)
    (d d1 : workbook_impl Font Fill Border Alignment Protection)
    (h : style_step strHash d d1) :
    (∃ t, d1.number_formats_ = d.number_formats_ ++ t) ∧
    (∃ t, d1.fonts_ = d.fonts_ ++ t) ∧
    (∃ t, d1.styles_ = d.styles_ ++ t) ∧
    d1.fills_ = d.fills_ ∧ d1.borders_ = d.borders_ ∧
    d1.alignments_ = d.alignments_ ∧ d1.protections_ = d.protections_ := by
  rcases h with ⟨fmt, style_id, r, h⟩ | ⟨font_, style_id, r, h⟩
  · obtain ⟨hnf, hfo, hfi, hbo, hal, hpr, hcases⟩ :=
      set_number_format_inv strHash d d1 fmt style_id r h
    refine ⟨?_, ⟨[], by simp [hfo]⟩, ?_, hfi, hbo, hal, hpr⟩
    · rw [hnf]
      exact intern_fst_append _ _ _
    · rcases hcases with ⟨hnil, _, hst⟩ | ⟨x, _, _, hst, _⟩ | ⟨x, _, _, hst, _⟩
      · exact ⟨d1.styles_, by rw [hnil]; rfl⟩
      · exact ⟨[], by simp [hst]⟩
      · rw [hst]
        exact intern_fst_append _ _ _
  · obtain ⟨hfo, hnf, hfi, hbo, hal, hpr, hcases⟩ := set_font_inv d d1 font_ style_id r h
    refine ⟨⟨[], by simp [hnf]⟩, ?_, ?_, hfi, hbo, hal, hpr⟩
    · rw [hfo]
      exact intern_fst_append _ _ _
    · rcases hcases with ⟨x, _, _, hst, _⟩ | ⟨x, _, _, hst, _⟩
      · exact ⟨[], by simp [hst]⟩
      · rw [hst]
        exact intern_fst_append _ _ _

/-- C5: after a `set_number_format` or `set_font` call that returns, the previous
number-format, font and style sequences are the beginnings of the new ones (and
the fill, border, alignment and protection sequences are the same), so every
style id valid before is valid after and `get_number_format` of it returns the
value it returned before. -/
theorem C5_append_only [DecidableEq Font] (strHash : String → Nat)
    (d d1 : workbook_impl Font Fill Border Alignment Protection)
    (h : style_step strHash d d1) :
    (∃ t, d1.number_formats_ = d.number_formats_ ++ t) ∧
    (∃ t, d1.fonts_ = d.fonts_ ++ t) ∧
    (∃ t, d1.styles_ = d.styles_ ++ t) ∧
    d1.fills_ = d.fills_ ∧ d1.borders_ = d.borders_ ∧
    d1.alignments_ = d.alignments_ ∧ d1.protections_ = d.protections_ ∧
    (∀ i : Nat, i < d.styles_.length → i < d1.styles_.length) ∧
    (∀ (i : Nat) (st : style), d.styles_[i]? = some st → d1.styles_[i]? = some st) ∧
    (∀ (i : Nat) (v : number_format),
      workbook.get_number_format d i = outcome.value v →
      workbook.get_number_format d1 i = outcome.value v) := by
  obtain ⟨⟨tn, hn⟩, ⟨tf, hf⟩, ⟨ts, hs⟩, hfi, hbo, hal, hpr⟩ := style_step_append strHash d d1 h
  refine ⟨⟨tn, hn⟩, ⟨tf, hf⟩, ⟨ts, hs⟩, hfi, hbo, hal, hpr, ?_, ?_, ?_⟩
  · intro i hi
    rw [hs, List.length_append]
    omega
  · intro i st hst
    rw [hs]
    exact getElem?_append_of_some _ _ _ _ hst
  · intro i v hv
    obtain ⟨st, hst, hnv⟩ := get_number_format_value d i v hv
    refine get_number_format_of d1 i st v ?_ ?_
    · rw [hs]
      exact getElem?_append_of_some _ _ _ _ hst
    · rw [hn]
      exact getElem?_append_of_some _ _ _ _ hnv

/-- C5 at two calls on tables that hold entries: `set_number_format("General", 0)`
on the table with the format "0.00" and one style, which appends a format and a
style, and `set_font("Times", 0)` on the table with two formats, one font and two
styles, which appends a font and a style; the style ids valid before resolve to
the same number formats after. -/
theorem C5_append_only_witness :
    (style_step sample_hash table_0_00 table_two_formats ∧
     0 < table_0_00.styles_.length ∧
     workbook.get_number_format table_0_00 0 = outcome.value number_format_0_00 ∧
     workbook.get_number_format table_two_formats 0 = outcome.value number_format_0_00 ∧
     (∃ t, table_two_formats.number_formats_ = table_0_00.number_formats_ ++ t) ∧
     (∃ t, table_two_formats.fonts_ = table_0_00.fonts_ ++ t) ∧
     (∃ t, table_two_formats.styles_ = table_0_00.styles_ ++ t) ∧
     table_two_formats.fills_ = table_0_00.fills_ ∧ table_two_formats.borders_ = table_0_00.borders_ ∧
     table_two_formats.alignments_ = table_0_00.alignments_ ∧ table_two_formats.protections_ = table_0_00.protections_ ∧
     (∀ i : Nat, i < table_0_00.styles_.length → i < table_two_formats.styles_.length) ∧
     (∀ (i : Nat) (st : style), table_0_00.styles_[i]? = some st → table_two_formats.styles_[i]? = some st) ∧
     (∀ (i : Nat) (v : number_format),
       workbook.get_number_format table_0_00 i = outcome.value v →
       workbook.get_number_format table_two_formats i = outcome.value v)) ∧
    (style_step sample_hash table_one_font table_two_fonts ∧
     1 < table_one_font.styles_.length ∧
     workbook.get_number_format table_one_font 1 = outcome.value number_format_general ∧
     workbook.get_number_format table_two_fonts 1 = outcome.value number_format_general ∧
     (∃ t, table_two_fonts.number_formats_ = table_one_font.number_formats_ ++ t) ∧
     (∃ t, table_two_fonts.fonts_ = table_one_font.fonts_ ++ t) ∧
     (∃ t, table_two_fonts.styles_ = table_one_font.styles_ ++ t) ∧
     table_two_fonts.fills_ = table_one_font.fills_ ∧ table_two_fonts.borders_ = table_one_font.borders_ ∧
     table_two_fonts.alignments_ = table_one_font.alignments_ ∧ table_two_fonts.protections_ = table_one_font.protections_ ∧
     (∀ i : Nat, i < table_one_font.styles_.length → i < table_two_fonts.styles_.length) ∧
     (∀ (i : Nat) (st : style), table_one_font.styles_[i]? = some st → table_two_fonts.styles_[i]? = some st) ∧
     (∀ (i : Nat) (v : number_format),
       workbook.get_number_format table_one_font i = outcome.value v →
       workbook.get_number_format table_two_fonts i = outcome.value v)) :=
  ⟨⟨Or.inl ⟨number_format_general, 0, 1, table_two_formats_step⟩, by decide, rfl, rfl,
      C5_append_only sample_hash table_0_00 table_two_formats
        (Or.inl ⟨number_format_general, 0, 1, table_two_formats_step⟩)⟩,
    ⟨Or.inr ⟨"Times", 0, 2, table_two_fonts_step⟩, by decide, rfl, rfl,
      C5_append_only sample_hash table_one_font table_two_fonts
        (Or.inr ⟨"Times", 0, 2, table_two_fonts_step⟩)⟩⟩

/-! ## Index facts of reachable tables -/

theorem set_number_format_index_inv (strHash : String → Nat)
    (d d1 : workbook_impl Font Fill Border Alignment Protection) (fmt : number_format)
    (style_id r : Nat)
    (h : workbook.set_number_format strHash d fmt style_id = outcome.value (d1, r))
    (hi : index_inv d) : index_inv d1 := by
  obtain ⟨hnf, hfo, hfi, hbo, hal, hpr, hcases⟩ :=
    set_number_format_inv strHash d d1 fmt style_id r h
  obtain ⟨hst, h1, h2, h3, h4⟩ := hi
  refine ⟨?_, by rw [hfi, h1], by rw [hbo, h2], by rw [hal, h3], by rw [hpr, h4]⟩
  have hlen := intern_length_le (number_format.eq strHash) d.number_formats_ fmt
  have hlt := intern_snd_lt (number_format.eq strHash) d.number_formats_ fmt
  have hold : ∀ st ∈ d.styles_,
      st.number_format_index_ < d1.number_formats_.length ∧
      (st.font_index_ = 0 ∨ st.font_index_ < d1.fonts_.length) ∧
      st.fill_index_ = 0 ∧ st.border_index_ = 0 ∧ st.alignment_index_ = 0 ∧
      st.protection_index_ = 0 := by
    intro st hmem
    obtain ⟨a, b⟩ := hst st hmem
    rw [hnf, hfo]
    exact ⟨Nat.lt_of_lt_of_le a hlen, b⟩
  rcases hcases with ⟨_, _, hs⟩ | ⟨x, _, _, hs, _⟩ | ⟨x, hx, _, hs, _⟩
  · intro st hmem
    rw [hs] at hmem
    simp only [List.mem_singleton] at hmem
    subst hmem
    rw [hnf]
    exact ⟨hlt, Or.inl rfl, rfl, rfl, rfl, rfl⟩
  · rw [hs]
    exact hold
  · intro st hmem
    rw [hs] at hmem
    rcases intern_mem _ _ _ _ hmem with hm | hm
    · exact hold st hm
    · subst hm
      obtain ⟨_, b⟩ := hold x (List.getElem?_mem hx)
      rw [hnf]
      exact ⟨hlt, b⟩

theorem set_font_index_inv [DecidableEq Font]
    (d d1 : workbook_impl Font Fill Border Alignment Protection) (font_ : Font)
    (style_id r : Nat)
    (h : workbook.set_font d font_ style_id = outcome.value (d1, r))
    (hi : index_inv d) : index_inv d1 := by
  obtain ⟨hfo, hnf, hfi, hbo, hal, hpr, hcases⟩ := set_font_inv d d1 font_ style_id r h
  obtain ⟨hst, h1, h2, h3, h4⟩ := hi
  refine ⟨?_, by rw [hfi, h1], by rw [hbo, h2], by rw [hal, h3], by rw [hpr, h4]⟩
  have hlen := intern_length_le (fun y x : Font => decide (y = x)) d.fonts_ font_
  have hlt := intern_snd_lt (fun y x : Font => decide (y = x)) d.fonts_ font_
  have hold : ∀ st ∈ d.styles_,
      st.number_format_index_ < d1.number_formats_.length ∧
      (st.font_index_ = 0 ∨ st.font_index_ < d1.fonts_.length) ∧
      st.fill_index_ = 0 ∧ st.border_index_ = 0 ∧ st.alignment_index_ = 0 ∧
      st.protection_index_ = 0 := by
    intro st hmem
    obtain ⟨a, b, c⟩ := hst st hmem
    rw [hnf, hfo]
    exact ⟨a, b.imp id (fun hb => Nat.lt_of_lt_of_le hb hlen), c⟩
  rcases hcases with ⟨x, _, _, hs, _⟩ | ⟨x, hx, _, hs, _⟩
  · rw [hs]
    exact hold
  · intro st hmem
    rw [hs] at hmem
    rcases intern_mem _ _ _ _ hmem with hm | hm
    · exact hold st hm
    · subst hm
      obtain ⟨a, _, c⟩ := hold x (List.getElem?_mem hx)
      rw [hfo]
      exact ⟨a, Or.inr hlt, c⟩

theorem reachable_index_inv [DecidableEq Font] (strHash : String → Nat)
    (d : workbook_impl Font Fill Border Alignment Protection)
    (h : reachable strHash d) : index_inv d := by
  induction h with
  | fresh =>
    refine ⟨?_, rfl, rfl, rfl, rfl⟩
    intro st hmem
    simp [workbook_impl.empty] at hmem
  | number_format_step fmt style_id r _ hstep ih =>
    exact set_number_format_index_inv strHash _ _ fmt style_id r hstep ih
  | font_step font_ style_id r _ hstep ih =>
    exact set_font_index_inv _ _ font_ style_id r hstep ih

/-- C6 (as amended): in every table reachable from the empty one by
`set_number_format` and `set_font` calls, every stored style's
`number_format_index_` is smaller than the size of the number-format sequence, so
`get_number_format` returns a value for every valid style id; its `font_index_` is
smaller than the size of the font sequence once that sequence is not empty, and
then `get_font` returns a value for every valid style id; its fill, border,
alignment and protection indices are 0 and the sequences of these four kinds are
empty. -/
theorem C6_index_validity [DecidableEq Font] (strHash : String → Nat)
    (d : workbook_impl Font Fill Border Alignment Protection)
    (hreach : reachable strHash d) :
    (∀ st ∈ d.styles_,
      st.number_format_index_ < d.number_formats_.length ∧
      (d.fonts_ ≠ [] → st.font_index_ < d.fonts_.length) ∧
      st.fill_index_ = 0 ∧ st.border_index_ = 0 ∧ st.alignment_index_ = 0 ∧
      st.protection_index_ = 0) ∧
    d.fills_ = [] ∧ d.borders_ = [] ∧ d.alignments_ = [] ∧ d.protections_ = [] ∧
    (∀ i : Nat, i < d.styles_.length → ∃ v, workbook.get_number_format d i = outcome.value v) ∧
    (d.fonts_ ≠ [] →
      ∀ i : Nat, i < d.styles_.length → ∃ g, workbook.get_font d i = outcome.value g) := by
  obtain ⟨hst, h1, h2, h3, h4⟩ := reachable_index_inv strHash d hreach
  have hfont : ∀ st ∈ d.styles_, d.fonts_ ≠ [] → st.font_index_ < d.fonts_.length := by
    intro st hmem hne
    rcases (hst st hmem).2.1 with h0 | hlt
    · rw [h0]
      exact List.length_pos.mpr hne
    · exact hlt
  refine ⟨?_, h1, h2, h3, h4, ?_, ?_⟩
  · intro st hmem
    obtain ⟨a, _, c⟩ := hst st hmem
    exact ⟨a, hfont st hmem, c⟩
  · intro i hi
    have hmem : d.styles_[i] ∈ d.styles_ := List.getElem_mem hi
    have hlt := (hst _ hmem).1
    exact ⟨_, get_number_format_of d i d.styles_[i] _ (List.getElem?_eq_getElem hi)
      (List.getElem?_eq_getElem hlt)⟩
  · intro hne i hi
    have hmem : d.styles_[i] ∈ d.styles_ := List.getElem_mem hi
    have hlt := hfont _ hmem hne
    refine ⟨d.fonts_[d.styles_[i].font_index_], ?_⟩
    unfold workbook.get_font vector_at
    rw [List.getElem?_eq_getElem hi]
    simp only []
    rw [List.getElem?_eq_getElem hlt]

/-- C6 (as amended) at the table left by interning "0.00" in a fresh workbook. -/
theorem C6_index_validity_witness :
    reachable sample_hash table_0_00 ∧
    (∀ st ∈ table_0_00.styles_,
      st.number_format_index_ < table_0_00.number_formats_.length ∧
      (table_0_00.fonts_ ≠ [] → st.font_index_ < table_0_00.fonts_.length) ∧
      st.fill_index_ = 0 ∧ st.border_index_ = 0 ∧ st.alignment_index_ = 0 ∧
      st.protection_index_ = 0) ∧
    table_0_00.fills_ = [] ∧ table_0_00.borders_ = [] ∧ table_0_00.alignments_ = [] ∧
    table_0_00.protections_ = [] ∧
    (∀ i : Nat, i < table_0_00.styles_.length →
      ∃ v, workbook.get_number_format table_0_00 i = outcome.value v) ∧
    (table_0_00.fonts_ ≠ [] →
      ∀ i : Nat, i < table_0_00.styles_.length →
        ∃ g, workbook.get_font table_0_00 i = outcome.value g) :=
  ⟨table_0_00_reachable, C6_index_validity sample_hash table_0_00 table_0_00_reachable⟩

/-- C6 as stated fails on the table left by the first `set_number_format` call of
a fresh workbook: it is reachable, its style 0 has font, fill, border, alignment
and protection index 0 while these five sequences are empty, and `get_font`,
`get_fill`, `get_border` and `get_alignment` of style id 0 are out-of-range
accesses. -/
theorem C6_counterexample :
    reachable sample_hash table_0_00 ∧
    (∃ st ∈ table_0_00.styles_,
      ¬ (st.font_index_ < table_0_00.fonts_.length) ∧
      ¬ (st.fill_index_ < table_0_00.fills_.length) ∧
      ¬ (st.border_index_ < table_0_00.borders_.length) ∧
      ¬ (st.alignment_index_ < table_0_00.alignments_.length) ∧
      ¬ (st.protection_index_ < table_0_00.protections_.length)) ∧
    0 < table_0_00.styles_.length ∧
    workbook.get_font table_0_00 0 = outcome.undefined ∧
    workbook.get_fill table_0_00 0 = outcome.undefined ∧
    workbook.get_border table_0_00 0 = outcome.undefined ∧
    workbook.get_alignment table_0_00 0 = outcome.undefined :=
  ⟨table_0_00_reachable,
    ⟨{ style.default with number_format_index_ := 0 }, List.mem_singleton.mpr rfl,
      by decide, by decide, by decide, by decide, by decide⟩,
    by decide, rfl, rfl, rfl, rfl⟩

/-! ## Calls on a table without styles, accessors (C7 to C10) -/

/-- C7 (the failing call): on the table of a fresh workbook, which has no styles,
`set_font` reads `styles_[style_id]` out of range for every font and every style
id, while `set_number_format` returns style id 0 there. -/
theorem C7_set_font_no_styles [DecidableEq Font] (strHash : String → Nat)
    (font_ : Font) (fmt : number_format) (style_id : Nat) :
    workbook.set_font
      (workbook_impl.empty : workbook_impl Font Fill Border Alignment Protection)
      font_ style_id = outcome.undefined ∧
    ∃ d1, workbook.set_number_format strHash
      (workbook_impl.empty : workbook_impl Font Fill Border Alignment Protection)
      fmt style_id = outcome.value (d1, 0) :=
  ⟨set_font_none _ font_ style_id rfl, _, set_number_format_nil strHash _ fmt style_id rfl⟩

/-- C8 (as amended): `get_number_format(style_id)` is an unchecked out-of-range
access exactly when `style_id` is not smaller than the number of styles or the
style's `number_format_index_` is not smaller than the number of number formats;
otherwise it returns the number format stored at that index; and it never throws. -/
theorem C8_get_number_format (d : workbook_impl Font Fill Border Alignment Protection)
    (style_id : Nat) :
    (workbook.get_number_format d style_id = outcome.undefined ↔
      (d.styles_.length ≤ style_id ∨
        ∃ st, d.styles_[style_id]? = some st ∧
          d.number_formats_.length ≤ st.number_format_index_)) ∧
    (∀ (st : style) (v : number_format), d.styles_[style_id]? = some st →
      d.number_formats_[st.number_format_index_]? = some v →
      workbook.get_number_format d style_id = outcome.value v) ∧
    ¬ ∃ e, workbook.get_number_format d style_id = outcome.thrown e := by
  refine ⟨?_, fun st v hst hv => get_number_format_of d style_id st v hst hv, ?_⟩
  · unfold workbook.get_number_format vector_at
    cases hst : d.styles_[style_id]? with
    | none =>
      simp only [true_iff]
      exact Or.inl (List.getElem?_eq_none_iff.mp hst)
    | some st =>
      have hlt := getElem?_some_lt _ _ _ hst
      simp only []
      cases hv : d.number_formats_[st.number_format_index_]? with
      | none =>
        simp only [true_iff]
        exact Or.inr ⟨st, rfl, List.getElem?_eq_none_iff.mp hv⟩
      | some v =>
        have hlt2 := getElem?_some_lt _ _ _ hv
        simp only [false_iff, reduceCtorEq]
        rintro (h | ⟨st1, h1, h2⟩)
        · omega
        · injection h1 with h1
          subst h1
          omega
  · rintro ⟨e, he⟩
    unfold workbook.get_number_format vector_at at he
    cases hst : d.styles_[style_id]? with
    | none => rw [hst] at he; cases he
    | some st =>
      rw [hst] at he
      simp only [] at he
      cases hv : d.number_formats_[st.number_format_index_]? with
      | none => rw [hv] at he; cases he
      | some v => rw [hv] at he; cases he

/-- C8 as stated fails on the table of a fresh workbook: style id 0 is not
smaller than the number of styles, and `get_number_format(0)` does not fail with
an error: it is an unchecked out-of-range access. -/
theorem C8_counterexample :
    (workbook_impl.empty : workbook_impl String Unit Unit Unit Unit).styles_.length ≤ 0 ∧
    workbook.get_number_format
      (workbook_impl.empty : workbook_impl String Unit Unit Unit Unit) 0
      = outcome.undefined ∧
    ¬ ∃ e, workbook.get_number_format
      (workbook_impl.empty : workbook_impl String Unit Unit Unit Unit) 0
      = outcome.thrown e :=
  ⟨by decide, rfl, by rintro ⟨e, he⟩; cases he⟩

/-- C9: on a table without styles, `set_number_format(f, s)` returns 0 for every
`s` and appends exactly one style, whose `number_format_index_` is the index of
`f` in the number-format sequence and whose font, fill, border, alignment and
protection indices are 0. -/
theorem C9_first_style (strHash : String → Nat)
    (d : workbook_impl Font Fill Border Alignment Protection) (fmt : number_format)
    (style_id : Nat) (hnil : d.styles_ = []) :
    ∃ d1 st,
      workbook.set_number_format strHash d fmt style_id = outcome.value (d1, 0) ∧
      d1.styles_ = d.styles_ ++ [st] ∧
      find_index (fun y : number_format => y.eq strHash fmt) d1.number_formats_
        = some st.number_format_index_ ∧
      st.font_index_ = 0 ∧ st.fill_index_ = 0 ∧ st.border_index_ = 0 ∧
      st.alignment_index_ = 0 ∧ st.protection_index_ = 0 := by
  refine ⟨_,
    { style.default with
      number_format_index_ := (intern (number_format.eq strHash) d.number_formats_ fmt).2 },
    set_number_format_nil strHash d fmt style_id hnil, ?_, ?_, rfl, rfl, rfl, rfl, rfl⟩
  · rw [hnil]
    rfl
  · exact intern_find _ (number_format_eq_refl strHash) _ _

/-- C9 at the table of a fresh workbook, the format "0.00" and style id 7. -/
theorem C9_first_style_witness :
    (workbook_impl.empty : workbook_impl String Unit Unit Unit Unit).styles_ = [] ∧
    ∃ d1 st,
      workbook.set_number_format sample_hash
        (workbook_impl.empty : workbook_impl String Unit Unit Unit Unit)
        number_format_0_00 7 = outcome.value (d1, 0) ∧
      d1.styles_ =
        (workbook_impl.empty : workbook_impl String Unit Unit Unit Unit).styles_ ++ [st] ∧
      find_index (fun y : number_format => y.eq sample_hash number_format_0_00)
        d1.number_formats_ = some st.number_format_index_ ∧
      st.font_index_ = 0 ∧ st.fill_index_ = 0 ∧ st.border_index_ = 0 ∧
      st.alignment_index_ = 0 ∧ st.protection_index_ = 0 :=
  ⟨rfl, C9_first_style sample_hash workbook_impl.empty number_format_0_00 7 rfl⟩

end workbook

/-! ## Facts about the map model -/

theorem umap_find_cons {κ ν : Type} [DecidableEq κ] (p : κ × ν) (m : List (κ × ν)) (k : κ) :
    umap_find (p :: m) k = if p.1 = k then some p.2 else umap_find m k := by
  unfold umap_find
  by_cases h : p.1 = k
  · simp [List.find?, h]
  · simp [List.find?, h]

theorem umap_find_mem {κ ν : Type} [DecidableEq κ] :
    ∀ (m : List (κ × ν)) (k : κ) (v : ν), umap_find m k = some v → (k, v) ∈ m := by
  intro m
  induction m with
  | nil => intro k v h; simp [umap_find] at h
  | cons p m ih =>
    intro k v h
    rw [umap_find_cons] at h
    by_cases hp : p.1 = k
    · rw [if_pos hp] at h
      injection h with h
      have : p = (k, v) := Prod.ext hp h
      rw [this]
      exact List.mem_cons_self _ _
    · rw [if_neg hp] at h
      exact List.mem_cons_of_mem _ (ih k v h)

theorem umap_find_of_mem {κ ν : Type} [DecidableEq κ] :
    ∀ (m : List (κ × ν)) (k : κ) (v : ν), (m.map Prod.fst).Nodup → (k, v) ∈ m →
      umap_find m k = some v := by
  intro m
  induction m with
  | nil => intro k v _ h; cases h
  | cons p m ih =>
    intro k v hnd h
    rw [umap_find_cons]
    rw [List.map_cons, List.nodup_cons] at hnd
    rcases List.mem_cons.mp h with heq | hmem
    · rw [← heq]
      simp
    · have hne : p.1 ≠ k := by
        intro hp
        apply hnd.1
        rw [hp]
        exact List.mem_map.mpr ⟨(k, v), hmem, rfl⟩
      rw [if_neg hne]
      exact ih k v hnd.2 hmem

theorem umap_find_none_of_not_mem {κ ν : Type} [DecidableEq κ] :
    ∀ (m : List (κ × ν)) (k : κ), k ∉ m.map Prod.fst → umap_find m k = none := by
  intro m
  induction m with
  | nil => intro k _; rfl
  | cons p m ih =>
    intro k h
    rw [umap_find_cons]
    rw [List.map_cons, List.mem_cons, not_or] at h
    rw [if_neg (fun hp => h.1 hp.symm)]
    exact ih k h.2

theorem umap_find_assign {κ ν : Type} [DecidableEq κ] :
    ∀ (m : List (κ × ν)) (k : κ) (v : ν) (k1 : κ),
      umap_find (umap_assign m k v) k1 = if k = k1 then some v else umap_find m k1 := by
  intro m
  induction m with
  | nil =>
    intro k v k1
    unfold umap_assign
    rw [umap_find_cons]
  | cons p m ih =>
    intro k v k1
    unfold umap_assign
    by_cases hp : p.1 = k
    · rw [if_pos hp, umap_find_cons, umap_find_cons]
      by_cases hk : k = k1
      · simp [hk]
      · have : ¬ p.1 = k1 := by rw [hp]; exact hk
        simp [hk, this]
    · rw [if_neg hp, umap_find_cons, umap_find_cons, ih]
      by_cases hk : k = k1
      · have : ¬ p.1 = k1 := by rw [← hk]; exact hp
        simp [hk, this]
      · simp [hk]

/-- The map built by the loop of `reversed_builtin_formats`, started from `acc`. -/
theorem reversed_fold_not_mem :
    ∀ (l : List (Int × String)) (acc : List (String × Int)) (s : String),
      s ∉ l.map Prod.snd →
      umap_find (l.foldl (fun formats format_pair =>
        umap_assign formats format_pair.2 format_pair.1) acc) s = umap_find acc s := by
  intro l
  induction l with
  | nil => intro acc s _; rfl
  | cons p t ih =>
    intro acc s h
    rw [List.map_cons, List.mem_cons, not_or] at h
    rw [List.foldl_cons, ih _ s h.2, umap_find_assign, if_neg (fun hp => h.1 hp.symm)]

theorem reversed_fold_of_mem :
    ∀ (l : List (Int × String)) (acc : List (String × Int)) (i : Int) (s : String),
      (l.map Prod.snd).Nodup → (i, s) ∈ l →
      umap_find (l.foldl (fun formats format_pair =>
        umap_assign formats format_pair.2 format_pair.1) acc) s = some i := by
  intro l
  induction l with
  | nil => intro acc i s _ h; cases h
  | cons p t ih =>
    intro acc i s hnd h
    rw [List.map_cons, List.nodup_cons] at hnd
    rw [List.foldl_cons]
    rcases List.mem_cons.mp h with heq | hmem
    · subst heq
      rw [reversed_fold_not_mem t _ s hnd.1, umap_find_assign, if_pos rfl]
    · exact ih _ i s hnd.2 hmem

theorem reversed_fold_mem :
    ∀ (l : List (Int × String)) (acc : List (String × Int)) (i : Int) (s : String),
      umap_find (l.foldl (fun formats format_pair =>
        umap_assign formats format_pair.2 format_pair.1) acc) s = some i →
      (i, s) ∈ l ∨ umap_find acc s = some i := by
  intro l
  induction l with
  | nil => intro acc i s h; exact Or.inr h
  | cons p t ih =>
    intro acc i s h
    rw [List.foldl_cons] at h
    rcases ih _ i s h with hm | hacc
    · exact Or.inl (List.mem_cons_of_mem _ hm)
    · rw [umap_find_assign] at hacc
      by_cases hp : p.2 = s
      · rw [if_pos hp] at hacc
        injection hacc with hacc
        refine Or.inl ?_
        have : p = (i, s) := Prod.ext hacc hp
        rw [this]
        exact List.mem_cons_self _ _
      · rw [if_neg hp] at hacc
        exact Or.inr hacc

theorem builtin_formats_keys_nodup : (builtin_formats.map Prod.fst).Nodup := by decide

theorem builtin_formats_strings_nodup : (builtin_formats.map Prod.snd).Nodup := by decide

/-- Every `builtin_formats().at(i)` in the initializer of `format_strings()` finds
its entry. -/
theorem builtin_string_present :
    ∀ i ∈ ([0, 49, 1, 2, 4, 9, 10, 14, 15, 16, 17, 22, 18, 19, 20, 21, 45] : List Int),
      umap_find builtin_formats i = some (builtin_string i) := by decide

/-- The reversed map holds `s ↦ i` exactly for the entries `i ↦ s` of the builtin
catalog, whatever the iteration order. -/
theorem reversed_builtin_formats_iff (it : iteration_order) (hv : it.valid)
    (s : String) (i : Int) :
    umap_find (reversed_builtin_formats it) s = some i ↔ (i, s) ∈ builtin_formats := by
  have hperm := hv.1
  have hnd : (it.builtin.map Prod.snd).Nodup :=
    (hperm.map Prod.snd).nodup_iff.mpr builtin_formats_strings_nodup
  constructor
  · intro h
    rcases reversed_fold_mem it.builtin [] i s h with hm | hacc
    · exact hperm.mem_iff.mp hm
    · simp [umap_find] at hacc
  · intro h
    exact reversed_fold_of_mem it.builtin [] i s hnd (hperm.mem_iff.mpr h)

theorem builtin_formats_iff (i : Int) (s : String) :
    umap_find builtin_formats i = some s ↔ (i, s) ∈ builtin_formats :=
  ⟨umap_find_mem _ _ _, umap_find_of_mem _ _ _ builtin_formats_keys_nodup⟩

/-! ## The builtin catalog (C11) -/

/-- C11: for every iteration order of the builtin catalog, `builtin_formats()`
maps `i` to `s` exactly when `reversed_builtin_formats()` maps `s` to `i`, and no
two builtin indices share a format string. -/
theorem C11_builtin_round_trip (it : iteration_order) (hv : it.valid) :
    (∀ (i : Int) (s : String), umap_find builtin_formats i = some s →
      umap_find (reversed_builtin_formats it) s = some i) ∧
    (∀ (s : String) (i : Int), umap_find (reversed_builtin_formats it) s = some i →
      umap_find builtin_formats i = some s) ∧
    (∀ (i j : Int) (s : String), umap_find builtin_formats i = some s →
      umap_find builtin_formats j = some s → i = j) := by
  refine ⟨?_, ?_, ?_⟩
  · intro i s h
    exact (reversed_builtin_formats_iff it hv s i).mpr ((builtin_formats_iff i s).mp h)
  · intro s i h
    exact (builtin_formats_iff i s).mpr ((reversed_builtin_formats_iff it hv s i).mp h)
  · intro i j s hi hj
    have h1 := (reversed_builtin_formats_iff it hv s i).mpr ((builtin_formats_iff i s).mp hi)
    have h2 := (reversed_builtin_formats_iff it hv s j).mpr ((builtin_formats_iff j s).mp hj)
    rw [h1] at h2
    injection h2

theorem declaration_order_valid : declaration_order.valid :=
  ⟨List.Perm.refl _, List.Perm.refl _⟩

/-- C11 at the iteration order of the initializer lists. -/
theorem C11_builtin_round_trip_witness :
    declaration_order.valid ∧
    (∀ (i : Int) (s : String), umap_find builtin_formats i = some s →
      umap_find (reversed_builtin_formats declaration_order) s = some i) ∧
    (∀ (s : String) (i : Int),
      umap_find (reversed_builtin_formats declaration_order) s = some i →
      umap_find builtin_formats i = some s) ∧
    (∀ (i j : Int) (s : String), umap_find builtin_formats i = some s →
      umap_find builtin_formats j = some s → i = j) :=
  ⟨declaration_order_valid, C11_builtin_round_trip declaration_order declaration_order_valid⟩

theorem format_strings_keys_nodup : (format_strings.map Prod.fst).Nodup := by decide

theorem format_strings_iff (c : format) (s : String) :
    umap_find format_strings c = some s ↔ (c, s) ∈ format_strings :=
  ⟨umap_find_mem _ _ _, umap_find_of_mem _ _ _ format_strings_keys_nodup⟩

/-- Every symbolic code other than `unknown` has a catalog string. -/
theorem format_strings_total (c : format) (hc : c ≠ format.unknown) :
    ∃ s, umap_find format_strings c = some s := by
  cases c <;> first | exact absurd rfl hc | exact ⟨_, rfl⟩

/-- The index that `set_format_code` and `set_format_string` look up for a string,
described through the builtin catalog. -/
theorem reversed_lookup_spec (it : iteration_order) (hv : it.valid) (s : String) :
    (∀ i : Int, umap_find builtin_formats i = some s →
      umap_find (reversed_builtin_formats it) s = some i) ∧
    ((∀ i : Int, umap_find builtin_formats i ≠ some s) →
      umap_find (reversed_builtin_formats it) s = none) := by
  constructor
  · intro i h
    exact (reversed_builtin_formats_iff it hv s i).mpr ((builtin_formats_iff i s).mp h)
  · intro h
    cases hr : umap_find (reversed_builtin_formats it) s with
    | none => rfl
    | some i =>
      exact absurd ((builtin_formats_iff i s).mpr
        ((reversed_builtin_formats_iff it hv s i).mp hr)) (h i)

/-! ## Construction from a symbolic code (C12) -/

/-- The value that `number_format(c)` constructs for a code with a catalog string. -/
theorem of_code_eq (it : iteration_order) (c : format) (s : String)
    (hs : umap_find format_strings c = some s) :
    number_format.of_code it c = outcome.value
      { format_code_ := c,
        format_index_ :=
          match umap_find (reversed_builtin_formats it) s with
          | some i => i
          | none => -1,
        format_string_ := s } := by
  unfold number_format.of_code number_format.set_format_code
  rw [hs]

/-- C12: for every symbolic code `c` other than `unknown` (and every iteration
order of the catalogs), `number_format(c)` is constructed without an exception,
its `get_format_code()` is `c`, its `get_format_string()` is the catalog string
`format_strings()[c]`, and its `get_format_index()` is the builtin index of that
string when the string is a builtin format and -1 otherwise. -/
theorem C12_construct_from_code (it : iteration_order) (hv : it.valid) (c : format)
    (hc : c ≠ format.unknown) :
    ∃ nf, number_format.of_code it c = outcome.value nf ∧
      nf.get_format_code = c ∧
      umap_find format_strings c = some nf.get_format_string ∧
      (∀ i : Int, umap_find builtin_formats i = some nf.get_format_string →
        nf.get_format_index = i) ∧
      ((∀ i : Int, umap_find builtin_formats i ≠ some nf.get_format_string) →
        nf.get_format_index = -1) := by
  obtain ⟨s, hs⟩ := format_strings_total c hc
  obtain ⟨h1, h2⟩ := reversed_lookup_spec it hv s
  refine ⟨_, of_code_eq it c s hs, rfl, hs, ?_, ?_⟩
  · intro i hi
    simp only [number_format.get_format_index, number_format.get_format_string] at hi ⊢
    rw [h1 i hi]
  · intro hno
    simp only [number_format.get_format_index, number_format.get_format_string] at hno ⊢
    rw [h2 hno]

/-- C12 at the code `number_00` and the iteration order of the initializer lists. -/
theorem C12_construct_from_code_witness :
    declaration_order.valid ∧ format.number_00 ≠ format.unknown ∧
    ∃ nf, number_format.of_code declaration_order format.number_00 = outcome.value nf ∧
      nf.get_format_code = format.number_00 ∧
      umap_find format_strings format.number_00 = some nf.get_format_string ∧
      (∀ i : Int, umap_find builtin_formats i = some nf.get_format_string →
        nf.get_format_index = i) ∧
      ((∀ i : Int, umap_find builtin_formats i ≠ some nf.get_format_string) →
        nf.get_format_index = -1) :=
  ⟨declaration_order_valid, by decide,
    C12_construct_from_code declaration_order declaration_order_valid format.number_00
      (by decide)⟩

/-! ## Construction from a format string (C13) -/

/-- The value that `number_format(format_string)` constructs. -/
theorem of_string_eq (it : iteration_order) (format_string : String) :
    number_format.of_string it format_string = outcome.value
      (number_format.set_format_string it
        { format_code_ := format.general,
          format_index_ :=
            match umap_find (reversed_builtin_formats it) "General" with
            | some i => i
            | none => -1,
          format_string_ := "General" } format_string) := by
  unfold number_format.of_string
  rw [of_code_eq it format.general "General" rfl]

/-- The string of a constructed `number_format(format_string)` is the argument. -/
theorem of_string_format_string (it : iteration_order) (format_string : String) :
    ∃ nf, number_format.of_string it format_string = outcome.value nf ∧
      nf.format_string_ = format_string := by
  refine ⟨_, of_string_eq it format_string, ?_⟩
  unfold number_format.set_format_string
  simp only []
  split
  · rfl
  · split <;> rfl

/-- A string that is not a builtin format gets the code `unknown` and index -1. -/
theorem of_string_not_builtin (it : iteration_order) (hv : it.valid) (s : String)
    (hs : ∀ i : Int, umap_find builtin_formats i ≠ some s) :
    number_format.of_string it s = outcome.value
      { format_code_ := format.unknown, format_index_ := -1, format_string_ := s } := by
  rw [of_string_eq]
  unfold number_format.set_format_string
  simp only []
  rw [(reversed_lookup_spec it hv s).2 hs]

/-- A builtin string that is the catalog string of exactly one code gets that code
and its builtin index. -/
theorem of_string_builtin (it : iteration_order) (hv : it.valid) (c : format) (s : String)
    (i : Int) (hcs : umap_find format_strings c = some s)
    (huniq : ∀ c1 : format, umap_find format_strings c1 = some s → c1 = c)
    (hi : umap_find builtin_formats i = some s) :
    number_format.of_string it s = outcome.value
      { format_code_ := c, format_index_ := i, format_string_ := s } := by
  rw [of_string_eq]
  unfold number_format.set_format_string
  simp only []
  rw [(reversed_lookup_spec it hv s).1 i hi]
  simp only []
  have hmem : (c, s) ∈ it.strings := hv.2.mem_iff.mpr ((format_strings_iff c s).mp hcs)
  cases hf : it.strings.find? (fun pair => decide (pair.2 = s)) with
  | none =>
    have := List.find?_eq_none.mp hf (c, s) hmem
    simp at this
  | some pair =>
    have h2 : pair.2 = s := by
      have := List.find?_some hf
      simpa using this
    have hpm : pair ∈ format_strings := hv.2.mem_iff.mp (List.mem_of_find?_eq_some hf)
    have h1 : pair.1 = c := by
      apply huniq
      rw [format_strings_iff, ← h2]
      exact hpm
    simp only [h1]

/-- C13 (as amended): for every symbolic code `c` other than `unknown` whose
catalog string is not shared with another code: when that string is a builtin
format, `number_format(format_strings()[c])` has `get_format_code() == c` (and the
builtin index); when it is not a builtin format, `get_format_code()` is `unknown`
and `get_format_index()` is -1. -/
theorem C13_construct_from_string (it : iteration_order) (hv : it.valid) (c : format)
    (s : String) (_hc : c ≠ format.unknown) (hcs : umap_find format_strings c = some s)
    (huniq : ∀ c1 : format, umap_find format_strings c1 = some s → c1 = c) :
    ∃ nf, number_format.of_string it s = outcome.value nf ∧
      nf.get_format_string = s ∧
      (∀ i : Int, umap_find builtin_formats i = some s →
        nf.get_format_code = c ∧ nf.get_format_index = i) ∧
      ((∀ i : Int, umap_find builtin_formats i ≠ some s) →
        nf.get_format_code = format.unknown ∧ nf.get_format_index = -1) := by
  obtain ⟨nf, hnf, hstr⟩ := of_string_format_string it s
  refine ⟨nf, hnf, hstr, ?_, ?_⟩
  · intro i hi
    rw [of_string_builtin it hv c s i hcs huniq hi] at hnf
    injection hnf with hnf
    rw [← hnf]
    exact ⟨rfl, rfl⟩
  · intro hno
    rw [of_string_not_builtin it hv s hno] at hnf
    injection hnf with hnf
    rw [← hnf]
    exact ⟨rfl, rfl⟩

/-- C13 (as amended) at the code `number_00`, whose string "0.00" is builtin 2. -/
theorem C13_construct_from_string_witness :
    declaration_order.valid ∧ format.number_00 ≠ format.unknown ∧
    umap_find format_strings format.number_00 = some "0.00" ∧
    (∀ c1 : format, umap_find format_strings c1 = some "0.00" → c1 = format.number_00) ∧
    ∃ nf, number_format.of_string declaration_order "0.00" = outcome.value nf ∧
      nf.get_format_string = "0.00" ∧
      (∀ i : Int, umap_find builtin_formats i = some "0.00" →
        nf.get_format_code = format.number_00 ∧ nf.get_format_index = i) ∧
      ((∀ i : Int, umap_find builtin_formats i ≠ some "0.00") →
        nf.get_format_code = format.unknown ∧ nf.get_format_index = -1) :=
  ⟨declaration_order_valid, by decide, by decide,
    fun c1 h => by cases c1 <;> first | rfl | exact absurd h (by decide),
    C13_construct_from_string declaration_order declaration_order_valid format.number_00
      "0.00" (by decide) (by decide)
      (fun c1 h => by cases c1 <;> first | rfl | exact absurd h (by decide))⟩

/-- C13 as stated fails for every iteration order: "yyyy-mm-dd" is the catalog
string of `date_yyyymmdd2` and of no other code, but it is not a builtin format,
so `number_format("yyyy-mm-dd")` has the code `unknown`. -/
theorem C13_counterexample :
    ¬ ∃ it : iteration_order, it.valid ∧
      ∀ (c : format) (s : String), c ≠ format.unknown →
        umap_find format_strings c = some s →
        (∀ c1 : format, umap_find format_strings c1 = some s → c1 = c) →
        ∃ nf, number_format.of_string it s = outcome.value nf ∧ nf.get_format_code = c := by
  rintro ⟨it, hv, hclaim⟩
  obtain ⟨nf, hnf, hcode⟩ := hclaim format.date_yyyymmdd2 "yyyy-mm-dd" (by decide) (by decide)
    (fun c1 h => by cases c1 <;> first | rfl | exact absurd h (by decide))
  have hno : ∀ i : Int, umap_find builtin_formats i ≠ some "yyyy-mm-dd" := by
    intro i h
    have hm := (builtin_formats_iff i "yyyy-mm-dd").mp h
    have : "yyyy-mm-dd" ∈ builtin_formats.map Prod.snd := List.mem_map.mpr ⟨_, hm, rfl⟩
    exact absurd this (by decide)
  rw [of_string_not_builtin it hv "yyyy-mm-dd" hno] at hnf
  injection hnf with hnf
  rw [← hnf] at hcode
  exact absurd hcode (by decide)

/-! ## Equality of number formats (C14) -/

/-- C14 (as amended): two `number_format` values compare equal (`operator==`)
exactly when the hashes of their format strings are equal; so values with equal
format strings are equal whatever constructor produced them, in particular
`number_format(format::number_00) == number_format("0.00")`, and two values whose
format strings have different hashes are not equal. -/
theorem C14_equality_by_hash (strHash : String → Nat) (it : iteration_order)
    (hv : it.valid) :
    (∀ a b : number_format,
      a.eq strHash b = true ↔ strHash a.get_format_string = strHash b.get_format_string) ∧
    (∀ a b : number_format,
      a.get_format_string = b.get_format_string → a.eq strHash b = true) ∧
    (∀ a b : number_format,
      strHash a.get_format_string ≠ strHash b.get_format_string → a.eq strHash b = false) ∧
    (∃ x y, number_format.of_code it format.number_00 = outcome.value x ∧
      number_format.of_string it "0.00" = outcome.value y ∧
      x.get_format_string = "0.00" ∧ y.get_format_string = "0.00" ∧
      x.eq strHash y = true) := by
  have hiff : ∀ a b : number_format,
      a.eq strHash b = true ↔ strHash a.get_format_string = strHash b.get_format_string := by
    intro a b
    simp [number_format.eq, number_format.hash, number_format.get_format_string]
  refine ⟨hiff, ?_, ?_, ?_⟩
  · intro a b h
    rw [hiff, h]
  · intro a b h
    cases hab : a.eq strHash b with
    | false => rfl
    | true => exact absurd ((hiff a b).mp hab) h
  · have hx := of_code_eq it format.number_00 "0.00" rfl
    have hy := of_string_builtin it hv format.number_00 "0.00" 2 rfl
      (fun c1 h => by cases c1 <;> first | rfl | exact absurd h (by decide)) rfl
    refine ⟨_, _, hx, hy, rfl, rfl, ?_⟩
    rw [hiff]
    rfl

/-- C14 (as amended) at the sample hash and the iteration order of the
initializer lists. -/
theorem C14_equality_by_hash_witness :
    declaration_order.valid ∧
    (∀ a b : number_format,
      a.eq sample_hash b = true ↔
        sample_hash a.get_format_string = sample_hash b.get_format_string) ∧
    (∀ a b : number_format,
      a.get_format_string = b.get_format_string → a.eq sample_hash b = true) ∧
    (∀ a b : number_format,
      sample_hash a.get_format_string ≠ sample_hash b.get_format_string →
      a.eq sample_hash b = false) ∧
    (∃ x y, number_format.of_code declaration_order format.number_00 = outcome.value x ∧
      number_format.of_string declaration_order "0.00" = outcome.value y ∧
      x.get_format_string = "0.00" ∧ y.get_format_string = "0.00" ∧
      x.eq sample_hash y = true) :=
  ⟨declaration_order_valid,
    C14_equality_by_hash sample_hash declaration_order declaration_order_valid⟩

/-- C14 as stated fails for every hash into a bounded range: two number formats
with different format strings and one hash compare equal. -/
theorem C14_counterexample :
    ¬ ∃ (strHash : String → Nat) (B : Nat), (∀ s, strHash s < B) ∧
      ∀ a b : number_format,
        a.eq strHash b = true ↔ a.get_format_string = b.get_format_string := by
  rintro ⟨strHash, B, hb, hclaim⟩
  obtain ⟨s1, s2, hne, hh⟩ := hash_collision strHash B hb
  have := (hclaim
    { format_code_ := format.unknown, format_index_ := -1, format_string_ := s1 }
    { format_code_ := format.unknown, format_index_ := -1, format_string_ := s2 }).mp
    (by simp [number_format.eq, number_format.hash, hh])
  exact hne this

/-! ## Facts about `substr`, `find` and `split_string` -/

theorem substr_value (s : List Char) (pos len : Nat) (h : pos ≤ s.length) :
    substr s pos len = outcome.value ((s.drop pos).take len) := by
  unfold substr
  rw [if_pos h]

theorem substr_from_value (s : List Char) (pos : Nat) (h : pos ≤ s.length) :
    substr_from s pos = outcome.value (s.drop pos) := by
  unfold substr_from
  rw [if_pos h]

theorem find_char_none (s : List Char) (c : Char) (pos : Nat) :
    find_char s c pos = none ↔ find_index (fun y => y == c) (s.drop pos) = none := by
  unfold find_char
  cases find_index (fun y => y == c) (s.drop pos) <;> simp

theorem find_char_some (s : List Char) (c : Char) (pos i : Nat) :
    find_char s c pos = some i ↔
      ∃ j, find_index (fun y => y == c) (s.drop pos) = some j ∧ i = j + pos := by
  unfold find_char
  cases find_index (fun y => y == c) (s.drop pos) with
  | none => simp
  | some j =>
    simp only [Option.map_some', Option.some.injEq]
    constructor
    · intro h
      exact ⟨j, rfl, h.symm⟩
    · rintro ⟨k, hk, rfl⟩
      rw [hk]

theorem split_pieces_cons (delim c : Char) (cs : List Char) :
    split_pieces delim (c :: cs) =
      if c = delim then [] :: split_pieces delim cs
      else
        match split_pieces delim cs with
        | piece :: pieces => (c :: piece) :: pieces
        | [] => [[c]] := by
  rw [split_pieces]

theorem split_pieces_ne_nil (delim : Char) : ∀ l : List Char, split_pieces delim l ≠ [] := by
  intro l
  induction l with
  | nil => simp [split_pieces]
  | cons c cs ih =>
    rw [split_pieces_cons]
    by_cases h : c = delim
    · simp [h]
    · rw [if_neg h]
      cases hs : split_pieces delim cs with
      | nil => simp
      | cons p ps => simp

/-- Without a delimiter the string is the only piece. -/
theorem split_pieces_of_none (delim : Char) :
    ∀ l : List Char, find_index (fun y => y == delim) l = none →
      split_pieces delim l = [l] := by
  intro l
  induction l with
  | nil => intro _; rfl
  | cons c cs ih =>
    intro h
    unfold find_index at h
    by_cases hc : c = delim
    · simp [hc] at h
    · have hb : (c == delim) = false := by simpa using hc
      simp only [hb, Bool.false_eq_true, if_false, Option.map_eq_none'] at h
      rw [split_pieces_cons, if_neg hc, ih h]

/-- With a first delimiter at index `j`, the first piece is the `j` characters
before it and the other pieces are those of the rest. -/
theorem split_pieces_of_some (delim : Char) :
    ∀ (l : List Char) (j : Nat), find_index (fun y => y == delim) l = some j →
      split_pieces delim l = l.take j :: split_pieces delim (l.drop (j + 1)) := by
  intro l
  induction l with
  | nil => intro j h; simp [find_index] at h
  | cons c cs ih =>
    intro j h
    unfold find_index at h
    by_cases hc : c = delim
    · have hb : (c == delim) = true := by simpa using hc
      simp only [hb, if_true, Option.some.injEq] at h
      subst h
      rw [split_pieces_cons, if_pos hc]
      rfl
    · have hb : (c == delim) = false := by simpa using hc
      simp only [hb, Bool.false_eq_true, if_false, Option.map_eq_some'] at h
      obtain ⟨k, hk, rfl⟩ := h
      rw [split_pieces_cons, if_neg hc, ih k hk]
      rfl

/-- The loop of `split_string`, entered at a position within the string with the
separator index that `find` gave for it, appends the pieces of the rest. -/
theorem split_string_loop_eq (string : List Char) (delim : Char) :
    ∀ (n previous_index : Nat) (split : List (List Char)),
      string.length - previous_index = n → previous_index ≤ string.length →
      split_string_loop string delim previous_index
        (find_char string delim previous_index) split
        = outcome.value (split ++ split_pieces delim (string.drop previous_index)) := by
  intro n
  induction n using Nat.strong_induction_on with
  | _ n ih =>
    intro previous_index split hn hle
    cases hf : find_char string delim previous_index with
    | none =>
      rw [split_string_loop, substr_from_value _ _ hle,
        split_pieces_of_none delim _ ((find_char_none _ _ _).mp hf)]
    | some sep =>
      obtain ⟨j, hj, hsep⟩ := (find_char_some _ _ _ _).mp hf
      have hjlt := find_index_some_lt _ _ _ hj
      rw [List.length_drop] at hjlt
      rw [split_string_loop, substr_value _ _ _ hle]
      simp only []
      rw [ih (string.length - (sep + 1)) (by omega) (sep + 1) _ rfl (by omega),
        split_pieces_of_some delim _ j hj]
      have h1 : sep - previous_index = j := by omega
      have h2 : List.drop (j + 1) (List.drop previous_index string)
          = List.drop (sep + 1) string := by
        rw [List.drop_drop]
        congr 1
        omega
      rw [h1, h2]
      simp

/-- The function `split_string` returns the pieces of the string. -/
theorem split_string_eq (string : List Char) (delim : Char) :
    split_string string delim = outcome.value (split_pieces delim string) := by
  unfold split_string
  rw [split_string_loop_eq string delim string.length 0 [] rfl (Nat.zero_le _)]
  rfl

theorem split_pieces_length (delim : Char) :
    ∀ l : List Char, (split_pieces delim l).length = l.count delim + 1 := by
  intro l
  induction l with
  | nil => rfl
  | cons c cs ih =>
    rw [split_pieces_cons]
    by_cases h : c = delim
    · rw [if_pos h, List.length_cons, ih, h, List.count_cons_self]
    · rw [if_neg h, List.count_cons_of_ne (fun hh => h hh.symm)]
      cases hs : split_pieces delim cs with
      | nil => exact absurd hs (split_pieces_ne_nil delim cs)
      | cons p ps =>
        rw [hs] at ih
        simpa using ih

/-! ## Facts about the section parser -/

theorem bind_value {α β : Type} (a : α) (f : α → outcome β) :
    (outcome.value a).bind f = f a := rfl

theorem bind_thrown {α β : Type} (e : String) (f : α → outcome β) :
    (outcome.thrown e : outcome α).bind f = outcome.thrown e := rfl

theorem bind_eq_value {α β : Type} (x : outcome α) (f : α → outcome β) (b : β) :
    x.bind f = outcome.value b ↔ ∃ a, x = outcome.value a ∧ f a = outcome.value b := by
  cases x with
  | value a => simp [outcome.bind]
  | thrown e => simp [outcome.bind]
  | undefined => simp [outcome.bind]

theorem bind_ne_undefined {α β : Type} (x : outcome α) (f : α → outcome β)
    (hx : x ≠ outcome.undefined) (hf : ∀ a, f a ≠ outcome.undefined) :
    x.bind f ≠ outcome.undefined := by
  cases x with
  | value a => exact hf a
  | thrown e => simp [outcome.bind]
  | undefined => exact absurd rfl hx

/-- An outcome that is neither a value nor undefined behaviour is an exception. -/
theorem thrown_of_not {α : Type} (x : outcome α) (hu : x ≠ outcome.undefined)
    (hv : ∀ a, x ≠ outcome.value a) : ∃ e, x = outcome.thrown e := by
  cases x with
  | value a => exact absurd rfl (hv a)
  | thrown e => exact ⟨e, rfl⟩
  | undefined => exact absurd rfl hu

theorem substr_ne_undefined (s : List Char) (pos len : Nat) :
    substr s pos len ≠ outcome.undefined := by
  unfold substr
  split <;> simp

theorem substr_from_ne_undefined (s : List Char) (pos : Nat) :
    substr_from s pos ≠ outcome.undefined := by
  unfold substr_from
  split <;> simp

theorem parse_condition_ne_undefined (string : List Char) (s : section_t) :
    parse_condition string s ≠ outcome.undefined := by
  unfold parse_condition
  simp only []
  refine bind_ne_undefined _ _ ?_ (fun s1 => bind_ne_undefined _ _ ?_ (fun s2 => by simp))
  · split
    · split
      · exact bind_ne_undefined _ _ (substr_from_ne_undefined _ _) (fun v => by simp)
      · exact bind_ne_undefined _ _ (substr_from_ne_undefined _ _) (fun v => by simp)
    · simp
  · split
    · split
      · exact bind_ne_undefined _ _ (substr_from_ne_undefined _ _) (fun v => by simp)
      · exact bind_ne_undefined _ _ (substr_from_ne_undefined _ _) (fun v => by simp)
    · split
      · exact bind_ne_undefined _ _ (substr_from_ne_undefined _ _) (fun v => by simp)
      · simp

theorem parse_bracket_ne_undefined (section_string intermediate : List Char) :
    parse_bracket section_string intermediate ≠ outcome.undefined := by
  unfold parse_bracket
  split
  · simp
  · refine bind_ne_undefined _ _ (substr_ne_undefined _ _ _) (fun part => ?_)
    split
    · simp
    · exact bind_ne_undefined _ _ (substr_from_ne_undefined _ _) (fun v => by simp)

/-- The function `parse_section` returns a section or throws. -/
theorem parse_section_ne_undefined (section_string : List Char) :
    parse_section section_string ≠ outcome.undefined := by
  unfold parse_section
  simp only []
  refine bind_ne_undefined _ _ ?_ (fun p1 => bind_ne_undefined _ _ ?_
    (fun p2 => bind_ne_undefined _ _ ?_ (fun s1 => bind_ne_undefined _ _ ?_
      (fun s2 => by simp))))
  · split
    · exact parse_bracket_ne_undefined _ _
    · simp
  · split
    · exact parse_bracket_ne_undefined _ _
    · simp
  · split
    · split
      · simp
      · refine bind_ne_undefined _ _ (parse_condition_ne_undefined _ _) (fun q => ?_)
        split <;> simp
    · simp
  · split
    · split
      · split <;> simp
      · split
        · simp
        · refine bind_ne_undefined _ _ (parse_condition_ne_undefined _ _) (fun q => ?_)
          split <;> simp
    · simp

theorem vector_at_value {α : Type} (v : List α) (i : Nat) (h : i < v.length) :
    vector_at v i = outcome.value v[i] := by
  unfold vector_at
  rw [List.getElem?_eq_getElem h]

theorem vector_at_of_some {α : Type} (v : List α) (i : Nat) (x : α) (h : v[i]? = some x) :
    vector_at v i = outcome.value x := by
  unfold vector_at
  rw [h]

/-- The body of `parse_format_sections` after the split. -/
theorem parse_format_sections_eq (combined : List Char) :
    parse_format_sections combined =
      ((vector_at (split_pieces ';' combined) 0).bind parse_section).bind fun first =>
      (if (split_pieces ';' combined).length > 1 then
         ((vector_at (split_pieces ';' combined) 1).bind parse_section).bind fun second =>
           outcome.value
             { (if !first.has_condition then
                 ({ first := first, second := first, third := first } : format_sections)
                else { first := first }) with second := second }
       else outcome.value
         (if !first.has_condition then
           ({ first := first, second := first, third := first } : format_sections)
          else { first := first })).bind fun result3 =>
      (if (split_pieces ';' combined).length > 2 then
         if result3.first.has_condition && !result3.second.has_condition then
           outcome.thrown "first two sections should have conditions"
         else
           ((vector_at (split_pieces ';' combined) 2).bind parse_section).bind fun third =>
             if third.has_condition then
               outcome.thrown "third section shouldn't have a condition"
             else outcome.value { result3 with third := third }
       else outcome.value result3).bind fun result4 =>
      (if (split_pieces ';' combined).length > 3 then
         if result4.first.has_condition then outcome.thrown "too many parts"
         else
           ((vector_at (split_pieces ';' combined) 3).bind parse_section).bind fun fourth =>
             outcome.value { result4 with fourth := fourth }
       else outcome.value result4).bind fun result5 =>
      if (split_pieces ';' combined).length > 4 then outcome.thrown "too many parts"
      else outcome.value result5 := by
  unfold parse_format_sections
  rw [split_string_eq, bind_value]
  have hne : (split_pieces ';' combined).isEmpty = false := by
    cases h : split_pieces ';' combined with
    | nil => exact absurd h (split_pieces_ne_nil _ _)
    | cons p ps => rfl
  simp only [hne, Bool.false_eq_true, if_false]

/-- The function `parse_format_sections` returns the sections or throws: every
`split[i]` it reads is guarded by the size of `split`. -/
theorem parse_format_sections_ne_undefined (combined : List Char) :
    parse_format_sections combined ≠ outcome.undefined := by
  rw [parse_format_sections_eq]
  have hpos : 0 < (split_pieces ';' combined).length :=
    List.length_pos.mpr (split_pieces_ne_nil _ _)
  refine bind_ne_undefined _ _ ?_ (fun first => bind_ne_undefined _ _ ?_
    (fun r3 => bind_ne_undefined _ _ ?_ (fun r4 => bind_ne_undefined _ _ ?_ (fun r5 => ?_))))
  · rw [vector_at_value _ _ hpos, bind_value]
    exact parse_section_ne_undefined _
  · split
    · rename_i h
      rw [vector_at_value _ _ h, bind_value]
      exact bind_ne_undefined _ _ (parse_section_ne_undefined _) (fun x => by simp)
    · simp
  · split
    · rename_i h
      split
      · simp
      · rw [vector_at_value _ _ h, bind_value]
        refine bind_ne_undefined _ _ (parse_section_ne_undefined _) (fun x => ?_)
        split <;> simp
    · simp
  · split
    · rename_i h
      split
      · simp
      · rw [vector_at_value _ _ h, bind_value]
        exact bind_ne_undefined _ _ (parse_section_ne_undefined _) (fun x => by simp)
    · simp
  · split <;> simp

/-- What a returned value of `parse_format_sections` tells: there are at most four
raw sections, and a third raw section was parsed into a section without a
condition. -/
theorem parse_format_sections_value (combined : List Char) (r : format_sections)
    (h : parse_format_sections combined = outcome.value r) :
    (split_pieces ';' combined).length ≤ 4 ∧
    (∀ x, (split_pieces ';' combined)[2]? = some x →
      ∃ t, parse_section x = outcome.value t ∧ t.has_condition = false) := by
  rw [parse_format_sections_eq] at h
  obtain ⟨first, _, h⟩ := (bind_eq_value _ _ _).mp h
  obtain ⟨r3, _, h⟩ := (bind_eq_value _ _ _).mp h
  obtain ⟨r4, h4, h⟩ := (bind_eq_value _ _ _).mp h
  obtain ⟨r5, _, h⟩ := (bind_eq_value _ _ _).mp h
  constructor
  · by_contra hc
    rw [if_pos (by omega)] at h
    cases h
  · intro x hx
    have hlt := getElem?_some_lt _ _ _ hx
    rw [if_pos hlt] at h4
    split at h4
    · cases h4
    · rw [vector_at_of_some _ _ _ hx, bind_value] at h4
      obtain ⟨t, ht, h4⟩ := (bind_eq_value _ _ _).mp h4
      refine ⟨t, ht, ?_⟩
      cases hc : t.has_condition with
      | false => rfl
      | true =>
        rw [hc] at h4
        simp at h4

theorem find_index_append_first {α : Type} (p : α → Bool) (y : α) (r : List α)
    (hy : p y = true) :
    ∀ l : List α, (∀ x ∈ l, p x = false) → find_index p (l ++ y :: r) = some l.length := by
  intro l
  induction l with
  | nil => intro _; simp [find_index, hy]
  | cons a t ih =>
    intro h
    have ha : p a = false := h a (List.mem_cons_self _ _)
    have ht := ih (fun x hx => h x (List.mem_cons_of_mem _ hx))
    simp only [List.cons_append]
    unfold find_index
    simp [ha, ht]

/-- The first bracket block on a section that starts with `[part]`. -/
theorem parse_bracket_shape (part rest : List Char) (hp : ']' ∉ part) :
    parse_bracket ('[' :: (part ++ ']' :: rest)) ('[' :: (part ++ ']' :: rest)) =
      if (find_index (fun y => decide (y = part)) bracket_times).isSome then
        outcome.value ([], '[' :: (part ++ ']' :: rest))
      else outcome.value (part, ']' :: rest) := by
  have hfind : find_char ('[' :: (part ++ ']' :: rest)) ']' 0 = some (part.length + 1) := by
    unfold find_char
    simp only [List.drop_zero]
    unfold find_index
    have h0 : ('[' == ']') = false := by decide
    rw [h0]
    simp only [Bool.false_eq_true, if_false]
    rw [find_index_append_first (fun y => y == ']') ']' rest (by decide) part
      (fun x hx => by
        simp only [beq_eq_false_iff_ne, ne_eq]
        intro hxe
        exact hp (hxe ▸ hx))]
    rfl
  unfold parse_bracket
  rw [hfind]
  simp only []
  rw [substr_value _ _ _ (by simp), bind_value]
  have h1 : List.take (part.length + 1 - 1) (List.drop 1 ('[' :: (part ++ ']' :: rest)))
      = part := by
    simp
  rw [h1]
  split
  · rfl
  · rw [substr_from_value _ _ (by simp), bind_value]
    have h2 : List.drop (part.length + 1) ('[' :: (part ++ ']' :: rest)) = ']' :: rest := by
      simp
    rw [h2]

/-- The function `parse_section` on a section that starts with a bracket `[part]`
whose content is not empty and not a duration token: the content is read as a
color or a condition, and the value is the rest from the close bracket on. -/
theorem parse_section_bracket (part rest : List Char) (hp : ']' ∉ part)
    (hne : part ≠ [])
    (ht : (find_index (fun y => decide (y = part)) bracket_times).isSome = false) :
    parse_section ('[' :: (part ++ ']' :: rest)) =
      (if is_valid_color part then
         outcome.value ({ color := part, has_color := true } : section_t)
       else
         (parse_condition part {}).bind fun q =>
           if !q.2 then outcome.thrown "invalid condition" else outcome.value q.1).bind
        fun s1 => outcome.value { s1 with value := ']' :: rest, has_value := true } := by
  have hemp : part.isEmpty = false := by
    cases part with
    | nil => exact absurd rfl hne
    | cons a t => rfl
  unfold parse_section
  have h0 : char_at ('[' :: (part ++ ']' :: rest)) 0 = '[' := rfl
  have h1 : char_at (']' :: rest) 0 ≠ '[' := by
    show ']' ≠ '['
    decide
  simp only [h0, if_true]
  rw [parse_bracket_shape part rest hp, ht]
  simp only [Bool.false_eq_true, if_false, bind_value, hemp, Bool.not_false, Bool.true_and,
    decide_eq_true_eq, h1, List.isEmpty_nil, Bool.not_true, if_true]

/-- A bracket content that begins with `<`, `>` or `=` is no color name. -/
theorem is_valid_color_operator (o : Char) (tl : List Char)
    (ho : o = '<' ∨ o = '>' ∨ o = '=') : is_valid_color (o :: tl) = false := by
  rcases ho with rfl | rfl | rfl <;>
    simp [is_valid_color, colors, find_index]

/-- A bracket content that begins with `<`, `>` or `=` is no duration token. -/
theorem bracket_times_operator (o : Char) (tl : List Char)
    (ho : o = '<' ∨ o = '>' ∨ o = '=') :
    (find_index (fun y => decide (y = o :: tl)) bracket_times).isSome = false := by
  rcases ho with rfl | rfl | rfl <;>
    simp [bracket_times, find_index]

/-- The function `parse_condition` accepts every string that begins with `<`, `>`
or `=`: it returns `true` and a section with `has_condition`. -/
theorem parse_condition_operator (o : Char) (tl : List Char) (s : section_t)
    (ho : o = '<' ∨ o = '>' ∨ o = '=') :
    ∃ s1, parse_condition (o :: tl) s = outcome.value (s1, true) ∧
      s1.has_condition = true := by
  cases tl with
  | nil => rcases ho with rfl | rfl | rfl <;> exact ⟨_, rfl, rfl⟩
  | cons t tl1 =>
    have h0 : char_at (o :: t :: tl1) 0 = o := rfl
    have h1 : char_at (o :: t :: tl1) 1 = t := rfl
    have hs1 : substr_from (o :: t :: tl1) 1 = outcome.value (t :: tl1) := by
      rw [substr_from_value _ _ (by simp)]
      rfl
    have hs2 : substr_from (o :: t :: tl1) 2 = outcome.value tl1 := by
      rw [substr_from_value _ _ (by simp)]
      rfl
    unfold parse_condition
    simp only [h0, h1, hs1, hs2]
    by_cases ht : t = '='
    · subst ht
      rcases ho with rfl | rfl | rfl <;> exact ⟨_, rfl, rfl⟩
    · simp only [if_neg ht]
      rcases ho with rfl | rfl | rfl <;> exact ⟨_, rfl, rfl⟩

/-- A section that starts with a bracketed condition parses into a section with
`has_condition`. -/
theorem parse_section_condition (o : Char) (tl rest : List Char)
    (ho : o = '<' ∨ o = '>' ∨ o = '=') (hp : ']' ∉ o :: tl) :
    ∃ t, parse_section ('[' :: ((o :: tl) ++ ']' :: rest)) = outcome.value t ∧
      t.has_condition = true := by
  obtain ⟨s1, hs1, hc⟩ := parse_condition_operator o tl {} ho
  rw [parse_section_bracket (o :: tl) rest hp (by simp) (bracket_times_operator o tl ho),
    is_valid_color_operator o tl ho]
  simp only [Bool.false_eq_true, if_false]
  rw [hs1]
  exact ⟨_, rfl, hc⟩

theorem split_pieces_single (delim : Char) (a : List Char) (ha : delim ∉ a) :
    split_pieces delim a = [a] := by
  apply split_pieces_of_none
  rw [find_index_none]
  intro x hx
  simp only [beq_eq_false_iff_ne, ne_eq]
  intro hxe
  exact ha (hxe ▸ hx)

theorem split_pieces_append (delim : Char) (a b : List Char) (ha : delim ∉ a) :
    split_pieces delim (a ++ delim :: b) = a :: split_pieces delim b := by
  have hf : find_index (fun y => y == delim) (a ++ delim :: b) = some a.length :=
    find_index_append_first (fun y => y == delim) delim b (by simp) a
      (fun x hx => by
        simp only [beq_eq_false_iff_ne, ne_eq]
        intro hxe
        exact ha (hxe ▸ hx))
  rw [split_pieces_of_some delim _ _ hf]
  simp

/-! ## The number of raw sections (C19, C20) -/

/-- C19: a format string whose third raw section begins with a bracketed
condition (`[`, then `<`, `>` or `=` and any threshold, then `]`) makes
`parse_format_sections` throw. -/
theorem C19_third_section_condition (combined : List Char) (parts : List (List Char))
    (o : Char) (tl rest : List Char)
    (hsplit : split_string combined ';' = outcome.value parts)
    (hthird : parts[2]? = some ('[' :: ((o :: tl) ++ ']' :: rest)))
    (ho : o = '<' ∨ o = '>' ∨ o = '=') (hp : ']' ∉ tl) :
    ∃ e, parse_format_sections combined = outcome.thrown e := by
  rw [split_string_eq] at hsplit
  injection hsplit with hsplit
  subst hsplit
  have hp1 : ']' ∉ o :: tl := by
    intro h
    rcases List.mem_cons.mp h with h1 | h1
    · rcases ho with rfl | rfl | rfl <;> exact absurd h1 (by decide)
    · exact hp h1
  refine thrown_of_not _ (parse_format_sections_ne_undefined combined) ?_
  intro r hr
  obtain ⟨t, ht, hc⟩ := (parse_format_sections_value combined r hr).2 _ hthird
  obtain ⟨t1, ht1, hc1⟩ := parse_section_condition o tl rest ho hp1
  rw [ht1] at ht
  injection ht with ht
  rw [← ht, hc1] at hc
  cases hc

/-- C19 at the format string "0;0;[>5]0". -/
theorem C19_third_section_condition_witness :
    split_string "0;0;[>5]0".toList ';'
      = outcome.value ["0".toList, "0".toList, "[>5]0".toList] ∧
    ["0".toList, "0".toList, "[>5]0".toList][2]?
      = some ('[' :: (('>' :: "5".toList) ++ ']' :: "0".toList)) ∧
    ('>' = '<' ∨ '>' = '>' ∨ '>' = '=') ∧ ']' ∉ "5".toList ∧
    ∃ e, parse_format_sections "0;0;[>5]0".toList = outcome.thrown e :=
  ⟨(split_string_eq _ _).trans rfl, rfl, Or.inr (Or.inl rfl), by decide,
    C19_third_section_condition "0;0;[>5]0".toList
      ["0".toList, "0".toList, "[>5]0".toList] '>' "5".toList "0".toList
      ((split_string_eq _ _).trans rfl) rfl (Or.inr (Or.inl rfl)) (by decide)⟩

/-- C20: a format string with four or more `;` makes `parse_format_sections`
throw; `split_string` always returns a list that is not empty, with one more
element than the string has delimiters; so a format string with fewer than four
`;` has between one and four raw sections. -/
theorem C20_section_count (combined : List Char) :
    (4 ≤ combined.count ';' → ∃ e, parse_format_sections combined = outcome.thrown e) ∧
    (∀ delim : Char, ∃ parts, split_string combined delim = outcome.value parts ∧
      parts ≠ [] ∧ parts.length = combined.count delim + 1) ∧
    (combined.count ';' < 4 →
      ∃ parts, split_string combined ';' = outcome.value parts ∧
        1 ≤ parts.length ∧ parts.length ≤ 4) := by
  refine ⟨?_, ?_, ?_⟩
  · intro h
    refine thrown_of_not _ (parse_format_sections_ne_undefined combined) ?_
    intro r hr
    have := (parse_format_sections_value combined r hr).1
    rw [split_pieces_length] at this
    omega
  · intro delim
    exact ⟨_, split_string_eq combined delim, split_pieces_ne_nil _ _,
      split_pieces_length _ _⟩
  · intro h
    refine ⟨_, split_string_eq combined ';', ?_, ?_⟩
    · rw [split_pieces_length]
      omega
    · rw [split_pieces_length]
      omega

/-- C20 at the format string "a;b;c;d;e", which has four `;`. -/
theorem C20_section_count_witness :
    4 ≤ "a;b;c;d;e".toList.count ';' ∧
    ∃ e, parse_format_sections "a;b;c;d;e".toList = outcome.thrown e :=
  ⟨by decide, (C20_section_count "a;b;c;d;e".toList).1 (by decide)⟩

/-! ## One, two and three raw sections (C15 to C18) -/

/-- A format string without `;` whose only section parses. -/
theorem parse_format_sections_one (a : List Char) (s : section_t) (ha : ';' ∉ a)
    (hs : parse_section a = outcome.value s) :
    parse_format_sections a = outcome.value
      (if !s.has_condition then
        ({ first := s, second := s, third := s } : format_sections)
       else { first := s }) := by
  rw [parse_format_sections_eq, split_pieces_single ';' a ha]
  simp [vector_at, bind_value, hs]

/-- A format string with exactly two raw sections that parse. -/
theorem parse_format_sections_two (a b : List Char) (s t : section_t) (ha : ';' ∉ a)
    (hb : ';' ∉ b) (hs : parse_section a = outcome.value s)
    (ht : parse_section b = outcome.value t) :
    parse_format_sections (a ++ ';' :: b) = outcome.value
      { (if !s.has_condition then
          ({ first := s, second := s, third := s } : format_sections)
         else { first := s }) with second := t } := by
  rw [parse_format_sections_eq, split_pieces_append ';' a b ha, split_pieces_single ';' b hb]
  simp [vector_at, bind_value, hs, ht]

/-- A format string with exactly three raw sections of which the first two parse. -/
theorem parse_format_sections_three (a b c : List Char) (s t : section_t) (ha : ';' ∉ a)
    (hb : ';' ∉ b) (hc : ';' ∉ c) (hs : parse_section a = outcome.value s)
    (ht : parse_section b = outcome.value t) :
    parse_format_sections (a ++ ';' :: (b ++ ';' :: c)) =
      if s.has_condition && !t.has_condition then
        outcome.thrown "first two sections should have conditions"
      else
        (parse_section c).bind fun third =>
          if third.has_condition then
            outcome.thrown "third section shouldn't have a condition"
          else outcome.value
            { (if !s.has_condition then
                ({ first := s, second := s, third := s } : format_sections)
               else { first := s }) with second := t, third := third } := by
  rw [parse_format_sections_eq, split_pieces_append ';' a _ ha,
    split_pieces_append ';' b c hb, split_pieces_single ';' c hc]
  simp only [vector_at, bind_value, hs, ht, List.length_cons, List.length_nil,
    List.getElem?_cons_zero, List.getElem?_cons_succ]
  simp only [show (0 + 1 + 1 + 1 > 1) = True from by simp, show (0 + 1 + 1 + 1 > 2) = True from
    by simp, show (0 + 1 + 1 + 1 > 3) = False from by simp, show (0 + 1 + 1 + 1 > 4) = False
    from by simp, if_true, if_false, bind_value]
  cases hsc : s.has_condition <;> cases htc : t.has_condition <;>
    cases hp : parse_section c with
    | value third => cases h3 : third.has_condition <;> simp [outcome.bind, hsc, htc, h3]
    | thrown e => simp [outcome.bind, hsc, htc]
    | undefined => simp [outcome.bind, hsc, htc]

/-- C16: for a format string whose first section parses without a condition: with
no `;` in the string the negative and zero sections are the first section; with
exactly two raw sections the zero section is the first section and the negative
section is the parse of the second raw section. -/
theorem C16_default_sections (a b : List Char) (s : section_t) (ha : ';' ∉ a)
    (hb : ';' ∉ b) (hs : parse_section a = outcome.value s)
    (hc : s.has_condition = false) :
    parse_format_sections a
      = outcome.value { first := s, second := s, third := s, fourth := {} } ∧
    (∀ t, parse_section b = outcome.value t →
      parse_format_sections (a ++ ';' :: b)
        = outcome.value { first := s, second := t, third := s, fourth := {} }) ∧
    (∀ e, parse_section b = outcome.thrown e →
      parse_format_sections (a ++ ';' :: b) = outcome.thrown e) := by
  refine ⟨?_, ?_, ?_⟩
  · rw [parse_format_sections_one a s ha hs, hc]
    rfl
  · intro t ht
    rw [parse_format_sections_two a b s t ha hb hs ht, hc]
    rfl
  · intro e he
    rw [parse_format_sections_eq, split_pieces_append ';' a b ha, split_pieces_single ';' b hb]
    simp [vector_at, bind_value, hs, he, outcome.bind]

/-- C16 at the format strings "0.00" and "0.00;[Red]0". -/
theorem C16_default_sections_witness :
    ';' ∉ "0.00".toList ∧ ';' ∉ "[Red]0".toList ∧
    parse_section "0.00".toList
      = outcome.value { has_value := true, value := "0.00".toList } ∧
    ({ has_value := true, value := "0.00".toList } : section_t).has_condition = false ∧
    parse_format_sections "0.00".toList
      = outcome.value
        { first := { has_value := true, value := "0.00".toList },
          second := { has_value := true, value := "0.00".toList },
          third := { has_value := true, value := "0.00".toList },
          fourth := {} } ∧
    (∀ t, parse_section "[Red]0".toList = outcome.value t →
      parse_format_sections ("0.00".toList ++ ';' :: "[Red]0".toList)
        = outcome.value
          { first := { has_value := true, value := "0.00".toList },
            second := t,
            third := { has_value := true, value := "0.00".toList },
            fourth := {} }) ∧
    (∀ e, parse_section "[Red]0".toList = outcome.thrown e →
      parse_format_sections ("0.00".toList ++ ';' :: "[Red]0".toList)
        = outcome.thrown e) :=
  ⟨by decide, by decide, rfl, rfl,
    C16_default_sections "0.00".toList "[Red]0".toList
      { has_value := true, value := "0.00".toList } (by decide) (by decide) rfl rfl⟩

/-- The accepted color names hold no `]`, are not empty, are no duration tokens
and pass `is_valid_color`. -/
theorem colors_facts :
    ∀ c ∈ colors, ']' ∉ c ∧ c ≠ [] ∧
      (find_index (fun y => decide (y = c)) bracket_times).isSome = false ∧
      is_valid_color c = true := by decide

/-- A section that starts with a bracketed color name: the color is recorded, and
the value keeps the close bracket. -/
theorem parse_section_color (c rest : List Char) (hc : c ∈ colors) :
    parse_section ('[' :: (c ++ ']' :: rest)) = outcome.value
      { has_value := true, value := ']' :: rest, has_color := true, color := c } := by
  obtain ⟨h1, h2, h3, h4⟩ := colors_facts c hc
  rw [parse_section_bracket c rest h1 h2 h3, h4]
  rfl

/-- C15 (the failing call): for every accepted color name `c` and every `rest`,
`parse_section` of `[c]rest` returns `has_color`, the color `c`, no condition, and
the value `]rest`: the close bracket stays in the value.  So the negative section
of "#,##0;[Red]-#,##0;0;@" has the value "]-#,##0". -/
theorem C15_color_bracket_value :
    (∀ c ∈ colors, ∀ rest : List Char,
      parse_section ('[' :: (c ++ ']' :: rest)) = outcome.value
        { has_value := true, value := ']' :: rest, has_color := true, color := c,
          has_condition := false }) ∧
    parse_section "[Red]-#,##0".toList = outcome.value
      { has_value := true, value := "]-#,##0".toList, has_color := true,
        color := "Red".toList } ∧
    parse_format_sections "#,##0;[Red]-#,##0;0;@".toList = outcome.value
      { first := { has_value := true, value := "#,##0".toList },
        second := { has_value := true, value := "]-#,##0".toList, has_color := true,
                    color := "Red".toList },
        third := { has_value := true, value := "0".toList },
        fourth := { has_value := true, value := "@".toList } } :=
  ⟨fun c hc rest => parse_section_color c rest hc, rfl,
    (parse_format_sections_eq _).trans rfl⟩

/-! ### Conditions and the third section (C17, C18) -/

/-- C17 as stated fails: the sections of ">0;<0" carry no condition (their values
are ">0" and "<0"), and ">0;<0;0", with a third section without a condition, is
parsed without an exception. -/
theorem C17_counterexample :
    parse_format_sections ">0;<0".toList = outcome.value
      { first := { has_value := true, value := ">0".toList, has_condition := false },
        second := { has_value := true, value := "<0".toList, has_condition := false },
        third := { has_value := true, value := ">0".toList },
        fourth := {} } ∧
    parse_format_sections ">0;<0;0".toList = outcome.value
      { first := { has_value := true, value := ">0".toList },
        second := { has_value := true, value := "<0".toList },
        third := { has_value := true, value := "0".toList },
        fourth := {} } :=
  ⟨(parse_format_sections_eq _).trans rfl, (parse_format_sections_eq _).trans rfl⟩

/-- C17 (as amended): ">0;<0" parses into two sections without a condition, with
the values ">0" and "<0"; with the conditions in brackets, "[>0];[<0]" parses into
a first section with `has_condition`, `greater_than` and "0" and a second section
with `has_condition`, `less_than` and "0"; and both strings followed by `;` and a
third section that parses without a condition are parsed, the third section
being the zero section. -/
theorem C17_conditions_in_brackets :
    (∃ r, parse_format_sections ">0;<0".toList = outcome.value r ∧
      r.first.has_condition = false ∧ r.first.value = ">0".toList ∧
      r.second.has_condition = false ∧ r.second.value = "<0".toList) ∧
    (∃ r, parse_format_sections "[>0];[<0]".toList = outcome.value r ∧
      r.first.has_condition = true ∧ r.first.condition = condition_type.greater_than ∧
      r.first.condition_value = "0".toList ∧
      r.second.has_condition = true ∧ r.second.condition = condition_type.less_than ∧
      r.second.condition_value = "0".toList) ∧
    (∀ (x : List Char) (t : section_t), ';' ∉ x → parse_section x = outcome.value t →
      t.has_condition = false →
      (∃ r, parse_format_sections (">0".toList ++ ';' :: ("<0".toList ++ ';' :: x))
          = outcome.value r ∧ r.third = t) ∧
      (∃ r, parse_format_sections ("[>0]".toList ++ ';' :: ("[<0]".toList ++ ';' :: x))
          = outcome.value r ∧ r.third = t)) := by
  refine ⟨⟨_, (parse_format_sections_eq _).trans rfl, rfl, rfl, rfl, rfl⟩,
    ⟨_, (parse_format_sections_eq _).trans rfl, rfl, rfl, rfl, rfl, rfl, rfl⟩, ?_⟩
  intro x t hx ht hc
  constructor
  · rw [parse_format_sections_three ">0".toList "<0".toList x _ _ (by decide) (by decide) hx
      rfl rfl, ht, bind_value, hc]
    exact ⟨_, rfl, rfl⟩
  · rw [parse_format_sections_three "[>0]".toList "[<0]".toList x _ _ (by decide) (by decide)
      hx rfl rfl, ht, bind_value, hc]
    exact ⟨_, rfl, rfl⟩

/-- C18 as stated fails: "0.00;-0.00;0" has three raw sections of which the first
two carry no condition, and it is parsed without an exception. -/
theorem C18_counterexample :
    (∃ parts, split_string "0.00;-0.00;0".toList ';' = outcome.value parts ∧
      parts.length = 3) ∧
    parse_format_sections "0.00;-0.00;0".toList = outcome.value
      { first := { has_value := true, value := "0.00".toList, has_condition := false },
        second := { has_value := true, value := "-0.00".toList, has_condition := false },
        third := { has_value := true, value := "0".toList },
        fourth := {} } :=
  ⟨⟨_, (split_string_eq _ _).trans rfl, rfl⟩, (parse_format_sections_eq _).trans rfl⟩

/-- C18 (as amended): a format string with at least three raw sections in which
section 0 carries a condition and section 1 carries none makes
`parse_format_sections` throw; when section 0 carries no condition, a third
section that parses without a condition is accepted as the zero section. -/
theorem C18_third_section_rule (a b c : List Char) (s0 s1 : section_t) (ha : ';' ∉ a)
    (hb : ';' ∉ b) (h0 : parse_section a = outcome.value s0)
    (h1 : parse_section b = outcome.value s1) :
    (s0.has_condition = true → s1.has_condition = false →
      parse_format_sections (a ++ ';' :: (b ++ ';' :: c))
        = outcome.thrown "first two sections should have conditions") ∧
    (s0.has_condition = false → ';' ∉ c →
      ∀ s2, parse_section c = outcome.value s2 → s2.has_condition = false →
        parse_format_sections (a ++ ';' :: (b ++ ';' :: c))
          = outcome.value { first := s0, second := s1, third := s2, fourth := {} }) := by
  constructor
  · intro hc0 hc1
    rw [parse_format_sections_eq, split_pieces_append ';' a _ ha,
      split_pieces_append ';' b c hb]
    have hlen : (a :: b :: split_pieces ';' c).length > 2 := by
      have := List.length_pos.mpr (split_pieces_ne_nil ';' c)
      simp only [List.length_cons]
      omega
    have hlen1 : (a :: b :: split_pieces ';' c).length > 1 := by omega
    simp only [vector_at, List.getElem?_cons_zero, List.getElem?_cons_succ, bind_value, h0, h1,
      if_pos hlen, if_pos hlen1]
    simp [hc0, hc1, outcome.bind]
  · intro hc0 hc s2 h2 hc2
    rw [parse_format_sections_three a b c s0 s1 ha hb hc h0 h1, h2, bind_value, hc0, hc2]
    rfl

/-- C18 (as amended) at the format string "[>0]x;0;0". -/
theorem C18_third_section_rule_witness :
    ';' ∉ "[>0]x".toList ∧ ';' ∉ "0".toList ∧
    parse_section "[>0]x".toList = outcome.value
      { has_value := true, value := "]x".toList, has_condition := true,
        condition := condition_type.greater_than, condition_value := "0".toList } ∧
    parse_section "0".toList = outcome.value { has_value := true, value := "0".toList } ∧
    parse_format_sections ("[>0]x".toList ++ ';' :: ("0".toList ++ ';' :: "0".toList))
      = outcome.thrown "first two sections should have conditions" :=
  ⟨by decide, by decide, rfl, rfl,
    (C18_third_section_rule "[>0]x".toList "0".toList "0".toList _ _ (by decide) (by decide)
      rfl rfl).1 rfl rfl⟩

/-! ## Brackets of a section (C21 to C24) -/

/-- The function `parse_condition` rejects every string that does not begin with
`<`, `>` or `=`: it returns `false`. -/
theorem parse_condition_non_operator (part : List Char) (s : section_t)
    (h1 : char_at part 0 ≠ '<') (h2 : char_at part 0 ≠ '>') (h3 : char_at part 0 ≠ '=') :
    parse_condition part s = outcome.value
      ({ s with has_condition := false, condition := condition_type.invalid,
                condition_value := [] }, false) := by
  unfold parse_condition
  simp only [if_neg h1, if_neg h2, if_neg h3, bind_value]

/-- A section that begins with `[` and holds no `]`. -/
theorem parse_section_missing_bracket (y : List Char) (hy : ']' ∉ y) :
    parse_section ('[' :: y) = outcome.thrown "missing close bracket" := by
  have hfind : find_char ('[' :: y) ']' 0 = none := by
    rw [find_char_none, List.drop_zero, find_index_none]
    intro x hx
    simp only [beq_eq_false_iff_ne, ne_eq]
    intro hxe
    subst hxe
    rcases List.mem_cons.mp hx with h | h
    · exact absurd h (by decide)
    · exact hy h
  have h0 : char_at ('[' :: y) 0 = '[' := rfl
  unfold parse_section
  simp only [h0, if_true]
  unfold parse_bracket
  rw [hfind]
  rfl

/-- A section that starts with a bracket whose content is not empty, no duration
token, no color name and does not begin with `<`, `>` or `=`. -/
theorem parse_section_invalid_condition (part rest : List Char) (hp : ']' ∉ part)
    (hne : part ≠ [])
    (ht : (find_index (fun y => decide (y = part)) bracket_times).isSome = false)
    (hcol : is_valid_color part = false)
    (h1 : char_at part 0 ≠ '<') (h2 : char_at part 0 ≠ '>') (h3 : char_at part 0 ≠ '=') :
    parse_section ('[' :: (part ++ ']' :: rest)) = outcome.thrown "invalid condition" := by
  rw [parse_section_bracket part rest hp hne ht, hcol,
    parse_condition_non_operator part {} h1 h2 h3]
  rfl

/-- C21 (the failing call): for every accepted color `c` and every text after the
color bracket, in particular a second bracket `[op n]` and a remainder,
`parse_section` records the color only: there is no condition, and the value is
everything from the first close bracket on.  "[Red][>100]0" has the value
"][>100]0". -/
theorem C21_second_bracket_not_read :
    (∀ c ∈ colors, ∀ second rest : List Char,
      parse_section ('[' :: (c ++ ']' :: ('[' :: (second ++ ']' :: rest)))) = outcome.value
        { has_value := true, value := ']' :: '[' :: (second ++ ']' :: rest),
          has_color := true, color := c, has_condition := false,
          condition := condition_type.invalid, condition_value := [] }) ∧
    parse_section "[Red][>100]0".toList = outcome.value
      { has_value := true, value := "][>100]0".toList, has_color := true,
        color := "Red".toList, has_condition := false,
        condition := condition_type.invalid, condition_value := [] } :=
  ⟨fun c hc _ _ => parse_section_color c _ hc, rfl⟩

/-- C22 (the failing calls): a section that starts with two color brackets or with
two condition brackets is parsed without an exception; the second bracket stays in
the value.  "[Red][Blue]0" gets the color "Red" and the value "][Blue]0";
"[>1][<5]0" gets the condition `> 1` and the value "][<5]0"; and every section
that starts with a condition bracket is parsed, whatever follows the bracket. -/
theorem C22_no_duplicate_error :
    (∀ c ∈ colors, ∀ c2 ∈ colors, ∀ rest : List Char,
      parse_section ('[' :: (c ++ ']' :: ('[' :: (c2 ++ ']' :: rest)))) = outcome.value
        { has_value := true, value := ']' :: '[' :: (c2 ++ ']' :: rest),
          has_color := true, color := c }) ∧
    parse_section "[Red][Blue]0".toList = outcome.value
      { has_value := true, value := "][Blue]0".toList, has_color := true,
        color := "Red".toList } ∧
    parse_section "[>1][<5]0".toList = outcome.value
      { has_value := true, value := "][<5]0".toList, has_condition := true,
        condition := condition_type.greater_than, condition_value := "1".toList } ∧
    (∀ (o : Char) (tl rest : List Char), (o = '<' ∨ o = '>' ∨ o = '=') → ']' ∉ tl →
      ∃ t, parse_section ('[' :: ((o :: tl) ++ ']' :: rest)) = outcome.value t ∧
        t.has_condition = true) :=
  ⟨fun c hc _ _ _ => parse_section_color c _ hc, rfl, rfl,
    fun o tl rest ho hp => parse_section_condition o tl rest ho (by
      intro h
      rcases List.mem_cons.mp h with h1 | h1
      · rcases ho with rfl | rfl | rfl <;> exact absurd h1 (by decide)
      · exact hp h1)⟩

/-- C23 as stated fails: the brackets "[<abc]" and "[>]" are accepted; the text
after the operator becomes `condition_value` without a check. -/
theorem C23_counterexample :
    parse_section "[<abc]0".toList = outcome.value
      { has_value := true, value := "]0".toList, has_condition := true,
        condition := condition_type.less_than, condition_value := "abc".toList } ∧
    parse_section "[>]0".toList = outcome.value
      { has_value := true, value := "]0".toList, has_condition := true,
        condition := condition_type.greater_than, condition_value := [] } :=
  ⟨rfl, rfl⟩

/-- C23 (as amended): a leading bracket whose content is not empty, no duration
token and no color name makes `parse_section` throw "invalid condition" exactly
when the content does not begin with `<`, `>` or `=`; a content that begins with
one of them is accepted as a condition whatever follows the operator. -/
theorem C23_condition_syntax (part rest : List Char) (hp : ']' ∉ part) (hne : part ≠ [])
    (ht : (find_index (fun y => decide (y = part)) bracket_times).isSome = false)
    (hcol : is_valid_color part = false) :
    ((char_at part 0 ≠ '<' ∧ char_at part 0 ≠ '>' ∧ char_at part 0 ≠ '=') →
      parse_section ('[' :: (part ++ ']' :: rest)) = outcome.thrown "invalid condition") ∧
    ((char_at part 0 = '<' ∨ char_at part 0 = '>' ∨ char_at part 0 = '=') →
      ∃ t, parse_section ('[' :: (part ++ ']' :: rest)) = outcome.value t ∧
        t.has_condition = true) := by
  constructor
  · rintro ⟨h1, h2, h3⟩
    exact parse_section_invalid_condition part rest hp hne ht hcol h1 h2 h3
  · intro ho
    cases part with
    | nil => exact absurd rfl hne
    | cons o tl => exact parse_section_condition o tl rest ho hp

/-- C23 (as amended) at the bracket content "foo". -/
theorem C23_condition_syntax_witness :
    ']' ∉ "foo".toList ∧ "foo".toList ≠ [] ∧
    (find_index (fun y => decide (y = "foo".toList)) bracket_times).isSome = false ∧
    is_valid_color "foo".toList = false ∧
    ((char_at "foo".toList 0 ≠ '<' ∧ char_at "foo".toList 0 ≠ '>' ∧
        char_at "foo".toList 0 ≠ '=') →
      parse_section ('[' :: ("foo".toList ++ ']' :: "0".toList))
        = outcome.thrown "invalid condition") ∧
    ((char_at "foo".toList 0 = '<' ∨ char_at "foo".toList 0 = '>' ∨
        char_at "foo".toList 0 = '=') →
      ∃ t, parse_section ('[' :: ("foo".toList ++ ']' :: "0".toList)) = outcome.value t ∧
        t.has_condition = true) :=
  ⟨by decide, by decide, by decide, by decide,
    C23_condition_syntax "foo".toList "0".toList (by decide) (by decide) (by decide)
      (by decide)⟩

/-- A returned value of `parse_format_sections` tells that each of the first four
raw sections was parsed into a section. -/
theorem parse_format_sections_parsed (combined : List Char) (r : format_sections)
    (h : parse_format_sections combined = outcome.value r) (i : Nat) (hi : i < 4)
    (x : List Char) (hx : (split_pieces ';' combined)[i]? = some x) :
    ∃ t, parse_section x = outcome.value t := by
  have hlt := getElem?_some_lt _ _ _ hx
  rw [parse_format_sections_eq] at h
  obtain ⟨first, h1, h⟩ := (bind_eq_value _ _ _).mp h
  obtain ⟨r3, h3, h⟩ := (bind_eq_value _ _ _).mp h
  obtain ⟨r4, h4, h⟩ := (bind_eq_value _ _ _).mp h
  obtain ⟨r5, h5, h⟩ := (bind_eq_value _ _ _).mp h
  have hcases : i = 0 ∨ i = 1 ∨ i = 2 ∨ i = 3 := by omega
  rcases hcases with rfl | rfl | rfl | rfl
  · rw [vector_at_of_some _ _ _ hx, bind_value] at h1
    exact ⟨_, h1⟩
  · rw [if_pos hlt, vector_at_of_some _ _ _ hx, bind_value] at h3
    obtain ⟨t, ht, _⟩ := (bind_eq_value _ _ _).mp h3
    exact ⟨t, ht⟩
  · rw [if_pos hlt] at h4
    split at h4
    · cases h4
    · rw [vector_at_of_some _ _ _ hx, bind_value] at h4
      obtain ⟨t, ht, _⟩ := (bind_eq_value _ _ _).mp h4
      exact ⟨t, ht⟩
  · rw [if_pos hlt] at h5
    split at h5
    · cases h5
    · rw [vector_at_of_some _ _ _ hx, bind_value] at h5
      obtain ⟨t, ht, _⟩ := (bind_eq_value _ _ _).mp h5
      exact ⟨t, ht⟩

/-- C24: a section that begins with `[` and holds no `]` makes `parse_section`
throw "missing close bracket", and a format string one of whose first four raw
sections has that shape makes `parse_format_sections` throw. -/
theorem C24_missing_close_bracket (y : List Char) (hy : ']' ∉ y) :
    parse_section ('[' :: y) = outcome.thrown "missing close bracket" ∧
    (∀ (combined : List Char) (parts : List (List Char)) (i : Nat),
      split_string combined ';' = outcome.value parts → i < 4 →
      parts[i]? = some ('[' :: y) →
      ∃ e, parse_format_sections combined = outcome.thrown e) := by
  refine ⟨parse_section_missing_bracket y hy, ?_⟩
  intro combined parts i hsplit hi hx
  rw [split_string_eq] at hsplit
  injection hsplit with hsplit
  subst hsplit
  refine thrown_of_not _ (parse_format_sections_ne_undefined combined) ?_
  intro r hr
  obtain ⟨t, ht⟩ := parse_format_sections_parsed combined r hr i hi _ hx
  rw [parse_section_missing_bracket y hy] at ht
  cases ht

/-- C24 at the section "[Red0" and the format string "0;[Red0". -/
theorem C24_missing_close_bracket_witness :
    ']' ∉ "Red0".toList ∧
    parse_section ('[' :: "Red0".toList) = outcome.thrown "missing close bracket" ∧
    ∃ e, parse_format_sections "0;[Red0".toList = outcome.thrown e :=
  ⟨by decide, (C24_missing_close_bracket "Red0".toList (by decide)).1,
    (C24_missing_close_bracket "Red0".toList (by decide)).2 "0;[Red0".toList
      ["0".toList, "[Red0".toList] 1 ((split_string_eq _ _).trans rfl) (by decide) rfl⟩

/-! ## Facts about `split_string_any` and `locate_part` -/

theorem find_first_of_none (s delims : List Char) (pos : Nat) :
    find_first_of s delims pos = none ↔
      find_index (fun y => decide (y ∈ delims)) (s.drop pos) = none := by
  unfold find_first_of
  cases find_index (fun y => decide (y ∈ delims)) (s.drop pos) <;> simp

theorem find_first_of_some (s delims : List Char) (pos i : Nat) :
    find_first_of s delims pos = some i ↔
      ∃ j, find_index (fun y => decide (y ∈ delims)) (s.drop pos) = some j ∧ i = j + pos := by
  unfold find_first_of
  cases find_index (fun y => decide (y ∈ delims)) (s.drop pos) with
  | none => simp
  | some j =>
    simp only [Option.map_some', Option.some.injEq]
    constructor
    · intro h
      exact ⟨j, rfl, h.symm⟩
    · rintro ⟨k, hk, rfl⟩
      rw [hk]

theorem split_any_pieces_cons (delims : List Char) (c : Char) (cs : List Char) :
    split_any_pieces delims (c :: cs) =
      if c ∈ delims then [] :: split_any_pieces delims cs
      else
        match split_any_pieces delims cs with
        | piece :: pieces => (c :: piece) :: pieces
        | [] => [[c]] := by
  rw [split_any_pieces]

theorem split_any_pieces_ne_nil (delims : List Char) :
    ∀ l : List Char, split_any_pieces delims l ≠ [] := by
  intro l
  induction l with
  | nil => simp [split_any_pieces]
  | cons c cs ih =>
    rw [split_any_pieces_cons]
    by_cases h : c ∈ delims
    · simp [h]
    · rw [if_neg h]
      cases hs : split_any_pieces delims cs with
      | nil => simp
      | cons p ps => simp

theorem split_any_pieces_of_none (delims : List Char) :
    ∀ l : List Char, find_index (fun y => decide (y ∈ delims)) l = none →
      split_any_pieces delims l = [l] := by
  intro l
  induction l with
  | nil => intro _; rfl
  | cons c cs ih =>
    intro h
    unfold find_index at h
    by_cases hc : c ∈ delims
    · simp [hc] at h
    · simp only [hc, decide_False, Bool.false_eq_true, if_false, Option.map_eq_none'] at h
      rw [split_any_pieces_cons, if_neg hc, ih h]

theorem split_any_pieces_of_some (delims : List Char) :
    ∀ (l : List Char) (j : Nat), find_index (fun y => decide (y ∈ delims)) l = some j →
      split_any_pieces delims l = l.take j :: split_any_pieces delims (l.drop (j + 1)) := by
  intro l
  induction l with
  | nil => intro j h; simp [find_index] at h
  | cons c cs ih =>
    intro j h
    unfold find_index at h
    by_cases hc : c ∈ delims
    · simp only [hc, decide_True, if_true, Option.some.injEq] at h
      subst h
      rw [split_any_pieces_cons, if_pos hc]
      rfl
    · simp only [hc, decide_False, Bool.false_eq_true, if_false, Option.map_eq_some'] at h
      obtain ⟨k, hk, rfl⟩ := h
      rw [split_any_pieces_cons, if_neg hc, ih k hk]
      rfl

theorem keep_parts_cons (piece : List Char) (pieces : List (List Char))
    (h : pieces ≠ []) :
    keep_parts (piece :: pieces) =
      (if !piece.isEmpty then [piece] else []) ++ keep_parts pieces := by
  cases pieces with
  | nil => exact absurd rfl h
  | cons q qs => rw [keep_parts]

/-- The loop of `split_string_any`, entered at a position within the string with
the separator index that `find_first_of` gave for it, appends the kept pieces of
the rest. -/
theorem split_string_any_loop_eq (string delims : List Char) :
    ∀ (n previous_index : Nat) (split : List (List Char)),
      string.length - previous_index = n → previous_index ≤ string.length →
      split_string_any_loop string delims previous_index
        (find_first_of string delims previous_index) split
        = outcome.value
          (split ++ keep_parts (split_any_pieces delims (string.drop previous_index))) := by
  intro n
  induction n using Nat.strong_induction_on with
  | _ n ih =>
    intro previous_index split hn hle
    cases hf : find_first_of string delims previous_index with
    | none =>
      rw [split_string_any_loop, substr_from_value _ _ hle,
        split_any_pieces_of_none delims _ ((find_first_of_none _ _ _).mp hf)]
      rfl
    | some sep =>
      obtain ⟨j, hj, hsep⟩ := (find_first_of_some _ _ _ _).mp hf
      have hjlt := find_index_some_lt _ _ _ hj
      rw [List.length_drop] at hjlt
      rw [split_string_any_loop, substr_value _ _ _ hle]
      simp only []
      rw [ih (string.length - (sep + 1)) (by omega) (sep + 1) _ rfl (by omega),
        split_any_pieces_of_some delims _ j hj,
        keep_parts_cons _ _ (split_any_pieces_ne_nil _ _)]
      have h1 : sep - previous_index = j := by omega
      have h2 : List.drop (j + 1) (List.drop previous_index string)
          = List.drop (sep + 1) string := by
        rw [List.drop_drop]
        congr 1
        omega
      rw [h1, h2]
      split <;> simp

/-- The function `split_string_any` returns the kept pieces of the string. -/
theorem split_string_any_eq (string delims : List Char) :
    split_string_any string delims
      = outcome.value (keep_parts (split_any_pieces delims string)) := by
  unfold split_string_any
  rw [split_string_any_loop_eq string delims string.length 0 [] rfl (Nat.zero_le _)]
  rfl

/-- The loop of `locate_part` stops at an index where the part stands. -/
theorem locate_part_found (value part : List Char) (index : Nat)
    (hle : index ≤ value.length) (h : (value.drop index).take part.length = part) :
    locate_part value part index = outcome.value index := by
  rw [locate_part, if_pos hle]
  simp [h]

/-- The loop of `locate_part` goes on at an index where the part does not stand. -/
theorem locate_part_step (value part : List Char) (index : Nat)
    (hle : index ≤ value.length) (h : (value.drop index).take part.length ≠ part) :
    locate_part value part index = locate_part value part (index + 1) := by
  rw [locate_part, if_pos hle]
  simp [h]

/-- One round of the `for` loop of the date branch. -/
theorem format_date_loop_step (value : List Char) (d : datetime) (part : List Char)
    (parts : List (List Char)) (index prev : Nat) (result : List Char)
    (processed_month : Bool) (index1 : Nat) (between : List Char) (st : List Char × Bool)
    (h1 : locate_part value part index = outcome.value index1)
    (h2 : substr value prev (index1 - prev) = outcome.value between)
    (h3 : append_date_part d part (result ++ between) processed_month = outcome.value st) :
    format_date_loop value d (part :: parts) index prev result processed_month =
      format_date_loop value d parts (index1 + part.length) (index1 + part.length)
        st.1 st.2 := by
  rw [format_date_loop, h1, bind_value, h2, bind_value, h3, bind_value]

/-! ## The section that renders a number (C25) -/

/-- C25: for a format string that parses, `format_number` renders a number `v`
through the first section when `v > 0`, through the second section when `v < 0`
and through the third section when `v = 0`; no condition of a section is read. -/
theorem C25_section_by_sign (ext : collaborators) (fmt : List Char)
    (sections : format_sections) (v : ℚ) (base_date : calendar)
    (hparse : parse_format_sections fmt = outcome.value sections) :
    (v > 0 → format_number ext v fmt base_date
      = format_section ext v sections.first base_date) ∧
    (v < 0 → format_number ext v fmt base_date
      = format_section ext v sections.second base_date) ∧
    (v = 0 → format_number ext v fmt base_date
      = format_section ext v sections.third base_date) := by
  unfold format_number
  rw [hparse, bind_value]
  refine ⟨?_, ?_, ?_⟩
  · intro h
    rw [if_pos h]
  · intro h
    rw [if_neg (not_lt.mpr (le_of_lt h)), if_pos h]
  · intro h
    subst h
    rw [if_neg (lt_irrefl _), if_neg (lt_irrefl _)]

/-- The sections of the format string "0.00;(0.00)". -/
theorem parse_two_sections_example :
    parse_format_sections "0.00;(0.00)".toList = outcome.value
      { first := { has_value := true, value := "0.00".toList },
        second := { has_value := true, value := "(0.00)".toList },
        third := { has_value := true, value := "0.00".toList },
        fourth := {} } :=
  (parse_format_sections_eq _).trans rfl

/-- C25 at the format string "0.00;(0.00)" and the number -5. -/
theorem C25_section_by_sign_witness :
    parse_format_sections "0.00;(0.00)".toList = outcome.value
      { first := { has_value := true, value := "0.00".toList },
        second := { has_value := true, value := "(0.00)".toList },
        third := { has_value := true, value := "0.00".toList },
        fourth := {} } ∧
    (((-5 : Int) : ℚ) < 0 →
      format_number sample_collaborators ((-5 : Int) : ℚ) "0.00;(0.00)".toList
          calendar.windows_1900
        = format_section sample_collaborators ((-5 : Int) : ℚ)
          { has_value := true, value := "(0.00)".toList } calendar.windows_1900) :=
  ⟨parse_two_sections_example,
    (C25_section_by_sign sample_collaborators "0.00;(0.00)".toList _ ((-5 : Int) : ℚ)
      calendar.windows_1900 parse_two_sections_example).2.1⟩

/-! ## Numbers through a pattern that is no date pattern (C27, C28) -/

/-- The conversion of an integer value within the range of `long long`. -/
theorem static_cast_long_long_int (n : Int) (hlo : -(2 : Int) ^ 63 ≤ n)
    (hhi : n < (2 : Int) ^ 63) :
    static_cast_long_long (n : ℚ) = outcome.value n := by
  unfold static_cast_long_long
  have h : ((n : ℚ).num).tdiv ((n : ℚ).den : Int) = n := by
    rw [Rat.num_intCast, Rat.den_intCast]
    simp
  rw [h, if_pos ⟨hlo, hhi⟩]

/-- A pattern with a character outside the date alphabet is no date pattern. -/
theorem is_date_format_false (pattern : List Char)
    (h : ∃ c ∈ pattern, c ∉ date_alphabet) : is_date_format pattern = false := by
  obtain ⟨c, hc, hn⟩ := h
  unfold is_date_format
  cases hf : find_index (fun y => !decide (y ∈ date_alphabet)) pattern with
  | some i => rfl
  | none =>
    have := (find_index_none _ _).mp hf c hc
    simp [hn] at this

/-- The numeric `format_section` on an integer value and a pattern that is no date
pattern: the decimal literal of the integer. -/
theorem format_section_integer (ext : collaborators) (fmt : section_t) (n : Int)
    (base_date : calendar) (hpat : is_date_format fmt.value = false)
    (hlo : -(2 : Int) ^ 63 ≤ n) (hhi : n < (2 : Int) ^ 63) :
    format_section ext (n : ℚ) fmt base_date = outcome.value (std_to_string n) := by
  unfold format_section
  rw [hpat]
  simp only [Bool.false_eq_true, if_false]
  rw [static_cast_long_long_int n hlo hhi, bind_value, if_pos rfl]

/-- C28: for every section whose pattern holds a character outside the date
alphabet and every integer `n` of the signed 64-bit range, the numeric
`format_section` returns the decimal literal of `n` (`std::to_string` of the
`long long`: the digits, after a `-` for a negative `n`), whatever the pattern. -/
theorem C28_integer_literal (ext : collaborators) (fmt : section_t) (n : Int)
    (base_date : calendar) (hpat : ∃ c ∈ fmt.value, c ∉ date_alphabet)
    (hlo : -(2 : Int) ^ 63 ≤ n) (hhi : n < (2 : Int) ^ 63) :
    format_section ext (n : ℚ) fmt base_date = outcome.value (std_to_string n) ∧
    std_to_string n =
      (if n < 0 then '-' :: Nat.toDigits 10 n.natAbs else Nat.toDigits 10 n.natAbs) :=
  ⟨format_section_integer ext fmt n base_date (is_date_format_false _ hpat) hlo hhi, rfl⟩

/-- C28 at the number 1234 and the pattern "#,##0.00": the result is "1234". -/
theorem C28_integer_literal_witness :
    (∃ c ∈ ({ has_value := true, value := "#,##0.00".toList } : section_t).value,
      c ∉ date_alphabet) ∧
    -(2 : Int) ^ 63 ≤ 1234 ∧ (1234 : Int) < (2 : Int) ^ 63 ∧
    std_to_string 1234 = "1234".toList ∧
    format_section sample_collaborators ((1234 : Int) : ℚ)
      { has_value := true, value := "#,##0.00".toList } calendar.windows_1900
      = outcome.value (std_to_string 1234) ∧
    std_to_string 1234 =
      (if (1234 : Int) < 0 then '-' :: Nat.toDigits 10 (1234 : Int).natAbs
       else Nat.toDigits 10 (1234 : Int).natAbs) :=
  ⟨⟨'#', by decide, by decide⟩, by decide, by decide, by decide,
    C28_integer_literal sample_collaborators
      { has_value := true, value := "#,##0.00".toList } 1234 calendar.windows_1900
      ⟨'#', by decide, by decide⟩ (by decide) (by decide)⟩

/-- C27 as stated fails: -5 through "0.00;(0.00)" renders as "-5", not as
"(5.00)". -/
theorem C27_counterexample :
    format_number sample_collaborators ((-5 : Int) : ℚ) "0.00;(0.00)".toList
      calendar.windows_1900 = outcome.value "-5".toList ∧
    "-5".toList ≠ "(5.00)".toList := by
  constructor
  · unfold format_number
    rw [parse_two_sections_example, bind_value,
      if_neg (by norm_num), if_pos (by norm_num)]
    rw [format_section_integer sample_collaborators _ (-5) calendar.windows_1900
      (by decide) (by decide) (by decide)]
    rfl
  · decide

/-- C27 (as amended): for every negative number `v`, `format_number` renders `v`
with the format "0.00;(0.00)" through the negative section, whose pattern is
"(0.00)"; the pattern is not read: for a negative integer of the `long long`
range the result is its decimal literal with the leading `-`. -/
theorem C27_negative_section (ext : collaborators) (base_date : calendar) :
    (∀ v : ℚ, v < 0 →
      format_number ext v "0.00;(0.00)".toList base_date
        = format_section ext v { has_value := true, value := "(0.00)".toList } base_date) ∧
    (∀ n : Int, n < 0 → -(2 : Int) ^ 63 ≤ n →
      format_number ext (n : ℚ) "0.00;(0.00)".toList base_date
        = outcome.value ('-' :: Nat.toDigits 10 n.natAbs)) := by
  have hsel : ∀ v : ℚ, v < 0 →
      format_number ext v "0.00;(0.00)".toList base_date
        = format_section ext v { has_value := true, value := "(0.00)".toList } base_date := by
    intro v hv
    unfold format_number
    rw [parse_two_sections_example, bind_value, if_neg (not_lt.mpr (le_of_lt hv)), if_pos hv]
  refine ⟨hsel, ?_⟩
  intro n hn hlo
  rw [hsel (n : ℚ) (by exact_mod_cast hn),
    format_section_integer ext _ n base_date (by decide) hlo
      (lt_trans hn (by decide))]
  unfold std_to_string
  rw [if_pos hn]

/-! ## The date pattern "yyyy-mm-dd" (C26) -/

/-- The parts of the pattern "yyyy-mm-dd". -/
theorem split_date_pattern :
    split_string_any "yyyy-mm-dd".toList ",-/: ".toList
      = outcome.value ["yyyy".toList, "mm".toList, "dd".toList] :=
  (split_string_any_eq _ _).trans rfl

/-- The `for` loop of the date branch on the pattern "yyyy-mm-dd": after the year
and a "-", the part "mm" appends the month and then, in the block of the
minutes, the minute as well. -/
theorem format_date_loop_date_pattern (d : datetime) :
    format_date_loop "yyyy-mm-dd".toList d ["yyyy".toList, "mm".toList, "dd".toList]
        0 0 [] false
      = outcome.value (10,
          append_padded
            (append_padded (append_padded (std_to_string d.year ++ ['-']) d.month) d.minute
              ++ ['-'])
            d.day) := by
  have h0 : locate_part "yyyy-mm-dd".toList "yyyy".toList 0 = outcome.value 0 :=
    locate_part_found _ _ 0 (by decide) (by decide)
  have h1 : locate_part "yyyy-mm-dd".toList "mm".toList 4 = outcome.value 5 :=
    (locate_part_step _ _ 4 (by decide) (by decide)).trans
      (locate_part_found _ _ 5 (by decide) (by decide))
  have h2 : locate_part "yyyy-mm-dd".toList "dd".toList 7 = outcome.value 8 :=
    (locate_part_step _ _ 7 (by decide) (by decide)).trans
      (locate_part_found _ _ 8 (by decide) (by decide))
  refine (format_date_loop_step _ d _ _ 0 0 [] false 0 []
    (std_to_string d.year, false) h0 rfl rfl).trans ?_
  refine (format_date_loop_step _ d _ _ 4 4 _ false 5 ['-']
    (append_padded (append_padded (std_to_string d.year ++ ['-']) d.month) d.minute, true)
    h1 rfl rfl).trans ?_
  refine (format_date_loop_step _ d _ _ 7 7 _ true 8 ['-']
    (append_padded
      (append_padded (append_padded (std_to_string d.year ++ ['-']) d.month) d.minute
        ++ ['-']) d.day, true)
    h2 rfl rfl).trans ?_
  rfl

/-- C26 (the failing call): through the pattern "yyyy-mm-dd" the numeric
`format_section` renders the year, "-", the month padded to two digits, then the
minute padded to two digits, "-", and the day padded to two digits: the part
"mm" runs the month block and the minute block.  The date 2015-03-07 00:00:00
renders as "2015-0300-07". -/
theorem C26_date_pattern (ext : collaborators) (number : ℚ) (base_date : calendar) :
    format_section ext number { has_value := true, value := "yyyy-mm-dd".toList } base_date
      = outcome.value
        (append_padded
          (append_padded
            (append_padded (std_to_string (ext.from_number number base_date).year ++ ['-'])
              (ext.from_number number base_date).month)
            (ext.from_number number base_date).minute
            ++ ['-'])
          (ext.from_number number base_date).day) ∧
    format_section sample_collaborators 42070
        { has_value := true, value := "yyyy-mm-dd".toList } calendar.windows_1900
      = outcome.value "2015-0300-07".toList := by
  have hgen : ∀ (e : collaborators) (x : ℚ) (b : calendar),
      format_section e x { has_value := true, value := "yyyy-mm-dd".toList } b
        = outcome.value
          (append_padded
            (append_padded
              (append_padded (std_to_string (e.from_number x b).year ++ ['-'])
                (e.from_number x b).month)
              (e.from_number x b).minute
              ++ ['-'])
            (e.from_number x b).day) := by
    intro e x b
    unfold format_section
    have hd : is_date_format "yyyy-mm-dd".toList = true := by decide
    simp only [hd, if_true]
    rw [split_date_pattern, bind_value, format_date_loop_date_pattern, bind_value]
    rfl
  refine ⟨hgen ext number base_date, ?_⟩
  rw [hgen]
  rfl

/-! ## Text rendering (C29, C30) -/

/-- C29: for every text `t`, `format_text(t, "General")` returns `t`; the result
does not come from the parser: parsing "General" and rendering through its text
section would give the empty string. -/
theorem C29_general_text (t : List Char) :
    format_text t "General".toList = outcome.value t ∧
    (parse_format_sections "General".toList).bind
        (fun sections => format_section_text t sections.fourth) = outcome.value [] := by
  constructor
  · unfold format_text
    rw [if_pos rfl]
  · have hp : parse_format_sections "General".toList = outcome.value
        { first := { has_value := true, value := "General".toList },
          second := { has_value := true, value := "General".toList },
          third := { has_value := true, value := "General".toList },
          fourth := {} } :=
      (parse_format_sections_eq _).trans rfl
    rw [hp, bind_value]
    rfl

theorem find_char_append_first (a b : List Char) (c : Char) (ha : c ∉ a) :
    find_char (a ++ c :: b) c 0 = some a.length := by
  unfold find_char
  rw [List.drop_zero, find_index_append_first (fun y => y == c) c b (by simp) a
    (fun x hx => by
      simp only [beq_eq_false_iff_ne, ne_eq]
      intro hxe
      exact ha (hxe ▸ hx))]
  rfl

/-- The lambda `unquote` on a fragment in double quotes, shorter than `2^64`: the
first `size - 2` characters, which are the opening quote and the content without
its last character. -/
theorem unquote_quoted (a : List Char) (hlen : a.length + 2 < 2 ^ 64) :
    unquote ('"' :: (a ++ ['"'])) = outcome.value (true, ('"' :: a).dropLast) := by
  unfold unquote
  have hne : ('"' :: (a ++ ['"'])).isEmpty = false := rfl
  have hhead : ('"' :: (a ++ ['"'])).head? = some '"' := rfl
  have hlast : ('"' :: (a ++ ['"'])).getLast? = some '"' := by
    rw [← List.cons_append, List.getLast?_append]
    rfl
  have hlen2 : ('"' :: (a ++ ['"'])).length = a.length + 2 := by simp
  have hmod : (a.length + 2 + 2 ^ 64 - 2) % 2 ^ 64 = a.length := by
    have : a.length + 2 + 2 ^ 64 - 2 = a.length + 2 ^ 64 := by omega
    rw [this, Nat.add_mod_right, Nat.mod_eq_of_lt (by omega)]
  simp only [hne, hhead, hlast, hlen2, hmod, Bool.not_false, if_true, ne_eq,
    not_true_eq_false, or_self, if_false]
  rw [substr_value _ _ _ (Nat.zero_le _), bind_value, List.drop_zero]
  have ht : List.take a.length ('"' :: (a ++ ['"'])) = ('"' :: a).dropLast := by
    rw [← List.cons_append, List.take_append_of_le_length (by simp), List.dropLast_eq_take]
    rfl
  rw [ht]

/-- C30 (the failing call): for a text pattern `"A"@"B"` in which `A` holds no `@`
(and the fragments are shorter than `2^64`), the text `format_section` returns
the opening quote and `A` without its last character, then the text, then the
opening quote and `B` without its last character: `unquote` keeps the first
`size - 2` characters.  The text "x" through `"abc"@"def"` gives `"abx"de`, not
`abcxdef`. -/
theorem C30_quoted_fragments :
    (∀ t a b : List Char, '@' ∉ a → a.length + 2 < 2 ^ 64 → b.length + 2 < 2 ^ 64 →
      format_section_text t
          { has_value := true, value := ('"' :: (a ++ ['"'])) ++ '@' :: ('"' :: (b ++ ['"'])) }
        = outcome.value (('"' :: a).dropLast ++ t ++ ('"' :: b).dropLast)) ∧
    format_section_text "x".toList
        { has_value := true, value := "\"abc\"@\"def\"".toList }
      = outcome.value "\"abx\"de".toList ∧
    "\"abx\"de".toList ≠ "abcxdef".toList := by
  refine ⟨?_, rfl, by decide⟩
  intro t a b ha hla hlb
  have hat : '@' ∉ '"' :: (a ++ ['"']) := by
    intro h
    rcases List.mem_cons.mp h with h1 | h1
    · exact absurd h1 (by decide)
    · rcases List.mem_append.mp h1 with h2 | h2
      · exact ha h2
      · simp at h2
  unfold format_section_text
  simp only []
  rw [find_char_append_first _ _ '@' hat]
  simp only []
  rw [substr_value _ _ _ (by simp), bind_value,
    substr_from_value _ _ (by simp only [List.length_append, List.length_cons]; omega),
    bind_value, bind_value]
  have h1 : List.take ('"' :: (a ++ ['"'])).length
      (List.drop 0 (('"' :: (a ++ ['"'])) ++ '@' :: ('"' :: (b ++ ['"']))))
      = '"' :: (a ++ ['"']) := by
    rw [List.drop_zero, List.take_left']
    rfl
  have h2 : List.drop (('"' :: (a ++ ['"'])).length + 1)
      (('"' :: (a ++ ['"'])) ++ '@' :: ('"' :: (b ++ ['"'])))
      = '"' :: (b ++ ['"']) := by
    rw [← List.drop_drop, List.drop_left']
    · rfl
    · rfl
  simp only [h1, h2]
  rw [unquote_quoted a hla, bind_value]
  simp only [Bool.not_true, Bool.false_eq_true, if_false]
  rw [unquote_quoted b hlb, bind_value]
  simp only [Bool.not_true, Bool.false_eq_true, if_false]

/-! ## The date alphabet (C31) -/

/-- C31: `is_date_format(p)` is true exactly when every character of `p` is one of
the fifteen characters `/ - : , space m M y Y d D h H s S`; it is true for the
empty pattern and false for every pattern that holds a `#`. -/
theorem C31_is_date_format (p : List Char) :
    (is_date_format p = true ↔
      ∀ c ∈ p, c ∈ ['/', '-', ':', ',', ' ', 'm', 'M', 'y', 'Y', 'd', 'D', 'h', 'H', 's', 'S']) ∧
    is_date_format [] = true ∧
    ('#' ∈ p → is_date_format p = false) ∧
    is_date_format "yyyy-mm-dd h:mm:ss".toList = true ∧
    is_date_format "#,##0".toList = false := by
  have hiff : is_date_format p = true ↔ ∀ c ∈ p, c ∈ date_alphabet := by
    unfold is_date_format
    rw [Option.isNone_iff_eq_none, find_index_none]
    constructor
    · intro h c hc
      have := h c hc
      simpa using this
    · intro h c hc
      simpa using h c hc
  refine ⟨hiff, rfl, ?_, by decide, by decide⟩
  intro h
  exact is_date_format_false p ⟨'#', h, by decide⟩

/-! ## Duration brackets and color names (C35, C36) -/

/-- The function `parse_section` on a section that starts with a bracket `[part]`
whose content is a duration token: the bracket is no annotation, and the whole
section string is the value. -/
theorem parse_section_duration (part rest : List Char) (hp : ']' ∉ part)
    (ht : (find_index (fun y => decide (y = part)) bracket_times).isSome = true) :
    parse_section ('[' :: (part ++ ']' :: rest)) = outcome.value
      { has_value := true, value := '[' :: (part ++ ']' :: rest) } := by
  unfold parse_section
  have h0 : char_at ('[' :: (part ++ ']' :: rest)) 0 = '[' := rfl
  simp only [h0, if_true]
  rw [parse_bracket_shape part rest hp, ht]
  simp only [if_true, bind_value, List.isEmpty_nil, Bool.not_true, Bool.false_and,
    Bool.false_eq_true, if_false]

/-- C35: for every duration token `t` of `h, hh, m, mm, s, ss` and every `rest`,
`parse_section` of `[t]rest` returns a section without color and without
condition whose value is the whole string, bracket included.  "[h]:mm:ss" keeps
the value "[h]:mm:ss". -/
theorem C35_duration_bracket :
    (∀ t ∈ ["h".toList, "hh".toList, "m".toList, "mm".toList, "s".toList, "ss".toList],
      ∀ rest : List Char,
        parse_section ('[' :: (t ++ ']' :: rest)) = outcome.value
          { has_value := true, value := '[' :: (t ++ ']' :: rest), has_color := false,
            has_condition := false }) ∧
    parse_section "[h]:mm:ss".toList = outcome.value
      { has_value := true, value := "[h]:mm:ss".toList, has_color := false,
        has_condition := false } := by
  have hfacts : ∀ t ∈ ["h".toList, "hh".toList, "m".toList, "mm".toList, "s".toList,
      "ss".toList],
      ']' ∉ t ∧ (find_index (fun y => decide (y = t)) bracket_times).isSome = true := by
    decide
  refine ⟨?_, rfl⟩
  intro t ht rest
  exact parse_section_duration t rest (hfacts t ht).1 (hfacts t ht).2

theorem find_index_isSome {α : Type} (p : α → Bool) (l : List α) :
    (find_index p l).isSome = true ↔ ∃ x ∈ l, p x = true := by
  cases h : find_index p l with
  | none =>
    have hn := (find_index_none p l).mp h
    simp only [Option.isSome_none, Bool.false_eq_true, false_iff, not_exists, not_and]
    intro x hx hpx
    rw [hn x hx] at hpx
    cases hpx
  | some i =>
    obtain ⟨y, hy, hpy⟩ := find_index_some_get p l i h
    simp only [Option.isSome_some, true_iff]
    exact ⟨y, List.getElem?_mem hy, hpy⟩

/-- C36: `is_valid_color` accepts exactly the seven strings "Black", "GreenWhite",
"Blue", "Magenta", "Yellow", "Cyan" and "Red"; "Green" and "White" are not
accepted, and `parse_section` throws "invalid condition" on every section that
begins with "[Green]" or with "[White]". -/
theorem C36_color_names :
    (∀ c : List Char, is_valid_color c = true ↔
      c ∈ ["Black".toList, "GreenWhite".toList, "Blue".toList, "Magenta".toList,
           "Yellow".toList, "Cyan".toList, "Red".toList]) ∧
    is_valid_color "Green".toList = false ∧
    is_valid_color "White".toList = false ∧
    (∀ rest : List Char,
      parse_section ("[Green]".toList ++ rest) = outcome.thrown "invalid condition") ∧
    (∀ rest : List Char,
      parse_section ("[White]".toList ++ rest) = outcome.thrown "invalid condition") := by
  refine ⟨?_, by decide, by decide, ?_, ?_⟩
  · intro c
    unfold is_valid_color
    rw [find_index_isSome]
    constructor
    · rintro ⟨x, hx, hxc⟩
      have hxe : x = c := by simpa using hxc
      rw [← hxe]
      exact hx
    · intro hc
      exact ⟨c, hc, by simp⟩
  · intro rest
    exact parse_section_invalid_condition "Green".toList rest (by decide) (by decide)
      (by decide) (by decide) (by decide) (by decide) (by decide)
  · intro rest
    exact parse_section_invalid_condition "White".toList rest (by decide) (by decide)
      (by decide) (by decide) (by decide) (by decide) (by decide)

/-! ## Text through a format without a text section (C37) -/

/-- The text `format_section` on a section that was never set: the empty string. -/
theorem format_section_text_unset (t : List Char) :
    format_section_text t {} = outcome.value [] := rfl

/-- A format string with fewer than four raw sections leaves the fourth section
as `format_sections result = {}` made it. -/
theorem parse_format_sections_fourth (combined : List Char) (r : format_sections)
    (h : parse_format_sections combined = outcome.value r)
    (hn : (split_pieces ';' combined).length < 4) : r.fourth = {} := by
  rw [parse_format_sections_eq] at h
  obtain ⟨first, _, h⟩ := (bind_eq_value _ _ _).mp h
  obtain ⟨r3, h3, h⟩ := (bind_eq_value _ _ _).mp h
  obtain ⟨r4, h4, h⟩ := (bind_eq_value _ _ _).mp h
  obtain ⟨r5, h5, h⟩ := (bind_eq_value _ _ _).mp h
  rw [if_neg (by omega)] at h5 h
  injection h5 with h5
  injection h with h
  subst h h5
  have e3 : r3.fourth = {} := by
    split at h3
    · obtain ⟨second, _, h3⟩ := (bind_eq_value _ _ _).mp h3
      injection h3 with h3
      subst h3
      cases first.has_condition <;> rfl
    · injection h3 with h3
      subst h3
      cases first.has_condition <;> rfl
  split at h4
  · split at h4
    · cases h4
    · obtain ⟨third, _, h4⟩ := (bind_eq_value _ _ _).mp h4
      split at h4
      · cases h4
      · injection h4 with h4
        subst h4
        exact e3
  · injection h4 with h4
    subst h4
    exact e3

/-- C37: for every text `t` and every format string `f` other than "General" that
parses and has fewer than four raw sections, the text section of the parse is
the unset section and `format_text(t, f)` returns the empty string. -/
theorem C37_text_without_text_section (t f : List Char) (parts : List (List Char))
    (sections : format_sections) (hg : f ≠ "General".toList)
    (hsplit : split_string f ';' = outcome.value parts) (hn : parts.length < 4)
    (hp : parse_format_sections f = outcome.value sections) :
    sections.fourth = {} ∧ format_text t f = outcome.value [] := by
  rw [split_string_eq] at hsplit
  injection hsplit with hsplit
  subst hsplit
  have h4 := parse_format_sections_fourth f sections hp hn
  refine ⟨h4, ?_⟩
  unfold format_text
  rw [if_neg hg, hp, bind_value, h4]
  rfl

/-- C37 at the text "abc" and the format string "0.00". -/
theorem C37_text_without_text_section_witness :
    "0.00".toList ≠ "General".toList ∧
    split_string "0.00".toList ';' = outcome.value ["0.00".toList] ∧
    ["0.00".toList].length < 4 ∧
    parse_format_sections "0.00".toList = outcome.value
      { first := { has_value := true, value := "0.00".toList },
        second := { has_value := true, value := "0.00".toList },
        third := { has_value := true, value := "0.00".toList } } ∧
    ({ first := { has_value := true, value := "0.00".toList },
       second := { has_value := true, value := "0.00".toList },
       third := { has_value := true, value := "0.00".toList } } : format_sections).fourth = {} ∧
    format_text "abc".toList "0.00".toList = outcome.value [] :=
  ⟨by decide, (split_string_eq _ _).trans rfl, by decide, (parse_format_sections_eq _).trans rfl,
    C37_text_without_text_section "abc".toList "0.00".toList ["0.00".toList] _ (by decide)
      ((split_string_eq _ _).trans rfl) (by decide) ((parse_format_sections_eq _).trans rfl)⟩

/-! ## The number format of a cell (C32, C38) -/

section cell

variable {Font Fill Border Alignment Protection : Type}

/-- C32: for every cell whose number format resolves (the read through the
reference that `get_number_format` returns gives a number format), `is_date()`
returns a value and never throws: `false` when the cell is not numeric, `false`
when the format string is "General", `false` when the format string fails to
parse, and otherwise `is_date_format` of the value of the first parsed section. -/
theorem C32_is_date_swallows (it : iteration_order)
    (d : workbook_impl Font Fill Border Alignment Protection) (c : cell_impl)
    (nf : number_format)
    (h : (cell.get_number_format it d c).bind reference.read = outcome.value nf) :
    (∃ b, cell.is_date it d c = outcome.value b) ∧
    (c.type_ ≠ cell_type.numeric → cell.is_date it d c = outcome.value false) ∧
    (nf.get_format_string = "General" → cell.is_date it d c = outcome.value false) ∧
    (∀ e, parse_format_sections nf.get_format_string.toList = outcome.thrown e →
      cell.is_date it d c = outcome.value false) ∧
    (∀ sections, c.type_ = cell_type.numeric → nf.get_format_string ≠ "General" →
      parse_format_sections nf.get_format_string.toList = outcome.value sections →
      cell.is_date it d c = outcome.value (is_date_format sections.first.value)) := by
  have hnum : c.type_ = cell_type.numeric → cell.is_date it d c =
      if nf.get_format_string ≠ "General" then
        match parse_format_sections nf.get_format_string.toList with
        | outcome.value sections => outcome.value (is_date_format sections.first.value)
        | outcome.thrown _ => outcome.value false
        | outcome.undefined => outcome.undefined
      else outcome.value false := by
    intro ht
    unfold cell.is_date
    rw [if_pos ht, h, bind_value]
  have hnot : c.type_ ≠ cell_type.numeric → cell.is_date it d c = outcome.value false := by
    intro ht
    unfold cell.is_date
    rw [if_neg ht]
  refine ⟨?_, hnot, ?_, ?_, ?_⟩
  · by_cases ht : c.type_ = cell_type.numeric
    · rw [hnum ht]
      by_cases hg : nf.get_format_string = "General"
      · exact ⟨false, by rw [if_neg (not_not.mpr hg)]⟩
      · rw [if_pos hg]
        cases hp : parse_format_sections nf.get_format_string.toList with
        | value sections => exact ⟨_, rfl⟩
        | thrown e => exact ⟨false, rfl⟩
        | undefined => exact absurd hp (parse_format_sections_ne_undefined _)
    · exact ⟨false, hnot ht⟩
  · intro hg
    by_cases ht : c.type_ = cell_type.numeric
    · rw [hnum ht, if_neg (not_not.mpr hg)]
    · exact hnot ht
  · intro e he
    by_cases ht : c.type_ = cell_type.numeric
    · rw [hnum ht, he]
      split <;> rfl
    · exact hnot ht
  · intro sections ht hg hp
    rw [hnum ht, if_pos hg, hp]

end cell

/-- C32 at a numeric cell whose style resolves to the format string "[Green]0",
which fails to parse: `is_date()` returns `false`. -/
theorem C32_is_date_swallows_witness :
    (cell.get_number_format declaration_order
        ({ styles_ := [style.default],
           number_formats_ :=
             [{ format_code_ := format.unknown, format_index_ := -1,
                format_string_ := "[Green]0" }],
           fonts_ := [], fills_ := [], borders_ := [], alignments_ := [],
           protections_ := [] } : workbook_impl String Unit Unit Unit Unit)
        { type_ := cell_type.numeric, value_numeric_ := 1, has_style_ := true,
          style_id_ := 0 }).bind reference.read
      = outcome.value
        { format_code_ := format.unknown, format_index_ := -1, format_string_ := "[Green]0" } ∧
    parse_format_sections "[Green]0".toList = outcome.thrown "invalid condition" ∧
    cell.is_date declaration_order
        ({ styles_ := [style.default],
           number_formats_ :=
             [{ format_code_ := format.unknown, format_index_ := -1,
                format_string_ := "[Green]0" }],
           fonts_ := [], fills_ := [], borders_ := [], alignments_ := [],
           protections_ := [] } : workbook_impl String Unit Unit Unit Unit)
        { type_ := cell_type.numeric, value_numeric_ := 1, has_style_ := true,
          style_id_ := 0 }
      = outcome.value false :=
  ⟨rfl, (parse_format_sections_eq _).trans rfl,
    (C32_is_date_swallows declaration_order
      ({ styles_ := [style.default],
         number_formats_ :=
           [{ format_code_ := format.unknown, format_index_ := -1,
              format_string_ := "[Green]0" }],
         fonts_ := [], fills_ := [], borders_ := [], alignments_ := [],
         protections_ := [] } : workbook_impl String Unit Unit Unit Unit)
      { type_ := cell_type.numeric, value_numeric_ := 1, has_style_ := true, style_id_ := 0 }
      { format_code_ := format.unknown, format_index_ := -1, format_string_ := "[Green]0" }
      rfl).2.2.2.1 "invalid condition" ((parse_format_sections_eq _).trans rfl)⟩

/-- The object that `number_format()` constructs, for every iteration order of the
catalogs: "General" with the builtin index 0. -/
theorem default_number_format_eq (it : iteration_order) (hv : it.valid) :
    number_format.default_number_format it = outcome.value number_format_general := by
  unfold number_format.default_number_format
  rw [of_code_eq it format.general "General" (by decide),
    (reversed_lookup_spec it hv "General").1 0 (by decide)]
  rfl

section cell

variable {Font Fill Border Alignment Protection : Type}

/-- C38 (the failing call): on a cell without a style, `get_number_format` returns
a reference to the static default "General" format when the workbook holds no
number format.  When the workbook holds number formats, the returned reference
designates the first element of the copy of the sequence that
`get_number_formats()` returned by value: that element was the first number
format of the workbook (which later interning calls never move), the copy is
destroyed when `get_number_format` returns, and a read through the reference is
undefined behaviour. -/
theorem C38_unstyled_number_format [DecidableEq Font] (it : iteration_order) (hv : it.valid)
    (d : workbook_impl Font Fill Border Alignment Protection) (c : cell_impl)
    (hc : c.has_style_ = false) :
    (d.number_formats_ = [] →
      cell.get_number_format it d c = outcome.value (reference.live number_format_general)) ∧
    (∀ front rest, d.number_formats_ = front :: rest →
      cell.get_number_format it d c = outcome.value (reference.dangling front) ∧
      (cell.get_number_format it d c).bind reference.read = outcome.undefined ∧
      ∀ (strHash : String → Nat) (d1 : workbook_impl Font Fill Border Alignment Protection),
        style_step strHash d d1 → ∃ rest1, d1.number_formats_ = front :: rest1) := by
  constructor
  · intro hn
    unfold cell.get_number_format workbook.get_number_formats
    rw [hc, hn, default_number_format_eq it hv]
    rfl
  · intro front rest hn
    have h1 : cell.get_number_format it d c = outcome.value (reference.dangling front) := by
      unfold cell.get_number_format workbook.get_number_formats
      rw [hc, hn]
      rfl
    refine ⟨h1, by rw [h1]; rfl, ?_⟩
    intro strHash d1 hstep
    obtain ⟨⟨t, ht⟩, _⟩ := style_step_append strHash d d1 hstep
    exact ⟨rest ++ t, by rw [ht, hn]; rfl⟩

end cell

/-- C38 at a cell without a style in the table that holds the format "0.00". -/
theorem C38_unstyled_number_format_witness :
    declaration_order.valid ∧ unset_cell.has_style_ = false ∧
    (table_0_00.number_formats_ = [] →
      cell.get_number_format declaration_order table_0_00 unset_cell
        = outcome.value (reference.live number_format_general)) ∧
    (∀ front rest, table_0_00.number_formats_ = front :: rest →
      cell.get_number_format declaration_order table_0_00 unset_cell
        = outcome.value (reference.dangling front) ∧
      (cell.get_number_format declaration_order table_0_00 unset_cell).bind reference.read
        = outcome.undefined ∧
      ∀ (strHash : String → Nat) (d1 : workbook_impl String Unit Unit Unit Unit),
        style_step strHash table_0_00 d1 → ∃ rest1, d1.number_formats_ = front :: rest1) :=
  ⟨declaration_order_valid, rfl,
    C38_unstyled_number_format declaration_order declaration_order_valid table_0_00 unset_cell
      rfl⟩

/-! ## The style that `set_number_format` returns (C34) -/

section workbook

variable {Font Fill Border Alignment Protection : Type}

/-- C34 (as amended): for every table, valid style id `s` (the table then has a
style) and number format `f`, `set_number_format(f, s)` returns an id whose
style has the font, fill, border, alignment and protection indices and the two
flags of the style at `s`; its number-format index is the index at which the
search `std::find` finds `f` in the number-format sequence after the call: the
index of the first entry that compares equal to `f` under `operator==` (equal
hash of the format string).  That entry has the format string of `f` when no
number format stored before the call with another string has the hash of `f`. -/
theorem C34_frame_of_set_number_format (strHash : String → Nat)
    (d : workbook_impl Font Fill Border Alignment Protection) (fmt : number_format)
    (style_id : Nat) (hs : style_id < d.styles_.length) :
    ∃ d1 r x y v,
      workbook.set_number_format strHash d fmt style_id = outcome.value (d1, r) ∧
      d.styles_[style_id]? = some x ∧ d1.styles_[r]? = some y ∧
      y.font_index_ = x.font_index_ ∧ y.fill_index_ = x.fill_index_ ∧
      y.border_index_ = x.border_index_ ∧ y.alignment_index_ = x.alignment_index_ ∧
      y.protection_index_ = x.protection_index_ ∧ y.pivot_button_ = x.pivot_button_ ∧
      y.quote_prefix_ = x.quote_prefix_ ∧
      find_index (fun z : number_format => z.eq strHash fmt) d1.number_formats_
        = some y.number_format_index_ ∧
      d1.number_formats_[y.number_format_index_]? = some v ∧
      v.eq strHash fmt = true ∧
      ((∀ z ∈ d.number_formats_, z.eq strHash fmt = true →
          z.format_string_ = fmt.format_string_) →
        v.format_string_ = fmt.format_string_) := by
  obtain ⟨d1, r, h⟩ := set_number_format_total strHash d fmt style_id (Or.inl hs)
  have hx : d.styles_[style_id]? = some d.styles_[style_id] := List.getElem?_eq_getElem hs
  obtain ⟨hnf, _, _, y, hy, hyn, h1, h2, h3, h4, h5, h6, h7⟩ :=
    set_number_format_post strHash d d1 fmt style_id r _ hx h
  have hfind : find_index (fun z : number_format => z.eq strHash fmt) d1.number_formats_
      = some y.number_format_index_ := by
    rw [hnf, hyn]
    exact intern_find (number_format.eq strHash) (number_format_eq_refl strHash) _ _
  obtain ⟨v, hv, hveq⟩ := find_index_some_get _ _ _ hfind
  refine ⟨d1, r, _, y, v, h, hx, hy, h1, h2, h3, h4, h5, h6, h7, hfind, hv, hveq, ?_⟩
  intro hno
  have hmem : v ∈ (intern (number_format.eq strHash) d.number_formats_ fmt).1 := by
    rw [← hnf]
    exact List.getElem?_mem hv
  rcases intern_mem _ _ _ _ hmem with hm | hm
  · exact hno v hm hveq
  · rw [hm]

end workbook

/-- C34 (as amended) at the table with two formats, two fonts and three styles: the
format "General" set on style id 2, whose style has the font index 1. -/
theorem C34_frame_of_set_number_format_witness :
    2 < table_two_fonts.styles_.length ∧
    table_two_fonts.styles_[2]?
      = some { style.default with number_format_index_ := 0, font_index_ := 1 } ∧
    ∃ d1 r x y v,
      workbook.set_number_format sample_hash table_two_fonts number_format_general 2
        = outcome.value (d1, r) ∧
      table_two_fonts.styles_[2]? = some x ∧ d1.styles_[r]? = some y ∧
      y.font_index_ = x.font_index_ ∧ y.fill_index_ = x.fill_index_ ∧
      y.border_index_ = x.border_index_ ∧ y.alignment_index_ = x.alignment_index_ ∧
      y.protection_index_ = x.protection_index_ ∧ y.pivot_button_ = x.pivot_button_ ∧
      y.quote_prefix_ = x.quote_prefix_ ∧
      find_index (fun z : number_format => z.eq sample_hash number_format_general)
        d1.number_formats_ = some y.number_format_index_ ∧
      d1.number_formats_[y.number_format_index_]? = some v ∧
      v.eq sample_hash number_format_general = true ∧
      v.format_string_ = number_format_general.format_string_ := by
  refine ⟨by decide, rfl, ?_⟩
  obtain ⟨d1, r, x, y, v, h, hx, hy, h1, h2, h3, h4, h5, h6, h7, hf, hv, hveq, hstr⟩ :=
    C34_frame_of_set_number_format sample_hash table_two_fonts number_format_general 2
      (by decide)
  exact ⟨d1, r, x, y, v, h, hx, hy, h1, h2, h3, h4, h5, h6, h7, hf, hv, hveq,
    hstr (by decide)⟩

/-- C34 as stated fails for every hash into a bounded range: two different format
strings with one hash exist; on the reachable table left by interning the first
in a fresh workbook, `set_number_format` of the second on style id 0 returns a
style whose number-format index holds the first format: the second format is at
no index of the number-format sequence. -/
theorem C34_counterexample :
    ¬ ∃ (strHash : String → Nat) (B : Nat), (∀ s, strHash s < B) ∧
      ∀ (d : workbook_impl String Unit Unit Unit Unit), reachable strHash d →
        ∀ (fmt : number_format) (style_id : Nat), style_id < d.styles_.length →
          ∃ d1 r y v,
            workbook.set_number_format strHash d fmt style_id = outcome.value (d1, r) ∧
            d1.styles_[r]? = some y ∧
            d1.number_formats_[y.number_format_index_]? = some v ∧
            v.format_string_ = fmt.format_string_ := by
  rintro ⟨strHash, B, hb, hclaim⟩
  obtain ⟨s1, s2, hne, hh⟩ := hash_collision strHash B hb
  obtain ⟨hreach, hstep⟩ := collision_table strHash s1 s2 hh
  obtain ⟨d1, r, y, v, h1, hy, hv, hstr⟩ := hclaim _ hreach
    { format_code_ := format.unknown, format_index_ := -1, format_string_ := s2 } 0
    (by simp [table_of_format])
  rw [hstep] at h1
  injection h1 with h1
  injection h1 with h1 h2
  subst h1 h2
  simp only [table_of_format, List.getElem?_cons_zero, Option.some.injEq] at hy
  subst hy
  simp only [table_of_format, List.getElem?_cons_zero, Option.some.injEq] at hv
  subst hv
  exact hne hstr

/-! ## Temporal values (C39) -/

section cell

variable {Font Fill Border Alignment Protection : Type}

end cell

theorem std_to_string_natCast (k : Nat) : std_to_string (k : Int) = Nat.toDigits 10 k := by
  unfold std_to_string
  rw [if_neg (by omega)]
  rfl

/-- A field between 0 and 99 is appended as its two decimal digits. -/
theorem append_padded_two_digits (result : List Char) (field : Int) (h0 : 0 ≤ field)
    (h1 : field < 100) :
    append_padded result field = result ++ zero_padded_two_digits field := by
  obtain ⟨k, rfl⟩ := Int.eq_ofNat_of_zero_le h0
  have hk : k < 100 := by omega
  have key : ∀ n : Nat, n < 100 →
      (if n < 10 then ['0'] else []) ++ Nat.toDigits 10 n
        = [Nat.digitChar (n / 10), Nat.digitChar (n % 10)] := by decide
  unfold append_padded zero_padded_two_digits
  rw [std_to_string_natCast, Int.toNat_ofNat, ← key k hk]
  by_cases h10 : (k : Int) < 10
  · rw [if_pos h10, if_pos (by omega), List.append_assoc]
  · rw [if_neg h10, if_neg (by omega), List.nil_append]

/-- The parts of the pattern "h:mm:ss". -/
theorem split_time_pattern :
    split_string_any "h:mm:ss".toList ",-/: ".toList
      = outcome.value ["h".toList, "mm".toList, "ss".toList] :=
  (split_string_any_eq _ _).trans rfl

/-- The `for` loop of the date branch on the pattern "h:mm:ss": the part "h" sets
`processed_month`, so the part "mm" runs the block of the minutes only. -/
theorem format_date_loop_time_pattern (d : datetime) :
    format_date_loop "h:mm:ss".toList d ["h".toList, "mm".toList, "ss".toList] 0 0 [] false
      = outcome.value (7,
          append_padded (append_padded (std_to_string d.hour ++ [':']) d.minute ++ [':'])
            d.second) := by
  have h0 : locate_part "h:mm:ss".toList "h".toList 0 = outcome.value 0 :=
    locate_part_found _ _ 0 (by decide) (by decide)
  have h1 : locate_part "h:mm:ss".toList "mm".toList 1 = outcome.value 2 :=
    (locate_part_step _ _ 1 (by decide) (by decide)).trans
      (locate_part_found _ _ 2 (by decide) (by decide))
  have h2 : locate_part "h:mm:ss".toList "ss".toList 4 = outcome.value 5 :=
    (locate_part_step _ _ 4 (by decide) (by decide)).trans
      (locate_part_found _ _ 5 (by decide) (by decide))
  refine (format_date_loop_step _ d _ _ 0 0 [] false 0 []
    (std_to_string d.hour, true) h0 rfl rfl).trans ?_
  refine (format_date_loop_step _ d _ _ 1 1 _ true 2 [':']
    (append_padded (std_to_string d.hour ++ [':']) d.minute, true) h1 rfl rfl).trans ?_
  refine (format_date_loop_step _ d _ _ 4 4 _ true 5 [':']
    (append_padded (append_padded (std_to_string d.hour ++ [':']) d.minute ++ [':'])
      d.second, true) h2 rfl rfl).trans ?_
  rfl

/-- C33: through the pattern "h:mm:ss" the numeric `format_section` renders a
time of day with hour `H`, minute `M` and second `S` as the decimal literal of
`H` without padding, ":", the two digits of `M`, ":", and the two digits of `S`:
the part "mm" after the hour is rendered as the minute only. -/
theorem C33_time_pattern (ext : collaborators) (number : ℚ) (base_date : calendar)
    (hm : 0 ≤ (ext.from_number number base_date).minute ∧
      (ext.from_number number base_date).minute < 60)
    (hs : 0 ≤ (ext.from_number number base_date).second ∧
      (ext.from_number number base_date).second < 60) :
    format_section ext number { has_value := true, value := "h:mm:ss".toList } base_date
      = outcome.value
        (std_to_string (ext.from_number number base_date).hour ++
          ':' :: (zero_padded_two_digits (ext.from_number number base_date).minute ++
            ':' :: zero_padded_two_digits (ext.from_number number base_date).second)) := by
  unfold format_section
  have hd : is_date_format "h:mm:ss".toList = true := by decide
  simp only [hd, if_true]
  rw [split_time_pattern, bind_value, format_date_loop_time_pattern, bind_value]
  simp only [List.length_cons, List.length_nil, String.toList]
  rw [append_padded_two_digits _ _ hm.1 (by omega), append_padded_two_digits _ _ hs.1 (by omega)]
  simp

/-- C33 at the time of day 09:05:30, which renders as "9:05:30". -/
theorem C33_time_pattern_witness :
    (0 ≤ (sample_time_collaborators.from_number (3 / 8) calendar.windows_1900).minute ∧
      (sample_time_collaborators.from_number (3 / 8) calendar.windows_1900).minute < 60) ∧
    (0 ≤ (sample_time_collaborators.from_number (3 / 8) calendar.windows_1900).second ∧
      (sample_time_collaborators.from_number (3 / 8) calendar.windows_1900).second < 60) ∧
    format_section sample_time_collaborators (3 / 8)
        { has_value := true, value := "h:mm:ss".toList } calendar.windows_1900
      = outcome.value "9:05:30".toList :=
  ⟨by decide, by decide,
    (C33_time_pattern sample_time_collaborators (3 / 8) calendar.windows_1900 (by decide)
      (by decide)).trans rfl⟩

/-! ## The date branch returns a result (C40) -/

theorem bind_value_exists {α β : Type} (x : outcome α) (f : α → outcome β)
    (hx : ∃ a, x = outcome.value a) (hf : ∀ a, ∃ b, f a = outcome.value b) :
    ∃ b, x.bind f = outcome.value b := by
  obtain ⟨a, rfl⟩ := hx
  exact hf a

/-- No element before the index that `find_index` returns satisfies the test. -/
theorem find_index_some_before {α : Type} (p : α → Bool) :
    ∀ (l : List α) (q : Nat), find_index p l = some q →
      ∀ (i : Nat), i < q → ∀ x, l[i]? = some x → p x = false := by
  intro l
  induction l with
  | nil => intro q h; simp [find_index] at h
  | cons y ys ih =>
    intro q h i hi x hx
    unfold find_index at h
    by_cases hp : p y = true
    · simp [hp] at h
      omega
    · simp [hp] at h
      obtain ⟨j, hj, rfl⟩ := h
      cases i with
      | zero =>
        simp at hx
        rw [← hx]
        simpa using hp
      | succ i => exact ih j hj i (by omega) x (by simpa using hx)

theorem ite_value_exists {α : Type} (p : Prop) [Decidable p] (x y : outcome α)
    (hx : ∃ a, x = outcome.value a) (hy : ∃ a, y = outcome.value a) :
    ∃ a, (if p then x else y) = outcome.value a := by
  split <;> assumption

/-- The call `MonthNames.at(month - 1)` returns a name for a month from 1 to 12. -/
theorem month_name_value (month : Int) (h : 1 ≤ month ∧ month ≤ 12) :
    ∃ name, month_name month = outcome.value name := by
  unfold month_name
  rw [if_pos h]
  cases hq : MonthNames[(month - 1).toNat]? with
  | some name => exact ⟨name, rfl⟩
  | none =>
    rw [List.getElem?_eq_none_iff] at hq
    have hlen : MonthNames.length = 12 := rfl
    omega

/-- The token blocks of the date loop return for every part when the month is
from 1 to 12. -/
theorem append_date_part_value (d : datetime) (part result : List Char)
    (processed_month : Bool) (hm : 1 ≤ d.month ∧ d.month ≤ 12) :
    ∃ st, append_date_part d part result processed_month = outcome.value st := by
  obtain ⟨name, hname⟩ := month_name_value d.month hm
  unfold append_date_part
  simp only []
  refine bind_value_exists _ _ (ite_value_exists _ _ _ ?_ ⟨_, rfl⟩)
    (fun st3 => bind_value_exists _ _ (ite_value_exists _ _ _ ?_ ⟨_, rfl⟩) (fun st4 => ⟨_, rfl⟩))
  · rw [hname, bind_value, substr_value _ _ _ (Nat.zero_le _), bind_value]
    exact ⟨_, rfl⟩
  · rw [hname, bind_value]
    exact ⟨_, rfl⟩

/-- A value of `locate_part` is an index from the start index on, not beyond the
size of the pattern, at which the part stands. -/
theorem locate_part_value (value part : List Char) :
    ∀ (n index j : Nat), value.length + 1 - index = n →
      locate_part value part index = outcome.value j →
      index ≤ j ∧ j ≤ value.length ∧ (value.drop j).take part.length = part := by
  intro n
  induction n using Nat.strong_induction_on with
  | _ n ih =>
    intro index j hn h
    rw [locate_part] at h
    by_cases hle : index ≤ value.length
    · rw [if_pos hle] at h
      by_cases heq : (value.drop index).take part.length = part
      · simp only [heq, ne_eq, not_true_eq_false, if_false] at h
        injection h with h
        subst h
        exact ⟨Nat.le_refl _, hle, heq⟩
      · simp only [ne_eq, heq, not_false_eq_true, if_true] at h
        obtain ⟨h1, h2, h3⟩ := ih (value.length + 1 - (index + 1)) (by omega) (index + 1) j rfl h
        exact ⟨by omega, h2, h3⟩
    · rw [if_neg hle] at h
      cases h

/-- The loop of `locate_part` runs over delimiters that stand before a part which
begins with another character. -/
theorem locate_part_skip (value delims tl : List Char) (c0 : Char) (hc0 : c0 ∉ delims)
    (m : Nat) (hm : m ≤ value.length) :
    ∀ (k index : Nat), index + k = m →
      (∀ i, index ≤ i → i < m → ∃ c, value[i]? = some c ∧ c ∈ delims) →
      locate_part value (c0 :: tl) index = locate_part value (c0 :: tl) m := by
  intro k
  induction k with
  | zero =>
    intro index hk _
    have : index = m := by omega
    rw [this]
  | succ k ih =>
    intro index hk hd
    obtain ⟨c, hc, hcd⟩ := hd index (Nat.le_refl _) (by omega)
    have hlt : index < value.length := by omega
    have hne : (value.drop index).take (c0 :: tl).length ≠ c0 :: tl := by
      rw [List.drop_eq_getElem_cons hlt]
      have hci : value[index] = c := by
        rw [List.getElem?_eq_getElem hlt] at hc
        injection hc
      rw [hci]
      simp only [List.length_cons, List.take_succ_cons, ne_eq, List.cons.injEq, not_and]
      intro hcc
      rw [hcc] at hcd
      exact absurd hcd hc0
    rw [locate_part_step value _ index (by omega) hne]
    exact ih (index + 1) (by omega) (fun i hi him => hd i (by omega) him)

/-- The `for` loop of the date branch on the parts that `split_string_any` returns
for the rest `s` of the pattern, entered with an index from which only
delimiters stand before `s`: every part is located, and the loop returns with an
index that is not beyond the size of the pattern. -/
theorem format_date_loop_total (value delims : List Char) (d : datetime)
    (hm : 1 ≤ d.month ∧ d.month ≤ 12) :
    ∀ (n : Nat) (pre s : List Char) (index prev : Nat) (result : List Char)
      (processed_month : Bool),
      s.length = n → value = pre ++ s → prev ≤ index → index ≤ pre.length →
      (∀ i, index ≤ i → i < pre.length → ∃ c, value[i]? = some c ∧ c ∈ delims) →
      ∃ st, format_date_loop value d (keep_parts (split_any_pieces delims s)) index prev
              result processed_month = outcome.value st ∧
        st.1 ≤ value.length := by
  intro n
  induction n using Nat.strong_induction_on with
  | _ n ih =>
    intro pre s index prev result processed_month hn hv hpi hip hd
    have hlen : value.length = pre.length + s.length := by rw [hv, List.length_append]
    have hdrop : value.drop pre.length = s := by rw [hv, List.drop_left]
    cases hf : find_index (fun y => decide (y ∈ delims)) s with
    | none =>
      rw [split_any_pieces_of_none delims s hf]
      have hkeep : keep_parts [s] = [s] := rfl
      rw [hkeep]
      have hloc : ∃ j, locate_part value s index = outcome.value j ∧ j ≤ pre.length := by
        cases s with
        | nil => exact ⟨index, locate_part_found value [] index (by omega) (by simp), hip⟩
        | cons c0 tl =>
          have hc0 : c0 ∉ delims := by
            have := (find_index_none _ _).mp hf c0 (List.mem_cons_self _ _)
            simpa using this
          refine ⟨pre.length, ?_, Nat.le_refl _⟩
          rw [locate_part_skip value delims tl c0 hc0 pre.length (by omega)
            (pre.length - index) index (by omega) hd]
          exact locate_part_found value _ pre.length (by omega) (by rw [hdrop]; simp)
      obtain ⟨j, hj, hjp⟩ := hloc
      obtain ⟨_, hj2, _⟩ := locate_part_value value s _ index j rfl hj
      obtain ⟨st, hst⟩ := append_date_part_value d s
        (result ++ (value.drop prev).take (j - prev)) processed_month hm
      refine ⟨(j + s.length, st.1), ?_, ?_⟩
      · rw [format_date_loop_step value d s [] index prev result processed_month j _ st hj
          (substr_value _ _ _ (by omega)) hst]
        rfl
      · have h3 := (locate_part_value value s _ index j rfl hj).2.2
        have h4 : ((value.drop j).take s.length).length = s.length := by rw [h3]
        rw [List.length_take, List.length_drop] at h4
        show j + s.length ≤ value.length
        omega
    | some q =>
      obtain ⟨y, hy, hyd⟩ := find_index_some_get _ s q hf
      have hyd1 : y ∈ delims := by simpa using hyd
      have hq : q < s.length := find_index_some_lt _ s q hf
      rw [split_any_pieces_of_some delims s q hf,
        keep_parts_cons _ _ (split_any_pieces_ne_nil _ _)]
      have hv1 : value = (pre ++ s.take (q + 1)) ++ s.drop (q + 1) := by
        rw [List.append_assoc, List.take_append_drop]
        exact hv
      have hpl : (pre ++ s.take (q + 1)).length = pre.length + q + 1 := by
        rw [List.length_append, List.length_take]
        omega
      have hvq : value[pre.length + q]? = some y := by
        rw [hv, List.getElem?_append_right (by omega)]
        rw [show pre.length + q - pre.length = q from by omega]
        exact hy
      cases hs : s.take q with
      | nil =>
        have hq0 : q = 0 := by
          have := congrArg List.length hs
          rw [List.length_take] at this
          simp only [List.length_nil] at this
          omega
        subst hq0
        simp only [List.isEmpty_nil, Bool.not_true, Bool.false_eq_true, if_false,
          List.nil_append]
        refine ih (s.drop 1).length (by rw [List.length_drop]; omega)
          (pre ++ s.take 1) (s.drop 1) index prev result processed_month rfl hv1 hpi
          (by rw [hpl]; omega) ?_
        intro i hi hil
        rw [hpl] at hil
        by_cases hip1 : i < pre.length
        · exact hd i hi hip1
        · have : i = pre.length + 0 := by omega
          rw [this]
          exact ⟨y, hvq, hyd1⟩
      | cons c0 tl =>
        have hc0 : c0 ∉ delims := by
          have hmem : c0 ∈ s.take q := by rw [hs]; exact List.mem_cons_self _ _
          obtain ⟨i0, hi0⟩ := List.getElem?_of_mem hmem
          have hi0q : i0 < q := by
            have := getElem?_some_lt _ _ _ hi0
            rw [List.length_take] at this
            omega
          rw [List.getElem?_take_of_lt hi0q] at hi0
          intro hcd
          have hsome : find_index (fun y => decide (y ∈ delims)) s = some q := hf
          have hbefore := find_index_some_before (fun y => decide (y ∈ delims)) s q hsome i0 hi0q
            c0 hi0
          simp [hcd] at hbefore
        have hplen : (c0 :: tl).length = q := by
          rw [← hs, List.length_take]
          omega
        simp only [List.isEmpty_cons, Bool.not_false, if_true, List.singleton_append]
        have hj : locate_part value (c0 :: tl) index = outcome.value pre.length := by
          rw [locate_part_skip value delims tl c0 hc0 pre.length (by omega)
            (pre.length - index) index (by omega) hd]
          refine locate_part_found value _ pre.length (by omega) ?_
          rw [hdrop, hplen, hs]
        obtain ⟨st, hst⟩ := append_date_part_value d (c0 :: tl)
          (result ++ (value.drop prev).take (pre.length - prev)) processed_month hm
        rw [format_date_loop_step value d (c0 :: tl) _ index prev result processed_month
          pre.length _ st hj (substr_value _ _ _ (by omega)) hst, hplen]
        refine ih (s.drop (q + 1)).length (by rw [List.length_drop]; omega)
          (pre ++ s.take (q + 1)) (s.drop (q + 1)) (pre.length + q) (pre.length + q) st.1 st.2
          rfl hv1 (Nat.le_refl _) (by rw [hpl]; omega) ?_
        intro i hi hil
        rw [hpl] at hil
        have : i = pre.length + q := by omega
        rw [this]
        exact ⟨y, hvq, hyd1⟩

/-- C40: for every pattern of the date alphabet and every calendar value with a
month from 1 to 12, the date branch of the numeric `format_section` returns a
string: `split_string_any` returns its parts, the loop locates every part and
returns with an index that is not beyond the size of the pattern; and whenever
the locating loop returns an index, that index is not beyond the size of the
pattern and the part stands there. -/
theorem C40_date_branch_total (ext : collaborators) (number : ℚ) (fmt : section_t)
    (base_date : calendar) (hdate : is_date_format fmt.value = true)
    (hmonth : 1 ≤ (ext.from_number number base_date).month ∧
      (ext.from_number number base_date).month ≤ 12) :
    ∃ parts st result,
      split_string_any fmt.value ",-/: ".toList = outcome.value parts ∧
      format_date_loop fmt.value (ext.from_number number base_date) parts 0 0 [] false
        = outcome.value st ∧
      st.1 ≤ fmt.value.length ∧
      (∀ part index j, locate_part fmt.value part index = outcome.value j →
        index ≤ j ∧ j ≤ fmt.value.length ∧ (fmt.value.drop j).take part.length = part) ∧
      format_section ext number fmt base_date = outcome.value result := by
  obtain ⟨st, hst, hbound⟩ := format_date_loop_total fmt.value ",-/: ".toList
    (ext.from_number number base_date) hmonth fmt.value.length [] fmt.value 0 0 [] false rfl rfl
    (Nat.le_refl _) (Nat.le_refl _) (fun i _ hi => absurd hi (by simp))
  have hfs : ∃ result, format_section ext number fmt base_date = outcome.value result := by
    unfold format_section
    rw [hdate]
    simp only [if_true]
    rw [split_string_any_eq, bind_value, hst, bind_value]
    split
    · rw [substr_from_value _ _ hbound, bind_value]
      exact ⟨_, rfl⟩
    · exact ⟨_, rfl⟩
  obtain ⟨result, hres⟩ := hfs
  exact ⟨_, st, result, split_string_any_eq _ _, hst, hbound,
    fun part index j h => locate_part_value fmt.value part _ index j rfl h, hres⟩

/-- C40 at the pattern "yyyy-mm-dd h:mm:ss" and the date 2015-03-07. -/
theorem C40_date_branch_total_witness :
    is_date_format
      ({ has_value := true, value := "yyyy-mm-dd h:mm:ss".toList } : section_t).value = true ∧
    (1 ≤ (sample_collaborators.from_number 42070 calendar.windows_1900).month ∧
      (sample_collaborators.from_number 42070 calendar.windows_1900).month ≤ 12) ∧
    ∃ parts st result,
      split_string_any
          ({ has_value := true, value := "yyyy-mm-dd h:mm:ss".toList } : section_t).value
          ",-/: ".toList = outcome.value parts ∧
      format_date_loop
          ({ has_value := true, value := "yyyy-mm-dd h:mm:ss".toList } : section_t).value
          (sample_collaborators.from_number 42070 calendar.windows_1900) parts 0 0 [] false
        = outcome.value st ∧
      st.1 ≤
        ({ has_value := true, value := "yyyy-mm-dd h:mm:ss".toList } : section_t).value.length ∧
      (∀ part index j,
        locate_part
            ({ has_value := true, value := "yyyy-mm-dd h:mm:ss".toList } : section_t).value
            part index = outcome.value j →
        index ≤ j ∧
        j ≤ ({ has_value := true,
               value := "yyyy-mm-dd h:mm:ss".toList } : section_t).value.length ∧
        (({ has_value := true,
            value := "yyyy-mm-dd h:mm:ss".toList } : section_t).value.drop j).take part.length
          = part) ∧
      format_section sample_collaborators 42070
          { has_value := true, value := "yyyy-mm-dd h:mm:ss".toList } calendar.windows_1900
        = outcome.value result :=
  ⟨by decide, by decide,
    C40_date_branch_total sample_collaborators 42070
      { has_value := true, value := "yyyy-mm-dd h:mm:ss".toList } calendar.windows_1900
      (by decide) (by decide)⟩

/-! ### A stored format with the hash of a catalog string (C39) -/

end xlnt
